import Mathlib

/-!
# trdl: task manager, release pipeline, signature verifier, client update loop, command line

A shallow embedding of the Go sources

* `pkg/tasks_manager/actions.go`   (namespace `Trdl.TasksManager`)
* `path_release.go`                (namespace `Trdl.Release`)
* `server/pkg/git` (tests only)    (namespace `Trdl.Signatures`)
* `pkg/project/update.go`, `pkg/project/client.go` (namespace `Trdl.Project`)
* `client/cmd/trdl/common.go`      (namespace `Trdl.Cmd`)

The file has two halves: the definitions of all packages, then the
theorems about them, package by package.

Go functions with side effects are embedded with explicit state passing: the
state a function reads and writes is an argument and part of the result.
External collaborators (Vault storage, the TUF client, the file system, git,
docker) are state components with explicit failure oracles, so that every
`if err != nil` branch of the source is reachable in the embedding.
-/

namespace Trdl.TasksManager

/-! ## Data model -/

/-- Go `error` values that the task manager handles.  `BusyError` is the
package sentinel `errors.New("busy")`, compared by identity in the source;
`external` is an error handed back by the storage backend or a storage helper;
`wrap` is `fmt.Errorf(format, ..., cause)`, which always yields a fresh error
value (the `%q` operands of the format are not tracked). -/
inductive Error where
  | BusyError : Error
  | external (msg : String) : Error
  | wrap (format : String) (cause : Error) : Error
  deriving DecidableEq, Repr

/-- The storage area a task record lives in (the argument of
`taskStorageKeyPrefix`). -/
inductive taskState where
  | running
  | queued
  | completed
  deriving DecidableEq, Repr

/-- The status field of a task record. -/
inductive taskStatus where
  | taskStatusQueued
  | taskStatusRunning
  | taskStatusSucceeded
  | taskStatusFailed
  | taskStatusCanceled
  deriving DecidableEq, Repr

/-- A persisted task record. -/
structure Task where
  UUID : String
  Status : taskStatus
  Reason : String
  deriving DecidableEq, Repr

/-- The persisted task manager configuration (`config.TaskTimeout`). -/
structure configuration where
  TaskTimeout : Nat
  deriving DecidableEq, Repr

/-- The contents of one `logical.Storage`, as far as the task manager uses it.

* `tasks`: the task records, each filed under the key prefix of a state
  (`taskStorageKeyPrefix(state) + uuid`); the prefixes of different states
  are disjoint key ranges and none of them covers the key
  `storageKeyCurrentRunningTask`.
* `currentRunningTask`: the value under `storageKeyCurrentRunningTask`.
* `storedConfiguration`: what reading the configuration yields.
* `listFault`, `switchFault`, `addFault`: the backend failing a `List` on a
  state prefix, a task transition, or the write of a new task record. -/
structure Store where
  tasks : List (taskState × Task)
  currentRunningTask : Option String
  storedConfiguration : Except String (Option configuration)
  listFault : taskState → Option String
  switchFault : String → Option String
  addFault : Option String

/-- Go `worker.Task`: what is sent over the task channel.  `Action` is the
closure `workerTaskFunc`; it is determined by the `taskFunc` it wraps and the
timeout it was built with. -/
structure WorkerTask (α : Type) where
  UUID : String
  Action : α × Nat

/-- Go `Manager`: the storage handle (`nil` until the first action call) and the
buffered task channel (oldest element first) with its capacity. -/
structure Manager (α : Type) where
  Storage : Option Nat
  taskChan : List (WorkerTask α)
  taskChanSize : Nat

/-- Everything an action call can read or write: the manager, the storages
(addressed by handle), the stream of identifiers the UUID generator will
produce with the position of the next one, and the package default timeout. -/
structure World (α : Type) where
  m : Manager α
  stores : Nat → Store
  uuidSource : Nat → String
  uuidNext : Nat
  defaultTaskTimeoutDuration : Nat

/-- How a call ends: it returns `r`, it parks forever on a send to the full
task channel (there is no worker in the embedding), or it panics. -/
inductive Outcome (ρ σ : Type) where
  | returned (r : ρ) (s : σ) : Outcome ρ σ
  | blocked (s : σ) : Outcome ρ σ
  | panicked (s : σ) : Outcome ρ σ

/-- The state a call leaves behind, however it ends. -/
def Outcome.state {ρ σ : Type} : Outcome ρ σ → σ
  | .returned _ s => s
  | .blocked s => s
  | .panicked s => s

/-- The returned value, if the call returns. -/
def Outcome.result {ρ σ : Type} : Outcome ρ σ → Option ρ
  | .returned r _ => some r
  | .blocked _ => none
  | .panicked _ => none

/-! ## Storage primitives -/

/-- Go `storage.List(ctx, taskStorageKeyPrefix(state))`: the identifiers filed
under the prefix of `st`. -/
def Store.List (s : Store) (st : taskState) : Except String (List String) :=
  match s.listFault st with
  | some e => .error e
  | none => .ok ((s.tasks.filter (fun e => decide (e.1 = st))).map (fun e => e.2.UUID))

/-- Go `storage.Get` of the record of `uuid` under the prefix of `st`. -/
def Store.getTask (s : Store) (st : taskState) (uuid : String) : Option Task :=
  (s.tasks.find? (fun e => decide (e.1 = st ∧ e.2.UUID = uuid))).map (fun e => e.2)

/-- Go `storage.Delete` of the record of `uuid` under the prefix of `st`. -/
def Store.deleteTask (s : Store) (st : taskState) (uuid : String) : Store :=
  { s with tasks := s.tasks.filter (fun e => !decide (e.1 = st ∧ e.2.UUID = uuid)) }

/-- Go `storage.Put` of a record under the prefix of `st` (a key holds one
value: an older record under the same key is replaced). -/
def Store.putTask (s : Store) (st : taskState) (t : Task) : Store :=
  { s with tasks :=
      s.tasks.filter (fun e => !decide (e.1 = st ∧ e.2.UUID = t.UUID)) ++ [(st, t)] }

/-- Replace the contents of the storage with handle `sid`. -/
def World.setStore {α : Type} (w : World α) (sid : Nat) (s : Store) : World α :=
  { w with stores := fun i => if i = sid then s else w.stores i }

/-! ## Helpers of the package that are not part of the sources at hand -/

/-- Modelled from the spec: `getConfiguration` is not under src/.  It reads
the persisted configuration (`task_timeout`), `nil` when none is stored, or
fails with a storage error. -/
def getConfiguration (s : Store) : Except Error (Option configuration) :=
  match s.storedConfiguration with
  | .error e => .error (.external e)
  | .ok c => .ok c

/-- The options of `switchTaskToCompletedInStorage`. -/
structure switchTaskToCompletedInStorageOptions where
  reason : String

/-- Modelled from the spec: `switchTaskToCompletedInStorage` is not under
src/.  It transitions the persisted task `uuid` (looked up among the running
records, then among the queued ones) to the given terminal status with the
given reason: the record leaves its running/queued key and is filed as
completed.  It fails when the backend fails or the task is not found. -/
def switchTaskToCompletedInStorage (s : Store) (status : taskStatus) (uuid : String)
    (opts : switchTaskToCompletedInStorageOptions) : Except Error Store :=
  match s.switchFault uuid with
  | some e => .error (.external e)
  | none =>
    match s.getTask .running uuid with
    | some t =>
      .ok ((s.deleteTask .running uuid).putTask .completed
        { t with Status := status, Reason := opts.reason })
    | none =>
      match s.getTask .queued uuid with
      | some t =>
        .ok ((s.deleteTask .queued uuid).putTask .completed
          { t with Status := status, Reason := opts.reason })
      | none => .error (.external "task not found")

/-- Modelled from the spec: `addNewTaskToStorage` is not under src/.  It
creates a task with a freshly generated identifier and status queued and
persists it among the queued records of `storage`; it returns the identifier,
or the error of the failed write. -/
def addNewTaskToStorage {α : Type} (w : World α) (storage : Nat) :
    (String × Option Error) × World α :=
  let uuid := w.uuidSource w.uuidNext
  let w1 := { w with uuidNext := w.uuidNext + 1 }
  match (w1.stores storage).addFault with
  | some e => (("", some (.external e)), w1)
  | none =>
    ((uuid, none),
      w1.setStore storage
        ((w1.stores storage).putTask .queued
          { UUID := uuid, Status := .taskStatusQueued, Reason := "" }))

/-! ## actions.go -/

/-- The constant `taskReasonInvalidatedTask`. -/
def taskReasonInvalidatedTask : String := "the task canceled due to restart of the plugin"

/-- The first loop of `invalidateStorage`: list every state of `states` and
append the results. -/
def invalidateStorage.collect (s : Store) : List taskState → List String →
    Except Error (List String)
  | [], list => .ok list
  | state :: rest, list =>
    match s.List state with
    | .error e => .error (.wrap "unable to list %q in storage: %s" (.external e))
    | .ok l => invalidateStorage.collect s rest (list ++ l)

/-- The second loop of `invalidateStorage`: switch every listed task to
completed with status canceled. -/
def invalidateStorage.sweep : Store → List String → Option Error × Store
  | s, [] => (none, s)
  | s, uuid :: rest =>
    match switchTaskToCompletedInStorage s .taskStatusCanceled uuid
        { reason := taskReasonInvalidatedTask } with
    | .error e => (some (.wrap "unable to invalidate task %q: %s" e), s)
    | .ok s1 => invalidateStorage.sweep s1 rest

/-- Go `Manager.invalidateStorage`. -/
def invalidateStorage (reqStorage : Store) : Option Error × Store :=
  match invalidateStorage.collect reqStorage [.running, .queued] [] with
  | .error e => (some e, reqStorage)
  | .ok list => invalidateStorage.sweep reqStorage list

/-- The loop of `isBusy` over the two key prefixes. -/
def isBusy.loop (s : Store) : List taskState → Bool × Option Error
  | [] => (false, none)
  | pfx :: rest =>
    match s.List pfx with
    | .error e => (false, some (.wrap "unable to list %q in storage: %s" (.external e)))
    | .ok list => if list.length ≠ 0 then (true, none) else isBusy.loop s rest

/-- Go `Manager.isBusy`: busy if there are running or queued tasks. -/
def isBusy (reqStorage : Store) : Bool × Option Error :=
  isBusy.loop reqStorage [.running, .queued]

/-- Go `Manager.queueTask`: persist a new queued task in `m.Storage`, then send
it over the task channel. -/
def queueTask {α : Type} (w : World α) (workerTaskFunc : α × Nat) :
    Outcome (String × Option Error) (World α) :=
  match w.m.Storage with
  | none => .panicked w
  | some storage =>
    match addNewTaskToStorage w storage with
    | ((_, some err), w1) => .returned ("", some err) w1
    | ((queuedTaskUUID, none), w1) =>
      if w1.m.taskChan.length < w1.m.taskChanSize then
        .returned (queuedTaskUUID, none)
          { w1 with m := { w1.m with
              taskChan := w1.m.taskChan ++ [{ UUID := queuedTaskUUID, Action := workerTaskFunc }] } }
      else .blocked w1

/-- The timeout chosen in `doTaskWrap`: the configured one, or the package
default when no configuration is stored. -/
def taskTimeoutDuration (config : Option configuration) (defaultTaskTimeoutDuration : Nat) : Nat :=
  match config with
  | some c => c.TaskTimeout
  | none => defaultTaskTimeoutDuration

/-- The block `if m.Storage == nil { ... }` of `doTaskWrap` ("initialize on
first task"): on the first call record the request storage and run the
invalidation sweep on it; later calls skip it. -/
def doTaskWrap.init {α : Type} (w : World α) (reqStorage : Nat) : Option Error × World α :=
  match w.m.Storage with
  | none =>
    let w1 := { w with m := { w.m with Storage := some reqStorage } }
    match invalidateStorage (w1.stores reqStorage) with
    | (some err, s) =>
      (some (.wrap "unable to invalidate storage: %s" err), w1.setStore reqStorage s)
    | (none, s) => (none, w1.setStore reqStorage s)
  | some _ => (none, w)

/-- Go `Manager.doTaskWrap`.  The callback `f` may assign the variable `taskUUID`
of its caller; the embedding threads that variable through: `taskUUID` is its
value on entry and the first component of the result its value on return. -/
def doTaskWrap {α : Type} (w : World α) (reqStorage : Nat) (taskFunc : α) (taskUUID : String)
    (f : World α → α × Nat → Outcome (String × Option Error) (World α)) :
    Outcome (String × Option Error) (World α) :=
  match doTaskWrap.init w reqStorage with
  | (some err, w1) => .returned (taskUUID, some err) w1
  | (none, w1) =>
    match getConfiguration (w1.stores reqStorage) with
    | .error err =>
      .returned (taskUUID, some (.wrap "unable to get tasks manager configuration: %s" err)) w1
    | .ok config =>
      f w1 (taskFunc, taskTimeoutDuration config w1.defaultTaskTimeoutDuration)

/-- Go `Manager.RunTask`. -/
def RunTask {α : Type} (w : World α) (reqStorage : Nat) (taskFunc : α) :
    Outcome (String × Option Error) (World α) :=
  doTaskWrap w reqStorage taskFunc "" (fun w1 newTaskFunc =>
    match isBusy (w1.stores reqStorage) with
    | (_, some err) => .returned ("", some err) w1
    | (busy, none) =>
      if busy then .returned ("", some .BusyError) w1
      else queueTask w1 newTaskFunc)

/-- Go `Manager.AddOptionalTask`. -/
def AddOptionalTask {α : Type} (w : World α) (reqStorage : Nat) (taskFunc : α) :
    Outcome (String × Bool × Option Error) (World α) :=
  match RunTask w reqStorage taskFunc with
  | .returned (taskUUID, some err) w1 =>
    if err = .BusyError then .returned (taskUUID, false, none) w1
    else .returned ("", false, some err) w1
  | .returned (taskUUID, none) w1 => .returned (taskUUID, true, none) w1
  | .blocked w1 => .blocked w1
  | .panicked w1 => .panicked w1

/-- Go `Manager.AddTask`. -/
def AddTask {α : Type} (w : World α) (reqStorage : Nat) (taskFunc : α) :
    Outcome (String × Option Error) (World α) :=
  doTaskWrap w reqStorage taskFunc "" (fun w1 newTaskFunc => queueTask w1 newTaskFunc)

/-! ## actions_test.go: the fixtures of the package tests -/

/-- An empty `logical.InmemStorage` without faults. -/
def InmemStorage : Store where
  tasks := []
  currentRunningTask := none
  storedConfiguration := .ok none
  listFault := fun _ => none
  switchFault := fun _ => none
  addFault := none

/-- Go `initManagerWithoutWorker`: a manager with an unset storage handle and an
empty task channel of capacity `taskChanSize`. -/
def initManagerWithoutWorker (taskChanSize : Nat) : Manager Unit where
  Storage := none
  taskChan := []
  taskChanSize := taskChanSize

/-- A sample identifier stream: `u`, `uu`, `uuu`, ... -/
def sampleUUIDs (n : Nat) : String := String.mk (List.replicate (n + 1) 'u')

/-- Go `setupTest`: a manager without worker (channel capacity 2) and `storage`
under handle 0 (and every other handle). -/
def setupTest (storage : Store) : World Unit where
  m := initManagerWithoutWorker 2
  stores := fun _ => storage
  uuidSource := sampleUUIDs
  uuidNext := 0
  defaultTaskTimeoutDuration := 600

/-- Go `noneTask`. -/
def noneTask : Unit := ()

/-- The storage of `TestManager_RunTaskInvalidateStorage`: a running task `r`
with `current_running_task = r`, and a queued task `q`. -/
def inconsistentStorage : Store :=
  { InmemStorage with
    tasks := [(.running, { UUID := "r", Status := .taskStatusRunning, Reason := "" }),
              (.queued, { UUID := "q", Status := .taskStatusQueued, Reason := "" })]
    currentRunningTask := some "r" }

/-- The storage of `TestManager_RunTaskWithCurrentRunningTask`: no task
record, `current_running_task = ANY`. -/
def currentRunningTaskStorage : Store :=
  { InmemStorage with currentRunningTask := some "ANY" }

/-- A storage whose backend fails the write of a new task record. -/
def readOnlyStorage : Store :=
  { InmemStorage with addFault := some "read-only storage" }

/-- Go `storage.Delete(ctx, storageKeyCurrentRunningTask)`. -/
def Store.deleteCurrentRunningTask (s : Store) : Store :=
  { s with currentRunningTask := none }

/-- The set-up of `TestManager_RunTaskWithCurrentRunningTask`: as `setupTest`,
followed by `m.Storage = storage`. -/
def setupInitialisedTest (storage : Store) : World Unit :=
  { setupTest storage with m := { initManagerWithoutWorker 2 with Storage := some 0 } }

/-- Consecutive `AddTask` calls, one per element of the list, each on the
state the previous one left (the loop of `TestManager_AddTask`); the results
are collected in call order. -/
def addTasks {α : Type} (w : World α) (reqStorage : Nat) :
    List α → Outcome (List (String × Option Error)) (World α)
  | [] => .returned [] w
  | taskFunc :: rest =>
    match AddTask w reqStorage taskFunc with
    | .returned r w1 =>
      match addTasks w1 reqStorage rest with
      | .returned rs w2 => .returned (r :: rs) w2
      | .blocked w2 => .blocked w2
      | .panicked w2 => .panicked w2
    | .blocked w1 => .blocked w1
    | .panicked w1 => .panicked w1

/-- The store holds a completed record of `uuid` whose reason is
`taskReasonInvalidatedTask`. -/
def Invalidated (s : Store) (uuid : String) : Prop :=
  ∃ t, (taskState.completed, t) ∈ s.tasks ∧ t.UUID = uuid ∧
    t.Reason = taskReasonInvalidatedTask

end Trdl.TasksManager

namespace Trdl.Release

open TasksManager (Error Outcome)

/-! ## Release pipeline (path_release.go): data model -/

/-- Go `http.BasicAuth`. -/
structure BasicAuth where
  Username : String
  Password : String
  deriving DecidableEq, Repr

/-- Go `trdlGit.CloneOptions`. -/
structure CloneOptions where
  TagName : String
  RecurseSubmodules : Nat
  Auth : Option BasicAuth
  deriving DecidableEq, Repr

/-- Go `config.Trdl`: the parsed `trdl.yaml`. -/
structure Trdl where
  DockerImage : String
  Commands : List String
  deriving DecidableEq, Repr

/-- Go `tar.Header`, as far as the pipeline reads it. -/
structure Header where
  Typeflag : Char
  Name : String
  deriving DecidableEq, Repr

/-- The constant `tar.TypeDir`. -/
def TypeDir : Char := '5'

/-- How the artifact tar stream ends once its entries are read: `Next`
returns `io.EOF`, returns a read error, or never returns (the writing end of
the pipe is neither written nor closed any more). -/
inductive StreamEnd where
  | EOF
  | readError (msg : String)
  | hang
  deriving DecidableEq, Repr

/-- What `twArtifacts.Next()` yields call after call: the headers, then the
ending. -/
structure TarStream where
  entries : List Header
  ending : StreamEnd
  deriving DecidableEq, Repr

/-- The part of the plugin configuration the release task reads. -/
structure Configuration where
  GitRepoUrl : String
  RequiredNumberOfVerifiedSignaturesOnCommit : Int

/-- The collaborators of the release task, each with the results it gives.
`Repo` is the type of in-memory git repositories.  `PublishReleaseTarget` and
`Commit` may depend on how many targets the repository handle has received
before. -/
structure Env (Repo : Type) where
  DefaultSubmoduleRecursionDepth : Nat
  CloneInMemory : String → CloneOptions → Except String Repo
  GetTrustedPGPPublicKeys : Except String (List String)
  VerifyTagSignatures : Repo → String → List String → Int → Option String
  ReadWorktreeFile : Repo → String → Except String String
  ParseTrdl : String → String → Except String Trdl
  Validate : Trdl → Option String
  NewClientWithOpts : Option String
  ImageBuild : Repo → String → List String → Except String TarStream
  PublishReleaseTarget : Nat → String → String → Option String
  Commit : Nat → Option String

/-- The steps of the release task that call a collaborator. -/
inductive Step where
  | clone (url gitTag : String) (auth : Option BasicAuth)
  | getTrustedPGPPublicKeys
  | verifyTagSignatures (gitTag : String) (trustedPGPPublicKeys : List String) (required : Int)
  | getTrdlConfig (gitTag : String)
  | buildReleaseArtifacts (fromImage : String) (runCommands : List String)
  | next
  | publishReleaseTarget (release name : String)
  | commit
  deriving DecidableEq, Repr

/-- One invocation of a step, with whether it returned an error. -/
structure Call where
  step : Step
  failed : Bool
  deriving DecidableEq, Repr

/-- The position of a step in the pipeline; reading the next tar header and
publishing an entry alternate and share a position. -/
def Step.rank : Step → Nat
  | .clone _ _ _ => 0
  | .getTrustedPGPPublicKeys => 1
  | .verifyTagSignatures _ _ _ => 2
  | .getTrdlConfig _ => 3
  | .buildReleaseArtifacts _ _ => 4
  | .next => 5
  | .publishReleaseTarget _ _ => 5
  | .commit => 6

/-! ## path_release.go -/

/-- The name `config.TrdlFileName`. -/
def TrdlFileName : String := "trdl.yaml"

/-- The `CloneOptions` built by `cloneGitRepositoryTag`: basic auth only when
both the user name and the password are non-empty. -/
def cloneGitOptions {Repo : Type} (env : Env Repo) (gitTag username password : String) :
    CloneOptions :=
  { TagName := gitTag
    RecurseSubmodules := env.DefaultSubmoduleRecursionDepth
    Auth := if username ≠ "" ∧ password ≠ "" then
        some { Username := username, Password := password }
      else none }

/-- Go `cloneGitRepositoryTag`. -/
def cloneGitRepositoryTag {Repo : Type} (env : Env Repo) (url gitTag username password : String) :
    Except Error Repo :=
  match env.CloneInMemory url (cloneGitOptions env gitTag username password) with
  | .error e => .error (.external e)
  | .ok gitRepo => .ok gitRepo

/-- Go `getTrdlConfig`. -/
def getTrdlConfig {Repo : Type} (env : Env Repo) (gitRepo : Repo) (gitTag : String) :
    Except Error Trdl :=
  match env.ReadWorktreeFile gitRepo TrdlFileName with
  | .error e => .error (.wrap "unable to read worktree file %q: %s" (.external e))
  | .ok data =>
    match env.ParseTrdl data gitTag with
    | .error e => .error (.wrap "error parsing %q configuration file: %s" (.external e))
    | .ok cfg =>
      match env.Validate cfg with
      | some e => .error (.wrap "error validation %q configuration file: %s" (.external e))
      | none => .ok cfg

/-- Go `buildReleaseArtifacts`: create the docker client and start the image
build; on success the artifact tar is what the reading end of the pipe will
deliver. -/
def buildReleaseArtifacts {Repo : Type} (env : Env Repo) (gitRepo : Repo) (fromImage : String)
    (runCommands : List String) : Except Error TarStream :=
  match env.NewClientWithOpts with
  | some e => .error (.wrap "unable to create docker client: %s" (.external e))
  | none =>
    match env.ImageBuild gitRepo fromImage runCommands with
    | .error e => .error (.wrap "unable to run docker image build: %s" (.external e))
    | .ok response => .ok response

/-- The loop over the artifact tar in the task closure, followed by the
commit.  `published` counts the targets handed to the publisher so far and
`log` is the list of calls made so far. -/
def publishLoop {Repo : Type} (env : Env Repo) (gitTag : String) (ending : StreamEnd) :
    List Header → Nat → List Call → Outcome (Option Error) (List Call)
  | [], published, log =>
    match ending with
    | .hang => .blocked log
    | .readError e =>
      .returned (some (.wrap "error reading next tar artifact header: %s" (.external e)))
        (log ++ [⟨.next, true⟩])
    | .EOF =>
      match env.Commit published with
      | some e =>
        .returned (some (.wrap "unable to commit new tuf repository state: %s" (.external e)))
          (log ++ [⟨.next, false⟩, ⟨.commit, true⟩])
      | none => .returned none (log ++ [⟨.next, false⟩, ⟨.commit, false⟩])
  | hdr :: rest, published, log =>
    if hdr.Typeflag ≠ TypeDir then
      match env.PublishReleaseTarget published gitTag hdr.Name with
      | some e =>
        .returned (some (.wrap "unable to publish release target %q: %s" (.external e)))
          (log ++ [⟨.next, false⟩, ⟨.publishReleaseTarget gitTag hdr.Name, true⟩])
      | none =>
        publishLoop env gitTag ending rest (published + 1)
          (log ++ [⟨.next, false⟩, ⟨.publishReleaseTarget gitTag hdr.Name, false⟩])
    else publishLoop env gitTag ending rest published (log ++ [⟨.next, false⟩])

/-- The task closure that `pathRelease` hands to `RunTask`.  The result is the
error the closure returns; the state is the list of calls it made, in
order. -/
def releaseTask {Repo : Type} (env : Env Repo) (cfg : Configuration)
    (gitTag gitUsername gitPassword : String) : Outcome (Option Error) (List Call) :=
  let auth := (cloneGitOptions env gitTag gitUsername gitPassword).Auth
  match cloneGitRepositoryTag env cfg.GitRepoUrl gitTag gitUsername gitPassword with
  | .error err =>
    .returned (some (.wrap "unable to clone git repository: %s" err))
      [⟨.clone cfg.GitRepoUrl gitTag auth, true⟩]
  | .ok gitRepo =>
    let log1 : List Call := [⟨.clone cfg.GitRepoUrl gitTag auth, false⟩]
    match env.GetTrustedPGPPublicKeys with
    | .error err =>
      .returned (some (.wrap "unable to get trusted pgp public keys: %s" (.external err)))
        (log1 ++ [⟨.getTrustedPGPPublicKeys, true⟩])
    | .ok trustedPGPPublicKeys =>
      let log2 := log1 ++ [⟨.getTrustedPGPPublicKeys, false⟩]
      let verify := Step.verifyTagSignatures gitTag trustedPGPPublicKeys
        cfg.RequiredNumberOfVerifiedSignaturesOnCommit
      match env.VerifyTagSignatures gitRepo gitTag trustedPGPPublicKeys
          cfg.RequiredNumberOfVerifiedSignaturesOnCommit with
      | some err =>
        .returned (some (.wrap "signature verification failed: %s" (.external err)))
          (log2 ++ [⟨verify, true⟩])
      | none =>
        let log3 := log2 ++ [⟨verify, false⟩]
        match getTrdlConfig env gitRepo gitTag with
        | .error err =>
          .returned (some (.wrap "unable to get trdl configuration: %s" err))
            (log3 ++ [⟨.getTrdlConfig gitTag, true⟩])
        | .ok trdlCfg =>
          let log4 := log3 ++ [⟨.getTrdlConfig gitTag, false⟩]
          let build := Step.buildReleaseArtifacts trdlCfg.DockerImage trdlCfg.Commands
          match buildReleaseArtifacts env gitRepo trdlCfg.DockerImage trdlCfg.Commands with
          | .error err =>
            .returned (some (.wrap "unable to build release artifacts: %s" err))
              (log4 ++ [⟨build, true⟩])
          | .ok tar =>
            publishLoop env gitTag tar.ending tar.entries 0 (log4 ++ [⟨build, false⟩])

/-- The `PublishReleaseTarget` calls of a log, each with its release and its
name, in the order they were made. -/
def publishCalls (log : List Call) : List (String × String) :=
  log.filterMap (fun c =>
    match c.step with
    | .publishReleaseTarget release name => some (release, name)
    | _ => none)

/-! ## path_release.go: the request handler -/

/-- The persisted git credential. -/
structure GitCredential where
  Username : String
  Password : String
  deriving DecidableEq, Repr

/-- A request to the `release` path: its storage handle and the raw data of
its fields. -/
structure Request where
  Storage : Nat
  fields : String → Option String

/-- The constant `fieldNameGitTag`. -/
def fieldNameGitTag : String := "git_tag"

/-- The constant `fieldNameGitUsername`. -/
def fieldNameGitUsername : String := "git_username"

/-- The constant `fieldNameGitPassword`. -/
def fieldNameGitPassword : String := "git_password"

/-- Go `fields.Get(name).(string)` for a field of type string: its value, the
empty string when the request does not set it. -/
def Request.Get (req : Request) (name : String) : String :=
  (req.fields name).getD ""

/-- Modelled from the spec: `util.CheckRequiredFields` is not under src/.  It
fails when a field that the path declares as required, here `git_tag`, is
missing from the request. -/
def CheckRequiredFields (req : Request) : Option String :=
  if (req.fields fieldNameGitTag).isNone then some "required field must be set" else none

/-- `logical.Response`, as far as the handler builds it: an error response
with a message, or the data `task_uuid`. -/
inductive Response where
  | ErrorResponse (msg : String)
  | Data (task_uuid : String)
  deriving DecidableEq, Repr

/-- The parts of the backend that the handler calls and that are not under
src/: reading the configuration and the git credential from a storage, and
getting the publisher repository. -/
structure Backend where
  getConfiguration : Nat → Except String (Option Configuration)
  getGitCredential : Nat → Except String (Option GitCredential)
  GetRepository : Nat → Except String Unit

/-- The variables the task closure of `pathRelease` captures. -/
structure ReleaseClosure where
  cfg : Configuration
  gitTag : String
  gitUsername : String
  gitPassword : String

/-- Running the captured closure. -/
def ReleaseClosure.run {Repo : Type} (env : Env Repo) (t : ReleaseClosure) :
    Outcome (Option Error) (List Call) :=
  releaseTask env t.cfg t.gitTag t.gitUsername t.gitPassword

/-- The block of `pathRelease` that replaces the request credential by the
stored one: `if gitCredentialFromStorage != nil && gitUsername == "" &&
gitPassword == ""`. -/
def requestCredential (gitCredentialFromStorage : Option GitCredential)
    (gitUsername gitPassword : String) : String × String :=
  match gitCredentialFromStorage with
  | some cred =>
    if gitUsername = "" ∧ gitPassword = "" then (cred.Username, cred.Password)
    else (gitUsername, gitPassword)
  | none => (gitUsername, gitPassword)

/-- Go `err.Error()` of the sentinel busy error. -/
def busyMessage : String := "busy"

/-- Go `backend.pathRelease`.  The result is the pair of response and error;
the state is that of the task manager.  The source compares the error of
`RunTask` with `tasks_manager.ErrBusy`; that is taken to be the sentinel
`BusyError` of actions.go. -/
def pathRelease (b : Backend) (w : TasksManager.World ReleaseClosure) (req : Request) :
    Outcome (Option Response × Option Error) (TasksManager.World ReleaseClosure) :=
  match CheckRequiredFields req with
  | some err => .returned (some (.ErrorResponse err), none) w
  | none =>
    match b.getConfiguration req.Storage with
    | .error err =>
      .returned (none, some (.wrap "unable to get configuration from storage: %s" (.external err))) w
    | .ok none => .returned (some (.ErrorResponse "configuration not found"), none) w
    | .ok (some cfg) =>
      match b.getGitCredential req.Storage with
      | .error err =>
        .returned
          (none, some (.wrap "unable to get git credential from storage: %s" (.external err))) w
      | .ok gitCredentialFromStorage =>
        let gitTag := req.Get fieldNameGitTag
        let credential := requestCredential gitCredentialFromStorage
          (req.Get fieldNameGitUsername) (req.Get fieldNameGitPassword)
        match b.GetRepository req.Storage with
        | .error err =>
          .returned (none, some (.wrap "error getting publisher repository: %s" (.external err))) w
        | .ok _ =>
          match TasksManager.RunTask w req.Storage
              { cfg := cfg, gitTag := gitTag, gitUsername := credential.1,
                gitPassword := credential.2 } with
          | .returned (_, some err) w1 =>
            if err = .BusyError then .returned (some (.ErrorResponse busyMessage), none) w1
            else .returned (none, some err) w1
          | .returned (taskUUID, none) w1 => .returned (some (.Data taskUUID), none) w1
          | .blocked w1 => .blocked w1
          | .panicked w1 => .panicked w1

/-! ## path_release.go: the pipes behind the image build -/

/-- File contents and stream contents. -/
abbrev Bytes := List Char

/-- What `docker.ReadTarFromImageBuildResponse(w, response)` does with a
response: the base64 text it writes to `w`, and the error it returns. -/
structure ImageBuildResponse where
  written : Bytes
  err : Option String
  deriving DecidableEq, Repr

/-- How the base64 decoder ends on a text: the text is complete; or it stops
in the middle of a quantum; or it is corrupt, and then `drained` tells whether
the decoder had taken all the text from the pipe when it met the corruption. -/
inductive DecodeEnd where
  | complete
  | truncated
  | corrupt (msg : String) (drained : Bool)
  deriving DecidableEq, Repr

/-- What `base64.NewDecoder(base64.StdEncoding, r)` yields on a text: the
decoded bytes, and how it ends. -/
structure Decoded where
  out : Bytes
  ending : DecodeEnd
  deriving DecidableEq, Repr

/-- The two goroutines of `handleFromImageBuildResponse`. -/
inductive Goroutine where
  | producer
  | decoder
  deriving DecidableEq, Repr

/-- The two pipe writers: the intermediate one, `w`, and the output one,
`tarWriter`. -/
inductive Writer where
  | w
  | tarWriter
  deriving DecidableEq, Repr

/-- One call of `Close` (no error) or `CloseWithError` on a pipe writer. -/
structure CloseCall where
  writer : Writer
  goroutine : Goroutine
  err : Option Error
  deriving DecidableEq, Repr

/-- What the two goroutines have done when neither of them can go on: the
bytes written to `tarWriter` and the close calls made, in order.  The consumer
is taken to read `tarReader` as long as there is something to read. -/
structure PipeRun where
  delivered : Bytes
  closes : List CloseCall
  deriving DecidableEq, Repr

/-- The result of `io.Copy(tarWriter, decoder)`: the decoder fails on corrupt
text; at the end of the text it passes on the error the pipe was closed with,
and without such an error fails on a text that stops inside a quantum. -/
def copyResult (d : Decoded) (readErr : Option String) : Option Error :=
  match d.ending with
  | .corrupt msg _ => some (.external msg)
  | .complete => readErr.map .external
  | .truncated =>
    match readErr with
    | some e => some (.external e)
    | none => some (.external "unexpected EOF")

/-- Go `handleFromImageBuildResponse`.  The first goroutine writes the text and
closes `w`, with the error of `ReadTarFromImageBuildResponse` if there is one;
it gets that far only if the decoder takes all the text.  The second
goroutine copies the decoded bytes to `tarWriter`; when the copy fails it
closes `tarWriter` with the error, and otherwise it closes `w`. -/
def handleFromImageBuildResponse (decode : Bytes → Decoded) (response : ImageBuildResponse) :
    PipeRun :=
  let d := decode response.written
  let producerCloses : List CloseCall :=
    match d.ending with
    | .corrupt _ false => []
    | _ => [⟨.w, .producer, response.err.map .external⟩]
  let decoderCloses : List CloseCall :=
    match copyResult d response.err with
    | some err => [⟨.tarWriter, .decoder, some err⟩]
    | none => [⟨.w, .decoder, none⟩]
  { delivered := d.out, closes := producerCloses ++ decoderCloses }

/-- The state of a pipe writer. -/
inductive PipeEnd where
  | opened
  | closed (err : Option Error)
  deriving DecidableEq, Repr

/-- A pipe writer after a list of close calls: the first call on it decides,
later ones change nothing. -/
def writerState (closes : List CloseCall) (wr : Writer) : PipeEnd :=
  match closes.find? (fun c => decide (c.writer = wr)) with
  | none => .opened
  | some c => .closed c.err

/-- What a read on a pipe gives once the written bytes are taken. -/
inductive ReadResult where
  | blocks
  | EOF
  | error (err : Error)
  deriving DecidableEq, Repr

/-- The read of the consumer on `tarReader` after the delivered bytes. -/
def consumerRead (run : PipeRun) : ReadResult :=
  match writerState run.closes .tarWriter with
  | .opened => .blocks
  | .closed none => .EOF
  | .closed (some e) => .error e

/-- A sample environment: every collaborator succeeds, except that the
signature verification gives `verifyError`; the build yields a directory entry
and two files. -/
def sampleEnv (verifyError : Option String) : Env Unit where
  DefaultSubmoduleRecursionDepth := 10
  CloneInMemory := fun _ _ => .ok ()
  GetTrustedPGPPublicKeys := .ok ["developer"]
  VerifyTagSignatures := fun _ _ _ _ => verifyError
  ReadWorktreeFile := fun _ _ => .ok "docker_image: alpine"
  ParseTrdl := fun _ _ => .ok { DockerImage := "alpine:3", Commands := ["make"] }
  Validate := fun _ => none
  NewClientWithOpts := none
  ImageBuild := fun _ _ _ =>
    .ok { entries := [⟨TypeDir, "any-any"⟩, ⟨'0', "any-any/README"⟩, ⟨'0', "any-any/bin/tool"⟩],
          ending := .EOF }
  PublishReleaseTarget := fun _ _ _ => none
  Commit := fun _ => none

/-- A sample configuration requiring one verified signature. -/
def sampleConfiguration : Configuration where
  GitRepoUrl := "https://git.example/project"
  RequiredNumberOfVerifiedSignaturesOnCommit := 1

/-- A sample backend: the sample configuration is stored, the stored git
credential is `stored`, and the publisher repository is available. -/
def sampleBackend (stored : Option GitCredential) : Backend where
  getConfiguration := fun _ => .ok (some sampleConfiguration)
  getGitCredential := fun _ => .ok stored
  GetRepository := fun _ => .ok ()

/-- A task manager before its first call, with an empty storage and a task
channel of capacity 2. -/
def sampleManagerWorld : TasksManager.World ReleaseClosure where
  m := { Storage := none, taskChan := [], taskChanSize := 2 }
  stores := fun _ => TasksManager.InmemStorage
  uuidSource := TasksManager.sampleUUIDs
  uuidNext := 0
  defaultTaskTimeoutDuration := 600

/-- A request on storage 0 that sets the listed fields. -/
def sampleRequest (fields : List (String × String)) : Request where
  Storage := 0
  fields := fun name => fields.lookup name

/-- The stored credential of the samples. -/
def sampleCredential : GitCredential where
  Username := "robot"
  Password := "stored-secret"

/-- A sample decoder, standing for `base64.NewDecoder` on a few texts: text
with a character outside the alphabet is corrupt, met before the rest of the
text is taken; text whose length is not a multiple of four stops inside a
quantum; other text is complete.  The decoded bytes are left out. -/
def sampleDecode (text : Bytes) : Decoded :=
  if text.any (fun c => !(c.isAlphanum || c = '+' || c = '/' || c = '=')) then
    { out := [], ending := .corrupt "illegal base64 data" false }
  else if text.length % 4 ≠ 0 then { out := [], ending := .truncated }
  else { out := [], ending := .complete }

/-- The order of the pipeline on two calls, the first made before the second:
the first step comes strictly earlier in the pipeline, or both belong to the
loop over the tar entries. -/
def InOrder (a b : Call) : Prop :=
  a.step.rank < b.step.rank ∨ (a.step.rank = 5 ∧ b.step.rank = 5)

/-- The shape of a run of the release task: the calls are in pipeline order,
and either the run returns nil after calls that all succeeded, the last of
them the only commit; or it returns an error right after the one call that
failed, no commit before it; or it hangs, no call having failed and no commit
made. -/
def Sequenced (r : Outcome (Option Error) (List Call)) : Prop :=
  r.state.Pairwise InOrder ∧
  ((∃ tr c, r.state = tr ++ [c] ∧ (∀ d ∈ tr, d.failed = false ∧ d.step ≠ .commit) ∧
      ((r.result = some none ∧ c = ⟨.commit, false⟩) ∨
       (∃ e, r.result = some (some e) ∧ c.failed = true))) ∨
   (r.result = none ∧ ∀ d ∈ r.state, d.failed = false ∧ d.step ≠ .commit))

/-- No step is skipped: whenever a call is in the list, so is a call of every
earlier position of the pipeline. -/
def NoneSkipped (tr : List Call) : Prop :=
  ∀ d ∈ tr, ∀ j, j < d.step.rank → ∃ a ∈ tr, a.step.rank = j

end Trdl.Release

namespace Trdl.Signatures

/-! ## PGP signature verifier (server/pkg/git): modelled from the specification

Only the tests of `VerifyTagSignatures` and `VerifyCommitSignatures` are part
of the sources at hand. -/

/-- A candidate signature of a git object: the fingerprint of the key that
made it, and whether it is a good signature over the object's canonical
bytes.  It verifies against a key exactly when it is good and that key made
it. -/
structure Signature where
  signer : String
  valid : Bool
  deriving DecidableEq, Repr

/-- A commit or an annotated tag object: its embedded signature, if any, and
the signatures stored for it in git notes. -/
structure GitObject where
  embedded : Option Signature
  notes : List Signature
  deriving DecidableEq, Repr

/-- What a tag name resolves to: an annotated tag object, or, for a
lightweight tag, the commit it points to. -/
inductive Tag where
  | annotated (tag : GitObject)
  | lightweight (commit : GitObject)
  deriving DecidableEq, Repr

/-- The error `NewNotEnoughVerifiedPGPSignaturesError(number)`. -/
inductive VerifyError where
  | NotEnoughVerifiedPGPSignatures (number : Int)
  deriving DecidableEq, Repr

/-- Modelled from the spec: steps 1 and 2 of the algorithm of section 4.1, the
candidate signatures of an object: its embedded signature, then the
signatures attached to it through git notes. -/
def candidateSignatures (obj : GitObject) : List Signature :=
  obj.embedded.toList ++ obj.notes

/-- Modelled from the spec: step 3, "for each candidate signature, attempt
verification against every trusted key; on success record the key's
fingerprint into a set".  Trusted keys are given by their fingerprints. -/
def verifiedFingerprints (trustedPGPPublicKeys : List String) (sigs : List Signature) :
    List String :=
  (sigs.flatMap (fun s =>
    trustedPGPPublicKeys.filter (fun k => s.valid && decide (s.signer = k)))).dedup

/-- Modelled from the spec: step 4, "let n be the number of verified
fingerprints; if n ≥ required_n return Ok, else NotEnough(required_n − n)". -/
def verifySignatures (trustedPGPPublicKeys : List String) (sigs : List Signature)
    (requiredNumberOfVerifiedSignatures : Int) : Except VerifyError Unit :=
  let n : Int := (verifiedFingerprints trustedPGPPublicKeys sigs).length
  if n ≥ requiredNumberOfVerifiedSignatures then .ok ()
  else .error (.NotEnoughVerifiedPGPSignatures (requiredNumberOfVerifiedSignatures - n))

/-- Modelled from the spec: `VerifyTagSignatures` is not under src/.  For an
annotated tag the candidates are those of the tag object, for a lightweight
tag those of the commit it points to. -/
def VerifyTagSignatures (tag : Tag) (trustedPGPPublicKeys : List String)
    (requiredNumberOfVerifiedSignatures : Int) : Except VerifyError Unit :=
  match tag with
  | .annotated obj =>
    verifySignatures trustedPGPPublicKeys (candidateSignatures obj)
      requiredNumberOfVerifiedSignatures
  | .lightweight commit =>
    verifySignatures trustedPGPPublicKeys (candidateSignatures commit)
      requiredNumberOfVerifiedSignatures

/-- Modelled from the spec: `VerifyCommitSignatures` is not under src/. -/
def VerifyCommitSignatures (commit : GitObject) (trustedPGPPublicKeys : List String)
    (requiredNumberOfVerifiedSignatures : Int) : Except VerifyError Unit :=
  verifySignatures trustedPGPPublicKeys (candidateSignatures commit)
    requiredNumberOfVerifiedSignatures

/-- The object a tag's signatures are looked up on. -/
def Tag.object : Tag → GitObject
  | .annotated obj => obj
  | .lightweight commit => commit

/-- The number `n` of the specification: how many distinct trusted
fingerprints verify at least one of the signatures. -/
def distinctSigners (trustedPGPPublicKeys : List String) (sigs : List Signature) : Nat :=
  (trustedPGPPublicKeys.toFinset.filter
    (fun f => ∃ s ∈ sigs, s.valid = true ∧ s.signer = f)).card

/-- The fingerprint `pgpSigningKeyDeveloper` of the tests. -/
def pgpSigningKeyDeveloper : String := "74E1259029B147CB4033E8B80D4C9C140E8A1030"

/-- The object of the test context "with three signatures by one signer": a
regular signature and two signatures in git notes, all by the developer. -/
def threeSignaturesByOneSigner : GitObject where
  embedded := some ⟨pgpSigningKeyDeveloper, true⟩
  notes := [⟨pgpSigningKeyDeveloper, true⟩, ⟨pgpSigningKeyDeveloper, true⟩]

end Trdl.Signatures

namespace Trdl.Project

/-! ## Release client (pkg/project/client.go, pkg/project/update.go): data model -/

/-- File contents.  A file is a sequence of characters; offsets and lengths
count characters. -/
abbrev Bytes := List Char

/-- Go `error` values of the client.  `external` comes from the operating
system, the locker or the TUF client; `errorf` is `fmt.Errorf(format, args...)`
without a cause and `wrap` the same with a cause as last operand;
`ErrChannelNotFoundLocally`, `ErrChannelReleaseNotFoundLocally` and
`ErrChannelReleaseSeveralFilesFound` are the typed errors of these names, with
the arguments of their constructors. -/
inductive Error where
  | external (msg : String) : Error
  | errorf (format : String) (args : List String) : Error
  | wrap (format : String) (args : List String) (cause : Error) : Error
  | ErrChannelNotFoundLocally (projectName group channel : String) : Error
  | ErrChannelReleaseNotFoundLocally (projectName group channel release : String) : Error
  | ErrChannelReleaseSeveralFilesFound (projectName group channel release : String)
      (names : List String) : Error
  deriving DecidableEq, Repr

/-- Go `data.TargetFileMeta`: the length of a target and its hashes by algorithm
name. -/
structure TargetFileMeta where
  Length : Nat
  Hashes : List (String × Bytes)
  deriving DecidableEq, Repr

/-- Go `data.TargetFiles`: targets by name, in the order a `range` visits
them. -/
abbrev TargetFiles := List (String × TargetFileMeta)

/-- A regular file: content and permission bits. -/
structure File where
  content : Bytes
  mode : Nat
  deriving DecidableEq, Repr

/-- The file system: the regular files by path, the process umask, and for
each system call the paths on which it fails. -/
structure FS where
  files : String → Option File
  umask : Nat
  statFault : String → Option String
  openFault : String → Option String
  readFault : String → Option String
  chmodFault : String → Option String
  mkdirAllFault : String → Option String
  openFileFault : String → Option String

/-- One call of `syncFile`, with its arguments. -/
structure SyncCall where
  targetName : String
  targetMeta : TargetFileMeta
  dest : String
  destMode : Nat
  deriving DecidableEq, Repr

/-- What the client reads and writes: the file system, and two records kept
for the statements below, the names of the targets handed to
`tufClient.Download` and the calls of `syncFile`, both in order. -/
structure World where
  fs : FS
  downloads : List String
  syncs : List SyncCall

/-- How `tufClient.Update()` ends. -/
inductive UpdateResult where
  | updated
  | latestSnapshot
  | failed (msg : String)
  deriving DecidableEq, Repr

/-- The go-tuf client after its metadata refresh: the result of `Update`, of
`Targets`, and for each target name the outcome of `Download`: an error, or
the content it streams into the destination. -/
structure TufClient where
  Update : UpdateResult
  Targets : Except String TargetFiles
  Download : String → Except String Bytes

/-- Go `Client`, together with what the process is built and run with: the
platform constants, the hash functions go-tuf knows by name, and the lock
names the file locker fails to acquire. -/
structure Client where
  projectName : String
  dir : String
  tpmDir : String
  tufClient : TufClient
  lockFault : String → Option String
  GOOS : String
  GOARCH : String
  hash : String → Option (Bytes → Bytes)

/-- The directories of the file system, as the client sees them:
`filepath.Glob` on a pattern and `util.IsDirExist` on a path. -/
structure DirView where
  Glob : String → Except String (List String)
  IsDirExist : String → Except String Bool

/-! ## Standard library functions, on a platform with the path separator `/` -/

/-- Go `strings.HasPrefix`. -/
def HasPrefix (s pfx : String) : Bool := pfx.data.isPrefixOf s.data

/-- Go `unicode.IsSpace`. -/
def isSpace (c : Char) : Bool :=
  c = '\t' || c = '\n' || c.toNat = 0x0B || c.toNat = 0x0C || c = '\r' || c = ' ' ||
  c.toNat = 0x85 || c.toNat = 0xA0 || c.toNat = 0x1680 ||
  (0x2000 ≤ c.toNat && c.toNat ≤ 0x200A) || c.toNat = 0x2028 || c.toNat = 0x2029 ||
  c.toNat = 0x202F || c.toNat = 0x205F || c.toNat = 0x3000

/-- Go `strings.TrimSpace`. -/
def TrimSpace (s : Bytes) : Bytes :=
  ((s.dropWhile isSpace).reverse.dropWhile isSpace).reverse

/-- Go `strings.TrimLeft`: the string without its leading characters that
occur in `cutset`. -/
def TrimLeft (s cutset : String) : String :=
  String.mk (s.data.dropWhile (fun c => cutset.data.contains c))

/-- Split a path at every `/`. -/
def splitPath : List Char → List (List Char)
  | [] => [[]]
  | c :: cs =>
    if c = '/' then [] :: splitPath cs
    else
      match splitPath cs with
      | [] => [[c]]
      | x :: xs => (c :: x) :: xs

/-- One step of `path.Clean`: `stack` holds the elements kept so far, the
last one first. -/
def cleanStep (rooted : Bool) (stack : List (List Char)) (elem : List Char) :
    List (List Char) :=
  if elem = [] ∨ elem = ['.'] then stack
  else if elem = ['.', '.'] then
    match stack with
    | [] => if rooted then [] else [elem]
    | top :: rest => if top = ['.', '.'] then elem :: stack else rest
  else elem :: stack

/-- Join path elements with `/`. -/
def joinSlash : List (List Char) → List Char
  | [] => []
  | [x] => x
  | x :: y :: rest => x ++ '/' :: joinSlash (y :: rest)

/-- Go `path.Clean` (and `filepath.Clean` where the separator is `/`). -/
def Clean (path : String) : String :=
  let rooted := path.data.head? = some '/'
  let stack := (splitPath path.data).foldl (cleanStep rooted) []
  let out := (if rooted then ['/'] else []) ++ joinSlash stack.reverse
  if out = [] then "." else String.mk out

/-- Go `path.Join` (and `filepath.Join` where the separator is `/`). -/
def Join : List String → String
  | [] => ""
  | e :: rest =>
    if e = "" then Join rest
    else Clean (String.mk (joinSlash ((e :: rest).map String.data)))

/-- Go `filepath.Dir` where the separator is `/`. -/
def Dir (path : String) : String :=
  Clean (String.mk ((path.data.reverse.dropWhile (fun c => c ≠ '/')).reverse))

/-! ## go-tuf util -/

/-- Go `FileMeta.HashAlgorithms`. -/
def TargetFileMeta.HashAlgorithms (m : TargetFileMeta) : List String :=
  m.Hashes.map (fun h => h.1)

/-- The hashing loop of `util.GenerateFileMeta`. -/
def generateHashes (hash : String → Option (Bytes → Bytes)) (content : Bytes) :
    List String → Except String (List (String × Bytes))
  | [] => .ok []
  | algo :: rest =>
    match hash algo with
    | none => .error "unknown hash algorithm"
    | some h =>
      match generateHashes hash content rest with
      | .error e => .error e
      | .ok hs => .ok ((algo, h content) :: hs)

/-- Go `util.GenerateTargetFileMeta(r, hashAlgorithms...)` on a reader that
delivers `content`: sha512 when no algorithm is named. -/
def GenerateTargetFileMeta (hash : String → Option (Bytes → Bytes)) (content : Bytes)
    (hashAlgorithms : List String) : Except String TargetFileMeta :=
  match generateHashes hash content
      (if hashAlgorithms = [] then ["sha512"] else hashAlgorithms) with
  | .error e => .error e
  | .ok hs => .ok { Length := content.length, Hashes := hs }

/-- The loop of `util.hashEqual` over the expected hashes; `hashChecked` is
the flag of that name. -/
def hashEqual (actual : List (String × Bytes)) :
    List (String × Bytes) → Bool → Option String
  | [], hashChecked => if hashChecked then none else some "no common hash function"
  | (typ, hash) :: rest, hashChecked =>
    match actual.lookup typ with
    | some h => if h ≠ hash then some "wrong hash" else hashEqual actual rest true
    | none => hashEqual actual rest hashChecked

/-- Go `util.TargetFileMetaEqual(actual, expected)`. -/
def TargetFileMetaEqual (actual expected : TargetFileMeta) : Option String :=
  if actual.Length ≠ expected.Length then some "wrong length"
  else hashEqual actual.Hashes expected.Hashes false

/-! ## Helpers of the repository that are not part of the sources at hand -/

/-- Modelled from the spec: `util.IsRegularFileExist` is not under src/.  It
tells whether a regular file exists at `path`, or fails when the path cannot
be examined. -/
def IsRegularFileExist (fs : FS) (path : String) : Except Error Bool :=
  match fs.statFault path with
  | some e => .error (.external e)
  | none => .ok (fs.files path).isSome

/-! ## System calls -/

/-- Set the file at `path`. -/
def FS.setFile (fs : FS) (path : String) (f : Option File) : FS :=
  { fs with files := fun p => if p = path then f else fs.files p }

/-- Go `os.Chmod`. -/
def Chmod (fs : FS) (path : String) (mode : Nat) : Option String × FS :=
  match fs.chmodFault path with
  | some e => (some e, fs)
  | none =>
    match fs.files path with
    | none => (some "no such file or directory", fs)
    | some f => (none, fs.setFile path (some { f with mode := mode }))

/-- The permission bits a new file gets: the requested ones without those set
in the umask. -/
def createMode (fs : FS) (perm : Nat) : Nat :=
  perm &&& (0o7777 ^^^ (fs.umask &&& 0o7777))

/-- Go `os.OpenFile(path, os.O_RDWR|os.O_CREATE, perm)`: an existing file is
opened as it is, content and mode untouched; a missing one is created empty. -/
def OpenFile (fs : FS) (path : String) (perm : Nat) : Option String × FS :=
  match fs.openFileFault path with
  | some e => (some e, fs)
  | none =>
    match fs.files path with
    | some _ => (none, fs)
    | none => (none, fs.setFile path (some { content := [], mode := createMode fs perm }))

/-- Writing `data` at offset 0 of a file: the bytes behind the written ones
stay. -/
def writeAt0 (f : File) (data : Bytes) : File :=
  { f with content := data ++ f.content.drop data.length }

/-! ## client.go -/

/-- The constant `targetsChannels`. -/
def targetsChannels : String := "channels"

/-- The constant `targetsReleases`. -/
def targetsReleases : String := "releases"

/-- The constant `channelsDir`. -/
def channelsDir : String := targetsChannels

/-- The constant `releasesDir`. -/
def releasesDir : String := targetsReleases

/-- Go `Client.syncMeta`. -/
def syncMeta (c : Client) : Option Error :=
  match c.tufClient.Update with
  | .failed e => some (.external e)
  | .latestSnapshot => none
  | .updated => none

/-- Go `Client.channelTargetName`. -/
def channelTargetName (group channel : String) : String :=
  Join [targetsChannels, group, channel]

/-- Go `Client.channelPath`. -/
def channelPath (c : Client) (group channel : String) : String :=
  Join [c.dir, channelsDir, group, channel]

/-- Go `readChannelRelease`. -/
def readChannelRelease (fs : FS) (path : String) : Except Error String :=
  match fs.readFault path with
  | some e => .error (.wrap "unable to read file %q: %s" [path] (.external e))
  | none =>
    match fs.files path with
    | none => .error (.wrap "unable to read file %q: %s" [path]
        (.external "no such file or directory"))
    | some channelData => .ok (String.mk (TrimSpace channelData.content))

/-- Go `Client.channelRelease`. -/
def channelRelease (c : Client) (fs : FS) (group channel : String) : Except Error String :=
  let channelFilePath := channelPath c group channel
  match IsRegularFileExist fs channelFilePath with
  | .error err =>
    .error (.wrap "unable to check existence of file %q: %s" [channelFilePath] err)
  | .ok exist =>
    if !exist then .error (.ErrChannelNotFoundLocally c.projectName group channel)
    else readChannelRelease fs channelFilePath

/-- Go `Client.channelReleaseDir`: the directory of the release the channel
points to, and the release name. -/
def channelReleaseDir (c : Client) (fs : FS) (dv : DirView) (group channel : String) :
    Except Error (String × String) :=
  match channelRelease c fs group channel with
  | .error err => .error err
  | .ok release =>
    let dirGlob := Join [c.dir, releasesDir, release, "*"]
    match dv.Glob dirGlob with
    | .error e => .error (.wrap "unable to glob files: %s" [] (.external e))
    | .ok matched =>
      match matched with
      | _ :: _ :: _ =>
        .error (.errorf "unexpected files in release directory:\n - %s"
          [String.intercalate "\n - " matched])
      | [] => .error (.ErrChannelReleaseNotFoundLocally c.projectName group channel release)
      | [m] => .ok (m, release)

/-- Go `Client.channelReleaseBinDir`. -/
def channelReleaseBinDir (c : Client) (fs : FS) (dv : DirView) (group channel : String) :
    Except Error (String × String) :=
  match channelReleaseDir c fs dv group channel with
  | .error err => .error err
  | .ok (releaseDir, releaseName) =>
    let binDir := Join [releaseDir, "bin"]
    match dv.IsDirExist binDir with
    | .error e =>
      .error (.wrap "unable to check existence of directory %q: %s" [binDir] (.external e))
    | .ok exist =>
      if !exist then
        .error (.errorf
          "bin directory not found in release directory (group: %q, channel: %q)"
          [group, channel])
      else .ok (binDir, releaseName)

/-- The loop of `channelReleaseBinPath` that collects the names for the
several-files-found error: `strings.TrimLeft(m, dir+string(os.PathSeparator))`
for every match. -/
def channelReleaseBinPath.names (dir : String) (matched : List String) : List String :=
  matched.map (fun m => TrimLeft m (dir ++ "/"))

/-- Go `Client.channelReleaseBinPath`. -/
def channelReleaseBinPath (c : Client) (fs : FS) (dv : DirView) (group channel : String)
    (optionalBinName : String) : Except Error String :=
  match channelReleaseBinDir c fs dv group channel with
  | .error err => .error err
  | .ok (dir, releaseName) =>
    let glob := if optionalBinName = "" then Join [dir, "*"] else Join [dir, optionalBinName]
    match dv.Glob glob with
    | .error e => .error (.wrap "unable to glob files: %s" [] (.external e))
    | .ok matched =>
      match matched with
      | _ :: _ :: _ =>
        .error (.ErrChannelReleaseSeveralFilesFound c.projectName group channel releaseName
          (channelReleaseBinPath.names dir matched))
      | [] =>
        if optionalBinName = "" then .error (.errorf "binary file not found in release" [])
        else .error (.errorf "binary file %q not found in release" [optionalBinName])
      | [m] => .ok m

/-- Go `Client.groupChannelLockName`. -/
def groupChannelLockName (group channel : String) : String :=
  group ++ "-" ++ channel

/-! ## update.go -/

/-- The variable `fileModeExecutable`. -/
def fileModeExecutable : Nat := 0o755

/-- The variable `fileModeRegular`. -/
def fileModeRegular : Nat := 0o655

/-- Go `Client.downloadFile`.  The type `destinationFile` is not under src/:
its `Delete`, which the TUF client calls when a download fails, is taken to
remove the destination file.  A successful `Download` writes the content it
delivers at offset 0 of the opened file. -/
def downloadFile (c : Client) (w : World) (targetName dest : String) (destMode : Nat) :
    Option Error × World :=
  match w.fs.mkdirAllFault (Dir dest) with
  | some e => (some (.external e), w)
  | none =>
    match OpenFile w.fs dest destMode with
    | (some e, _) => (some (.external e), w)
    | (none, fs1) =>
      let w1 : World := { w with fs := fs1, downloads := w.downloads ++ [targetName] }
      match c.tufClient.Download targetName with
      | .error e => (some (.external e), { w1 with fs := fs1.setFile dest none })
      | .ok data =>
        (none, { w1 with fs := fs1.setFile dest ((fs1.files dest).map (fun f => writeAt0 f data)) })

/-- Go `Client.syncFile`. -/
def syncFile (c : Client) (w0 : World) (targetName : String) (targetMeta : TargetFileMeta)
    (dest : String) (destMode : Nat) : Option Error × World :=
  let w : World := { w0 with syncs := w0.syncs ++ [⟨targetName, targetMeta, dest, destMode⟩] }
  match IsRegularFileExist w.fs dest with
  | .error err =>
    (some (.wrap "unable to check existence of file %q: %s" [dest] err), w)
  | .ok exist =>
    if exist then
      match w.fs.openFault dest, w.fs.files dest with
      | some e, _ => (some (.wrap "unable to open file %q, %s" [dest] (.external e)), w)
      | none, none =>
        (some (.wrap "unable to open file %q, %s" [dest] (.external "no such file or directory")), w)
      | none, some f =>
        match GenerateTargetFileMeta c.hash f.content targetMeta.HashAlgorithms with
        | .error e =>
          (some (.wrap "unable to generate meta for local file %q: %s" [dest] (.external e)), w)
        | .ok localFileMeta =>
          match TargetFileMetaEqual targetMeta localFileMeta with
          | none =>
            -- file is up-to-date
            match Chmod w.fs dest destMode with
            | (some e, _) =>
              (some (.wrap "unable to chmod file %q: %s" [dest] (.external e)), w)
            | (none, fs1) => (none, { w with fs := fs1 })
          | some _ => downloadFile c w targetName dest destMode
    else downloadFile c w targetName dest destMode

/-- Go `Client.filterTargets`. -/
def filterTargets (c : Client) (pfx : String) : Except Error TargetFiles :=
  match c.tufClient.Targets with
  | .error e => .error (.external e)
  | .ok targets => .ok (targets.filter (fun t => HasPrefix t.1 pfx))

/-- Go `Client.syncChannel`. -/
def syncChannel (c : Client) (w : World) (group channel : String) : Option Error × World :=
  match c.tufClient.Targets with
  | .error e => (some (.external e), w)
  | .ok targets =>
    let targetName := channelTargetName group channel
    match targets.lookup targetName with
    | none =>
      (some (.errorf "channel not found in the repo (group: %q, channel: %q)" [group, channel]), w)
    | some targetMeta =>
      let destPath := channelPath c group channel
      syncFile c w targetName targetMeta destPath fileModeRegular

/-- The platform directories `syncChannelRelease` tries for a release, in
order. -/
def releaseTargetPrefixes (c : Client) (releaseName : String) : List String :=
  let releaseTargetPrefixBase := Join [targetsReleases, releaseName]
  [ Join [releaseTargetPrefixBase, c.GOOS ++ "-" ++ c.GOARCH],
    Join [releaseTargetPrefixBase, c.GOOS ++ "-any"],
    Join [releaseTargetPrefixBase, "any-" ++ c.GOARCH],
    Join [releaseTargetPrefixBase, "any-any"] ]

/-- The first loop of `syncChannelRelease`: the variables `targets` and
`releaseTargetPrefix` when the loop is left. -/
def syncChannelRelease.select (c : Client) : List String → Except Error (TargetFiles × String)
  | [] => .ok ([], "")
  | pfx :: rest =>
    match filterTargets c (pfx ++ "/") with
    | .error err => .error err
    | .ok targets =>
      if targets.length ≠ 0 then .ok (targets, pfx)
      else syncChannelRelease.select c rest

/-- The mode `syncChannelRelease` requests for a target. -/
def releaseFileMode (releaseTargetPrefix name : String) : Nat :=
  let isBinTarget := HasPrefix name (Join [releaseTargetPrefix, "bin"] ++ "/")
  if isBinTarget then fileModeExecutable else fileModeRegular

/-- The second loop of `syncChannelRelease`: sync every selected target. -/
def syncChannelRelease.syncAll (c : Client) (releaseTargetPrefix : String) :
    TargetFiles → World → Option Error × World
  | [], w => (none, w)
  | (name, meta) :: rest, w =>
    let fileMode := releaseFileMode releaseTargetPrefix name
    let filePath := Join [c.dir, name]
    match syncFile c w name meta filePath fileMode with
    | (some err, w1) => (some err, w1)
    | (none, w1) => syncChannelRelease.syncAll c releaseTargetPrefix rest w1

/-- Go `Client.syncChannelRelease`. -/
def syncChannelRelease (c : Client) (w : World) (group channel : String) :
    Option Error × World :=
  match channelRelease c w.fs group channel with
  | .error err => (some (.wrap "unable to get channel release: %s" [] err), w)
  | .ok releaseName =>
    match syncChannelRelease.select c (releaseTargetPrefixes c releaseName) with
    | .error err => (some err, w)
    | .ok (targets, releaseTargetPrefix) =>
      if targets.length = 0 then
        (some (.errorf
          "nothing found in the repo for group: %q channel: %q os: %q arch: %q (release: %q)"
          [group, channel, c.GOOS, c.GOARCH, releaseName]), w)
      else syncChannelRelease.syncAll c releaseTargetPrefix targets w

/-- Go `Client.UpdateChannel`: under the lock of the group and channel, refresh
the metadata, sync the channel file, sync the release. -/
def UpdateChannel (c : Client) (w : World) (group channel : String) : Option Error × World :=
  match c.lockFault (groupChannelLockName group channel) with
  | some e => (some (.external e), w)
  | none =>
    match syncMeta c with
    | some err => (some err, w)
    | none =>
      match syncChannel c w group channel with
      | (some err, w1) => (some err, w1)
      | (none, w1) => syncChannelRelease c w1 group channel

/-! ## A sample installation -/

/-- A stand-in for a hash function, known under the name sha256: the content
reversed. -/
def sampleHash : String → Option (Bytes → Bytes)
  | "sha256" => some (fun b => b.reverse)
  | _ => none

/-- The TUF meta of a target with the given content. -/
def metaOf (content : String) : TargetFileMeta :=
  { Length := content.length, Hashes := [("sha256", content.data.reverse)] }

/-- The remote repository: the channel `g/c` points to release 1.0.0, which
has files for `any-any` only; release 1.0.1 has one file. -/
def sampleRemote : List (String × String) :=
  [ ("channels/g/c", "1.0.0\n"),
    ("releases/1.0.0/any-any/bin/tool", "#!tool"),
    ("releases/1.0.0/any-any/README", "read me"),
    ("releases/1.0.1/any-any/README", "other") ]

/-- A TUF client for `sampleRemote` whose snapshot is the latest and whose
downloads deliver the remote content. -/
def sampleTufClient : TufClient where
  Update := .latestSnapshot
  Targets := .ok (sampleRemote.map (fun t => (t.1, metaOf t.2)))
  Download := fun name =>
    match sampleRemote.lookup name with
    | some s => .ok s.data
    | none => .error "unknown target"

/-- A client on linux/amd64 installing into `/home/u/.trdl/p`. -/
def sampleClient : Client where
  projectName := "p"
  dir := "/home/u/.trdl/p"
  tpmDir := "/tmp"
  tufClient := sampleTufClient
  lockFault := fun _ => none
  GOOS := "linux"
  GOARCH := "amd64"
  hash := sampleHash

/-- An empty file system on which no call fails. -/
def emptyFS : FS where
  files := fun _ => none
  umask := 0o022
  statFault := fun _ => none
  openFault := fun _ => none
  readFault := fun _ => none
  chmodFault := fun _ => none
  mkdirAllFault := fun _ => none
  openFileFault := fun _ => none

/-- Nothing installed yet. -/
def emptyWorld : World := { fs := emptyFS, downloads := [], syncs := [] }

/-- Only the channel file is installed. -/
def channelOnlyWorld : World :=
  { emptyWorld with
    fs := emptyFS.setFile "/home/u/.trdl/p/channels/g/c" (some ⟨"1.0.0\n".data, 0o655⟩) }

/-- The channel file is installed, and a README that is stale and longer than
the one of the release. -/
def staleWorld : World :=
  { emptyWorld with
    fs := (emptyFS.setFile "/home/u/.trdl/p/channels/g/c" (some ⟨"1.0.0\n".data, 0o655⟩)).setFile
      "/home/u/.trdl/p/releases/1.0.0/any-any/README" (some ⟨"OLD README, longer".data, 0o600⟩) }

/-- The installation after a first `UpdateChannel` on the empty one. -/
def installedWorld : World := (UpdateChannel sampleClient emptyWorld "g" "c").2

/-- The channel file is installed, and a README that is stale, shorter than
the one of the release, and readable by its owner only. -/
def staleModeWorld : World :=
  { emptyWorld with
    fs := (emptyFS.setFile "/home/u/.trdl/p/channels/g/c" (some ⟨"1.0.0\n".data, 0o655⟩)).setFile
      "/home/u/.trdl/p/releases/1.0.0/any-any/README" (some ⟨"old".data, 0o600⟩) }

/-- The channel file and the README of the release are installed and up to
date; the README, readable by its owner only, cannot be chmod-ed. -/
def chmodDeniedWorld : World :=
  { emptyWorld with
    fs :=
      { (emptyFS.setFile "/home/u/.trdl/p/channels/g/c"
            (some ⟨"1.0.0\n".data, 0o655⟩)).setFile
          "/home/u/.trdl/p/releases/1.0.0/any-any/README" (some ⟨"read me".data, 0o600⟩) with
        chmodFault := fun path =>
          if path = "/home/u/.trdl/p/releases/1.0.0/any-any/README" then
            some "operation not permitted"
          else none } }

/-- The sample client on a connection that breaks during the download of the
tool. -/
def failingDownloadClient : Client :=
  { sampleClient with
    tufClient :=
      { Update := .latestSnapshot
        Targets := .ok (sampleRemote.map (fun t => (t.1, metaOf t.2)))
        Download := fun name =>
          if name = "releases/1.0.0/any-any/bin/tool" then .error "connection reset"
          else
            match sampleRemote.lookup name with
            | some s => .ok s.data
            | none => .error "unknown target" } }

/-- Nothing installed yet, under the umask 077. -/
def privateWorld : World := { emptyWorld with fs := { emptyFS with umask := 0o077 } }

/-- The directories of the sample installation, the bin directory of the
release holding the two files `idle` and `tool`. -/
def sampleDirView : DirView where
  Glob := fun pattern =>
    if pattern = "/home/u/.trdl/p/releases/1.0.0/*" then
      .ok ["/home/u/.trdl/p/releases/1.0.0/any-any"]
    else if pattern = "/home/u/.trdl/p/releases/1.0.0/any-any/bin/*" then
      .ok ["/home/u/.trdl/p/releases/1.0.0/any-any/bin/idle",
           "/home/u/.trdl/p/releases/1.0.0/any-any/bin/tool"]
    else if pattern = "/home/u/.trdl/p/releases/1.0.0/any-any/bin/idle" ∨
        pattern = "/home/u/.trdl/p/releases/1.0.0/any-any/bin/tool" then .ok [pattern]
    else .ok []
  IsDirExist := fun path => .ok (path = "/home/u/.trdl/p/releases/1.0.0/any-any/bin")

/-- A remote repository with look-alike directories: the channel `g/c` points
to release 1.0, which has the platform directories `linux-amd64` and
`linux-amd64v2`; there is also a release 1.0.1. -/
def lookAlikeRemote : List (String × String) :=
  [ ("channels/g/c", "1.0\n"),
    ("releases/1.0/linux-amd64/bin/tool", "#!tool"),
    ("releases/1.0/linux-amd64v2/bin/tool", "#!tool v2"),
    ("releases/1.0.1/linux-amd64/bin/tool", "#!tool 1.0.1") ]

/-- The sample client on `lookAlikeRemote`. -/
def lookAlikeClient : Client :=
  { sampleClient with
    tufClient :=
      { Update := .latestSnapshot
        Targets := .ok (lookAlikeRemote.map (fun t => (t.1, metaOf t.2)))
        Download := fun name =>
          match lookAlikeRemote.lookup name with
          | some s => .ok s.data
          | none => .error "unknown target" } }

/-- Only the channel file is installed, and it points to release 1.0. -/
def lookAlikeWorld : World :=
  { emptyWorld with
    fs := emptyFS.setFile "/home/u/.trdl/p/channels/g/c" (some ⟨"1.0\n".data, 0o655⟩) }

/-! ## Notions used in the statements -/

/-- The test `syncFile` makes before it decides not to download: a regular
file exists at `dest` and its meta, generated with the hash algorithms of the
target meta, equals the target meta. -/
def UpToDate (c : Client) (fs : FS) (dest : String) (targetMeta : TargetFileMeta) : Prop :=
  ∃ f localFileMeta, fs.files dest = some f ∧
    GenerateTargetFileMeta c.hash f.content targetMeta.HashAlgorithms = .ok localFileMeta ∧
    TargetFileMetaEqual targetMeta localFileMeta = none

/-- Two file systems hold the same files with the same bytes and fail on the
same calls; only file modes may differ. -/
def SameBytes (fs fs1 : FS) : Prop :=
  (∀ p, (fs1.files p).map (fun f => f.content) = (fs.files p).map (fun f => f.content)) ∧
  fs1.statFault = fs.statFault ∧ fs1.openFault = fs.openFault ∧
  fs1.readFault = fs.readFault ∧ fs1.chmodFault = fs.chmodFault ∧
  fs1.mkdirAllFault = fs.mkdirAllFault ∧ fs1.openFileFault = fs.openFileFault ∧
  fs1.umask = fs.umask

/-- The state that the `syncFile` calls of `syncChannelRelease` on the targets
`done`, made one after the other from `w` with the chosen platform directory
`releaseTargetPrefix`, leave behind. -/
def afterSyncs (c : Client) (releaseTargetPrefix : String) (done : TargetFiles) (w : World) :
    World :=
  done.foldl (fun w t =>
    (syncFile c w t.1 t.2 (Join [c.dir, t.1]) (releaseFileMode releaseTargetPrefix t.1)).2) w

/-- The stacks that `path.Clean` builds, the last element first: every element
is a name (not empty, not `.`, without `/`), a `..` has only `..` below it,
and a rooted path keeps no `..` at all. -/
def CleanStack (rooted : Bool) (stack : List (List Char)) : Prop :=
  (∀ x ∈ stack, x ≠ [] ∧ x ≠ ['.'] ∧ '/' ∉ x) ∧
  stack.Pairwise (fun upper lower => upper = ['.', '.'] → lower = ['.', '.']) ∧
  (∀ x ∈ stack, x = ['.', '.'] → rooted = false)

end Trdl.Project

/-! # The command line client: client/cmd/trdl/common.go -/

namespace Trdl.Cmd

/-- The environment of the process: the value of every variable that is set. -/
abbrev Environment := String → Option String

/-- Go `os.Getenv`: the value of the variable, the empty string when it is not
set. -/
def Getenv (env : Environment) (key : String) : String := (env key).getD ""

/-- Go `GetBoolEnvironmentDefaultFalse`. -/
def GetBoolEnvironmentDefaultFalse (env : Environment) (environmentName : String) : Bool :=
  match Getenv env environmentName with
  | "1" => true
  | "true" => true
  | "yes" => true
  | _ => false

/-- An environment in which `TRDL_NO_SELF_UPDATE` is set to `value` and nothing
else is set. -/
def sampleEnvironment (value : String) : Environment :=
  fun key => if key = "TRDL_NO_SELF_UPDATE" then some value else none

end Trdl.Cmd
/-! # Theorems: task manager -/

namespace Trdl.TasksManager

theorem queueTask_error_uuid {α : Type} (w : World α) (a : α × Nat) (id : String) (e : Error)
    (w' : World α) (h : queueTask w a = .returned (id, some e) w') : id = "" := by
  unfold queueTask at h
  split at h
  · simp at h
  · split at h
    · simp at h; exact h.1.1.symm
    · split at h <;> simp at h

theorem doTaskWrap_error_uuid {α : Type} (w : World α) (sid : Nat) (f : α)
    (F : World α → α × Nat → Outcome (String × Option Error) (World α))
    (hF : ∀ w1 a id e w', F w1 a = .returned (id, some e) w' → id = "")
    (id : String) (e : Error) (w' : World α)
    (h : doTaskWrap w sid f "" F = .returned (id, some e) w') : id = "" := by
  unfold doTaskWrap at h
  split at h
  · simp at h; exact h.1.1.symm
  · split at h
    · simp at h; exact h.1.1.symm
    · exact hF _ _ _ _ _ h

theorem RunTask_error_uuid {α : Type} (w : World α) (sid : Nat) (f : α) (id : String) (e : Error)
    (w' : World α) (h : RunTask w sid f = .returned (id, some e) w') : id = "" := by
  unfold RunTask at h
  refine doTaskWrap_error_uuid w sid f _ ?_ id e w' h
  intro w1 a id e w' h1
  simp only at h1
  split at h1
  · simp at h1; exact h1.1.1.symm
  · split at h1
    · simp at h1; exact h1.1.1.symm
    · exact queueTask_error_uuid _ _ _ _ _ h1

/-- C10: on every state, `AddOptionalTask` returns `(id, true, nil)` exactly
when `RunTask` on that state returns `(id, nil)`; it returns `("", false, nil)`
exactly when `RunTask` returns `BusyError` (which `RunTask` only ever returns
together with the empty identifier); and it returns `("", false, e)` when
`RunTask` returns any other error `e`.  The state left behind is in each case
the one `RunTask` left. -/
theorem AddOptionalTask_maps_RunTask {α : Type} (w : World α) (reqStorage : Nat) (taskFunc : α) :
    (∀ id w', AddOptionalTask w reqStorage taskFunc = .returned (id, true, none) w' ↔
        RunTask w reqStorage taskFunc = .returned (id, none) w') ∧
    (∀ w', AddOptionalTask w reqStorage taskFunc = .returned ("", false, none) w' ↔
        RunTask w reqStorage taskFunc = .returned ("", some .BusyError) w') ∧
    (∀ id w', RunTask w reqStorage taskFunc ≠ .returned (id, some .BusyError) w' ∨ id = "") ∧
    (∀ id e w', e ≠ .BusyError → RunTask w reqStorage taskFunc = .returned (id, some e) w' →
        AddOptionalTask w reqStorage taskFunc = .returned ("", false, some e) w') := by
  have hid := RunTask_error_uuid w reqStorage taskFunc
  unfold AddOptionalTask
  refine ⟨?_, ?_, ?_, ?_⟩
  · intro id w'
    split
    · split <;> simp_all
    · simp_all
    · simp_all
    · simp_all
  · intro w'
    split
    · rename_i u err w1 heq
      have := hid u err w1 heq
      subst this
      split <;> simp_all
    · simp_all
    · simp_all
    · simp_all
  · intro id w'
    by_cases h : RunTask w reqStorage taskFunc = .returned (id, some .BusyError) w'
    · exact Or.inr (hid _ _ _ h)
    · exact Or.inl h
  · intro id e w' he h
    rw [h]
    simp [he]

theorem mem_putTask_self (s : Store) (st : taskState) (t : Task) :
    (st, t) ∈ (s.putTask st t).tasks := by
  simp [Store.putTask]

theorem mem_putTask_of_mem (s : Store) (st : taskState) (t : Task) (e : taskState × Task)
    (h : e ∈ s.tasks) (hne : ¬ (e.1 = st ∧ e.2.UUID = t.UUID)) :
    e ∈ (s.putTask st t).tasks := by
  simp only [Store.putTask, List.mem_append, List.mem_filter]
  left
  exact ⟨h, by simp only [Bool.not_eq_true', decide_eq_false_iff_not]; exact hne⟩

theorem mem_deleteTask_of_mem (s : Store) (st : taskState) (uuid : String) (e : taskState × Task)
    (h : e ∈ s.tasks) (hne : ¬ (e.1 = st ∧ e.2.UUID = uuid)) :
    e ∈ (s.deleteTask st uuid).tasks := by
  simp only [Store.deleteTask, List.mem_filter]
  exact ⟨h, by simp only [Bool.not_eq_true', decide_eq_false_iff_not]; exact hne⟩

theorem getTask_some (s : Store) (st : taskState) (uuid : String) (t : Task)
    (h : s.getTask st uuid = some t) : (st, t) ∈ s.tasks ∧ t.UUID = uuid := by
  unfold Store.getTask at h
  rw [Option.map_eq_some'] at h
  obtain ⟨e, hf, rfl⟩ := h
  have h1 := List.mem_of_find?_eq_some hf
  have h2 := List.find?_some hf
  simp only [decide_eq_true_eq] at h2
  obtain ⟨a, b⟩ := e
  simp only at h2 ⊢
  obtain ⟨rfl, h3⟩ := h2
  exact ⟨h1, h3⟩

theorem isBusy_of_listFault_none (s : Store) (h : ∀ st, s.listFault st = none) :
    (isBusy s).2 = none ∧
    ((isBusy s).1 = true ↔ ∃ t, (taskState.running, t) ∈ s.tasks ∨ (taskState.queued, t) ∈ s.tasks) := by
  unfold isBusy
  simp only [isBusy.loop, Store.List, h]
  by_cases h1 : (List.filter (fun e => decide (e.1 = taskState.running)) s.tasks) = []
  · by_cases h2 : (List.filter (fun e => decide (e.1 = taskState.queued)) s.tasks) = []
    · simp [h1, h2]
      intro t
      simp [List.filter_eq_nil_iff] at h1 h2
      exact ⟨fun hm => h1 _ _ hm rfl, fun hm => h2 _ _ hm rfl⟩
    · simp [h1, h2]
      simp [List.filter_eq_nil_iff] at h2
      obtain ⟨b, hm⟩ := h2
      exact ⟨b, Or.inr hm⟩
  · simp [h1]
    simp [List.filter_eq_nil_iff] at h1
    obtain ⟨b, hm⟩ := h1
    exact ⟨b, Or.inl hm⟩

theorem doTaskWrap_of_init {α : Type} (w w1 : World α) (sid : Nat) (f : α) (u : String)
    (F : World α → α × Nat → Outcome (String × Option Error) (World α))
    (config : Option configuration)
    (hinit : doTaskWrap.init w sid = (none, w1))
    (hconf : (w1.stores sid).storedConfiguration = .ok config) :
    doTaskWrap w sid f u F
      = F w1 (f, taskTimeoutDuration config w1.defaultTaskTimeoutDuration) := by
  unfold doTaskWrap
  rw [hinit]
  simp [getConfiguration, hconf]

theorem init_of_initialised {α : Type} (w : World α) (sid storage : Nat)
    (h : w.m.Storage = some storage) : doTaskWrap.init w sid = (none, w) := by
  unfold doTaskWrap.init
  rw [h]

theorem init_of_fresh {α : Type} (w : World α) (sid : Nat) (s1 : Store)
    (h : w.m.Storage = none) (hs : invalidateStorage (w.stores sid) = (none, s1)) :
    doTaskWrap.init w sid
      = (none, ({ w with m := { w.m with Storage := some sid } } : World α).setStore sid s1) := by
  unfold doTaskWrap.init
  rw [h]
  simp only [hs]

theorem init_storage {α : Type} (w w1 : World α) (sid : Nat) (e : Option Error)
    (h : doTaskWrap.init w sid = (e, w1)) :
    (∃ storage, w1.m.Storage = some storage) ∧ w1.m.taskChan = w.m.taskChan ∧
      w1.m.taskChanSize = w.m.taskChanSize ∧ w1.uuidSource = w.uuidSource ∧
      w1.uuidNext = w.uuidNext := by
  unfold doTaskWrap.init at h
  split at h
  · simp only at h
    split at h <;> (simp only [Prod.mk.injEq] at h; obtain ⟨-, rfl⟩ := h; simp [World.setStore])
  · rename_i x hx
    simp only [Prod.mk.injEq] at h
    obtain ⟨-, rfl⟩ := h
    exact ⟨⟨x, hx⟩, rfl, rfl, rfl, rfl⟩

theorem queueTask_ok {α : Type} (w : World α) (a : α × Nat) (storage : Nat)
    (hs : w.m.Storage = some storage) (hadd : (w.stores storage).addFault = none)
    (hroom : w.m.taskChan.length < w.m.taskChanSize) :
    ∃ w', queueTask w a = .returned (w.uuidSource w.uuidNext, none) w' ∧
      w'.stores storage = (w.stores storage).putTask .queued
        { UUID := w.uuidSource w.uuidNext, Status := .taskStatusQueued, Reason := "" } ∧
      (∀ i, i ≠ storage → w'.stores i = w.stores i) ∧
      w'.m.taskChan = w.m.taskChan ++ [{ UUID := w.uuidSource w.uuidNext, Action := a }] ∧
      w'.m.Storage = some storage ∧ w'.m.taskChanSize = w.m.taskChanSize ∧
      w'.uuidSource = w.uuidSource ∧ w'.uuidNext = w.uuidNext + 1 ∧
      w'.defaultTaskTimeoutDuration = w.defaultTaskTimeoutDuration := by
  unfold queueTask
  rw [hs]
  simp only [addNewTaskToStorage, hadd]
  simp only [World.setStore]
  rw [if_pos hroom]
  refine ⟨_, rfl, ?_, ?_, rfl, hs, rfl, rfl, rfl, rfl⟩
  · simp
  · intro i hi; simp [hi]

theorem queueTask_not_busy {α : Type} (w : World α) (a : α × Nat) (id : String) (w' : World α) :
    queueTask w a ≠ .returned (id, some .BusyError) w' := by
  unfold queueTask
  split
  · simp
  · simp only [addNewTaskToStorage]
    split
    · rename_i h
      split at h
      · simp at h
        intro h2
        simp at h2
        rw [← h.1.2] at h2
        simp at h2
      · simp at h
    · split <;> simp

theorem RunTask_of_init {α : Type} (w w1 : World α) (sid : Nat) (f : α)
    (config : Option configuration)
    (hinit : doTaskWrap.init w sid = (none, w1))
    (hlist : ∀ st, (w1.stores sid).listFault st = none)
    (hconf : (w1.stores sid).storedConfiguration = .ok config) :
    RunTask w sid f =
      if (isBusy (w1.stores sid)).1 = true then .returned ("", some .BusyError) w1
      else queueTask w1 (f, taskTimeoutDuration config w1.defaultTaskTimeoutDuration) := by
  unfold RunTask
  rw [doTaskWrap_of_init w w1 sid f "" _ config hinit hconf]
  have hb := (isBusy_of_listFault_none (w1.stores sid) hlist).1
  generalize isBusy (w1.stores sid) = r at hb ⊢
  obtain ⟨b, e⟩ := r
  simp only at hb
  subst hb
  simp

/-- C1 (amended): let `w1` be the state after the first-use block of
`doTaskWrap` (the state itself for a manager whose storage handle is set, the
state after the invalidation sweep on a manager's first call) and let listing
and configuration reads succeed on the request storage.  Then `RunTask`
returns `BusyError` if and only if the request storage of `w1` lists at least
one running or at least one queued task.  Otherwise, when the write of the
new record succeeds and the task channel has room, it stores a new task in
state queued in the manager's storage, puts a task with that identifier at
the back of the channel and returns the identifier, which is non-empty, with
a nil error. -/
theorem RunTask_busy_iff {α : Type} (w w1 : World α) (reqStorage : Nat) (taskFunc : α)
    (config : Option configuration)
    (hinit : doTaskWrap.init w reqStorage = (none, w1))
    (hlist : ∀ st, (w1.stores reqStorage).listFault st = none)
    (hconf : (w1.stores reqStorage).storedConfiguration = .ok config)
    (huuid : ∀ n, w.uuidSource n ≠ "") :
    ((∃ id w', RunTask w reqStorage taskFunc = .returned (id, some .BusyError) w') ↔
      ∃ t, (taskState.running, t) ∈ (w1.stores reqStorage).tasks ∨
           (taskState.queued, t) ∈ (w1.stores reqStorage).tasks) ∧
    ((¬ ∃ t, (taskState.running, t) ∈ (w1.stores reqStorage).tasks ∨
             (taskState.queued, t) ∈ (w1.stores reqStorage).tasks) →
      ∃ storage, w1.m.Storage = some storage ∧
        ((w1.stores storage).addFault = none → w1.m.taskChan.length < w1.m.taskChanSize →
          ∃ id w', RunTask w reqStorage taskFunc = .returned (id, none) w' ∧ id ≠ "" ∧
            (taskState.queued, { UUID := id, Status := .taskStatusQueued, Reason := "" })
              ∈ (w'.stores storage).tasks ∧
            w'.m.taskChan = w1.m.taskChan ++
              [{ UUID := id,
                 Action := (taskFunc, taskTimeoutDuration config w1.defaultTaskTimeoutDuration) }])) := by
  have hrun := RunTask_of_init w w1 reqStorage taskFunc config hinit hlist hconf
  have hb := (isBusy_of_listFault_none (w1.stores reqStorage) hlist).2
  obtain ⟨⟨storage, hst⟩, -, -, hsrc, -⟩ := init_storage w w1 reqStorage none hinit
  refine ⟨⟨?_, ?_⟩, ?_⟩
  · rintro ⟨id, w', h⟩
    by_contra hno
    rw [← hb] at hno
    rw [hrun, if_neg hno] at h
    exact queueTask_not_busy _ _ _ _ h
  · intro h
    rw [← hb] at h
    exact ⟨"", w1, by rw [hrun, if_pos h]⟩
  · intro hno
    rw [← hb] at hno
    refine ⟨storage, hst, fun hadd hroom => ?_⟩
    obtain ⟨w', hq, hstore, -, hchan, -⟩ :=
      queueTask_ok w1 (taskFunc, taskTimeoutDuration config w1.defaultTaskTimeoutDuration)
        storage hst hadd hroom
    refine ⟨_, w', by rw [hrun, if_neg hno]; exact hq, ?_, ?_, hchan⟩
    · rw [hsrc]; exact huuid _
    · rw [hstore]; exact mem_putTask_self _ _ _

theorem switch_invalidated (s s1 : Store) (uuid : String)
    (h : switchTaskToCompletedInStorage s .taskStatusCanceled uuid
      { reason := taskReasonInvalidatedTask } = .ok s1) :
    Invalidated s1 uuid ∧ ∀ u, Invalidated s u → Invalidated s1 u := by
  unfold switchTaskToCompletedInStorage at h
  have key : ∀ (st : taskState) (t : Task), st ≠ .completed → t.UUID = uuid →
      s1 = (s.deleteTask st uuid).putTask .completed
        { t with Status := .taskStatusCanceled, Reason := taskReasonInvalidatedTask } →
      Invalidated s1 uuid ∧ ∀ u, Invalidated s u → Invalidated s1 u := by
    intro st t hst ht hs1
    subst hs1
    refine ⟨⟨_, mem_putTask_self _ _ _, ht, rfl⟩, ?_⟩
    rintro u ⟨t', hm, hu, hr⟩
    by_cases huu : u = uuid
    · subst huu
      exact ⟨_, mem_putTask_self _ _ _, ht, rfl⟩
    · refine ⟨t', mem_putTask_of_mem _ _ _ _ (mem_deleteTask_of_mem _ _ _ _ hm ?_) ?_, hu, hr⟩
      · simp only [not_and]
        intro h1
        exact absurd h1.symm hst
      · simp only [not_and]
        intro _
        rw [hu, ht]
        exact huu
  split at h
  · simp at h
  · split at h
    · rename_i t ht
      simp only [Except.ok.injEq] at h
      exact key .running t (by decide) (getTask_some _ _ _ _ ht).2 h.symm
    · split at h
      · rename_i t ht
        simp only [Except.ok.injEq] at h
        exact key .queued t (by decide) (getTask_some _ _ _ _ ht).2 h.symm
      · simp at h

theorem sweep_invalidated (l : List String) (s s1 : Store)
    (h : invalidateStorage.sweep s l = (none, s1)) :
    (∀ u ∈ l, Invalidated s1 u) ∧ ∀ u, Invalidated s u → Invalidated s1 u := by
  induction l generalizing s with
  | nil =>
    simp only [invalidateStorage.sweep, Prod.mk.injEq, true_and] at h
    subst h
    exact ⟨by simp, fun _ hu => hu⟩
  | cons uuid rest ih =>
    simp only [invalidateStorage.sweep] at h
    split at h
    · simp at h
    · rename_i s2 hs2
      obtain ⟨h1, h2⟩ := switch_invalidated s s2 uuid hs2
      obtain ⟨h3, h4⟩ := ih s2 h
      refine ⟨?_, fun u hu => h4 u (h2 u hu)⟩
      intro u hu
      rcases List.mem_cons.mp hu with rfl | hu
      · exact h4 _ h1
      · exact h3 u hu

theorem collect_ok (s : Store) (list : List String)
    (h : invalidateStorage.collect s [.running, .queued] [] = .ok list) :
    list = (s.tasks.filter (fun e => decide (e.1 = taskState.running))).map (fun e => e.2.UUID) ++
      (s.tasks.filter (fun e => decide (e.1 = taskState.queued))).map (fun e => e.2.UUID) := by
  simp only [invalidateStorage.collect, Store.List] at h
  cases h1 : s.listFault .running with
  | some e => simp [h1] at h
  | none =>
    cases h2 : s.listFault .queued with
    | some e => simp [h1, h2] at h
    | none =>
      simp only [h1, h2, List.nil_append, Except.ok.injEq] at h
      exact h.symm

theorem invalidateStorage_invalidated (s s1 : Store) (st : taskState) (t : Task)
    (h : invalidateStorage s = (none, s1))
    (hst : st = .queued ∨ st = .running) (ht : (st, t) ∈ s.tasks) :
    Invalidated s1 t.UUID := by
  unfold invalidateStorage at h
  split at h
  · simp at h
  · rename_i list hl
    refine (sweep_invalidated list s s1 h).1 _ ?_
    rw [collect_ok s list hl]
    simp only [List.mem_append, List.mem_map, List.mem_filter, decide_eq_true_eq]
    rcases hst with rfl | rfl
    · exact Or.inr ⟨_, ⟨ht, rfl⟩, rfl⟩
    · exact Or.inl ⟨_, ⟨ht, rfl⟩, rfl⟩

theorem putTask_queued_invalidated (s : Store) (t : Task) (u : String)
    (h : Invalidated s u) : Invalidated (s.putTask .queued t) u := by
  obtain ⟨t', hm, hu, hr⟩ := h
  exact ⟨t', mem_putTask_of_mem _ _ _ _ hm (by simp), hu, hr⟩

theorem queueTask_state_invalidated {α : Type} (w : World α) (a : α × Nat) (i : Nat) (u : String)
    (h : Invalidated (w.stores i) u) : Invalidated ((queueTask w a).state.stores i) u := by
  unfold queueTask
  split
  · exact h
  · rename_i storage hs
    simp only [addNewTaskToStorage]
    cases hadd : (w.stores storage).addFault with
    | some e => simpa [Outcome.state] using h
    | none =>
      have : Invalidated
          ((({ w with uuidNext := w.uuidNext + 1 } : World α).setStore storage
            ((w.stores storage).putTask .queued
              { UUID := w.uuidSource w.uuidNext, Status := .taskStatusQueued, Reason := "" })).stores i) u := by
        simp only [World.setStore]
        split
        · rename_i hi
          subst hi
          exact putTask_queued_invalidated _ _ _ h
        · exact h
      simp only
      split <;> simpa [Outcome.state] using this

theorem doTaskWrap_state {α : Type} (Q : World α → Prop) (w : World α) (sid : Nat) (f : α)
    (u : String) (F : World α → α × Nat → Outcome (String × Option Error) (World α))
    (hF : ∀ w1 a, Q w1 → Q (F w1 a).state) (hinit : Q (doTaskWrap.init w sid).2) :
    Q (doTaskWrap w sid f u F).state := by
  unfold doTaskWrap
  split
  · rename_i err w1 h
    rw [h] at hinit
    exact hinit
  · rename_i w1 h
    rw [h] at hinit
    split
    · exact hinit
    · exact hF _ _ hinit

theorem RunTask_state {α : Type} (Q : World α → Prop) (w : World α) (sid : Nat) (f : α)
    (hq : ∀ w1 a, Q w1 → Q (queueTask w1 a).state) (hinit : Q (doTaskWrap.init w sid).2) :
    Q (RunTask w sid f).state := by
  unfold RunTask
  refine doTaskWrap_state Q w sid f "" _ ?_ hinit
  intro w1 a h1
  split
  · exact h1
  · split
    · exact h1
    · exact hq _ _ h1

theorem AddTask_state {α : Type} (Q : World α → Prop) (w : World α) (sid : Nat) (f : α)
    (hq : ∀ w1 a, Q w1 → Q (queueTask w1 a).state) (hinit : Q (doTaskWrap.init w sid).2) :
    Q (AddTask w sid f).state := by
  unfold AddTask
  exact doTaskWrap_state Q w sid f "" _ hq hinit

theorem AddOptionalTask_state {α : Type} (w : World α) (sid : Nat) (f : α) :
    (AddOptionalTask w sid f).state = (RunTask w sid f).state := by
  unfold AddOptionalTask
  split
  · rename_i h; rw [h]; split <;> rfl
  · rename_i h; rw [h]; rfl
  · rename_i h; rw [h]; rfl
  · rename_i h; rw [h]; rfl

/-- C2 (amended): for every storage that holds a persisted task `t` in state
queued or running when the manager is first used, and on which the
invalidation sweep completes without error, the first action call (`RunTask`,
`AddTask` or `AddOptionalTask`) leaves `t` stored as a completed record with
the reason `taskReasonInvalidatedTask`, "the task canceled due to restart of
the plugin". -/
theorem first_call_invalidates {α : Type} (w : World α) (reqStorage : Nat) (taskFunc : α)
    (st : taskState) (t : Task)
    (hnone : w.m.Storage = none)
    (hsweep : (invalidateStorage (w.stores reqStorage)).1 = none)
    (hst : st = .queued ∨ st = .running)
    (ht : (st, t) ∈ (w.stores reqStorage).tasks) :
    Invalidated ((RunTask w reqStorage taskFunc).state.stores reqStorage) t.UUID ∧
    Invalidated ((AddTask w reqStorage taskFunc).state.stores reqStorage) t.UUID ∧
    Invalidated ((AddOptionalTask w reqStorage taskFunc).state.stores reqStorage) t.UUID := by
  have hs : invalidateStorage (w.stores reqStorage)
      = (none, (invalidateStorage (w.stores reqStorage)).2) := by
    rw [← hsweep]
  have hinit : Invalidated ((doTaskWrap.init w reqStorage).2.stores reqStorage) t.UUID := by
    rw [init_of_fresh w reqStorage _ hnone hs]
    simp only [World.setStore, if_true]
    exact invalidateStorage_invalidated _ _ st t hs hst ht
  have hq : ∀ (w1 : World α) (a : α × Nat), Invalidated (w1.stores reqStorage) t.UUID →
      Invalidated ((queueTask w1 a).state.stores reqStorage) t.UUID :=
    fun w1 a h => queueTask_state_invalidated w1 a reqStorage t.UUID h
  refine ⟨?_, ?_, ?_⟩
  · exact RunTask_state (fun x => Invalidated (x.stores reqStorage) t.UUID) w reqStorage taskFunc hq hinit
  · exact AddTask_state (fun x => Invalidated (x.stores reqStorage) t.UUID) w reqStorage taskFunc hq hinit
  · rw [AddOptionalTask_state]
    exact RunTask_state (fun x => Invalidated (x.stores reqStorage) t.UUID) w reqStorage taskFunc hq hinit

theorem switch_fields (s s1 : Store) (status : taskStatus) (uuid : String)
    (opts : switchTaskToCompletedInStorageOptions)
    (h : switchTaskToCompletedInStorage s status uuid opts = .ok s1) :
    s1.storedConfiguration = s.storedConfiguration ∧ s1.addFault = s.addFault ∧
      s1.listFault = s.listFault ∧ s1.currentRunningTask = s.currentRunningTask := by
  unfold switchTaskToCompletedInStorage at h
  split at h
  · simp at h
  · split at h
    · simp only [Except.ok.injEq] at h; subst h; exact ⟨rfl, rfl, rfl, rfl⟩
    · split at h
      · simp only [Except.ok.injEq] at h; subst h; exact ⟨rfl, rfl, rfl, rfl⟩
      · simp at h

theorem sweep_fields (l : List String) (s : Store) :
    (invalidateStorage.sweep s l).2.storedConfiguration = s.storedConfiguration ∧
    (invalidateStorage.sweep s l).2.addFault = s.addFault ∧
    (invalidateStorage.sweep s l).2.listFault = s.listFault ∧
    (invalidateStorage.sweep s l).2.currentRunningTask = s.currentRunningTask := by
  induction l generalizing s with
  | nil => exact ⟨rfl, rfl, rfl, rfl⟩
  | cons uuid rest ih =>
    simp only [invalidateStorage.sweep]
    split
    · exact ⟨rfl, rfl, rfl, rfl⟩
    · rename_i s2 hs2
      obtain ⟨h1, h2, h3, h4⟩ := switch_fields _ _ _ _ _ hs2
      obtain ⟨i1, i2, i3, i4⟩ := ih s2
      exact ⟨i1.trans h1, i2.trans h2, i3.trans h3, i4.trans h4⟩

theorem invalidateStorage_fields (s : Store) :
    (invalidateStorage s).2.storedConfiguration = s.storedConfiguration ∧
    (invalidateStorage s).2.addFault = s.addFault ∧
    (invalidateStorage s).2.listFault = s.listFault ∧
    (invalidateStorage s).2.currentRunningTask = s.currentRunningTask := by
  unfold invalidateStorage
  split
  · exact ⟨rfl, rfl, rfl, rfl⟩
  · exact sweep_fields _ _

theorem AddTask_initialised {α : Type} (w : World α) (sid : Nat) (f : α)
    (config : Option configuration)
    (hs : w.m.Storage = some sid)
    (hconf : (w.stores sid).storedConfiguration = .ok config)
    (hadd : (w.stores sid).addFault = none)
    (hroom : w.m.taskChan.length < w.m.taskChanSize) :
    ∃ w', AddTask w sid f = .returned (w.uuidSource w.uuidNext, none) w' ∧
      w'.stores sid = (w.stores sid).putTask .queued
        { UUID := w.uuidSource w.uuidNext, Status := .taskStatusQueued, Reason := "" } ∧
      w'.m.taskChan = w.m.taskChan ++
        [{ UUID := w.uuidSource w.uuidNext,
           Action := (f, taskTimeoutDuration config w.defaultTaskTimeoutDuration) }] ∧
      w'.m.Storage = some sid ∧ w'.m.taskChanSize = w.m.taskChanSize ∧
      w'.uuidSource = w.uuidSource ∧ w'.uuidNext = w.uuidNext + 1 ∧
      w'.defaultTaskTimeoutDuration = w.defaultTaskTimeoutDuration := by
  unfold AddTask
  rw [doTaskWrap_of_init w w sid f "" _ config (init_of_initialised w sid sid hs) hconf]
  obtain ⟨w', h1, h2, -, h4, h5, h6, h7, h8, h9⟩ :=
    queueTask_ok w (f, taskTimeoutDuration config w.defaultTaskTimeoutDuration) sid hs hadd hroom
  exact ⟨w', h1, h2, h4, h5, h6, h7, h8, h9⟩

theorem mem_putTask_fresh (s : Store) (id id' : String)
    (h : (taskState.queued, ({ UUID := id, Status := .taskStatusQueued, Reason := "" } : Task)) ∈ s.tasks) :
    (taskState.queued, ({ UUID := id, Status := .taskStatusQueued, Reason := "" } : Task)) ∈
      (s.putTask .queued { UUID := id', Status := .taskStatusQueued, Reason := "" }).tasks := by
  by_cases hid : id = id'
  · subst hid; exact mem_putTask_self _ _ _
  · exact mem_putTask_of_mem _ _ _ _ h (by simpa using hid)

theorem addTasks_initialised {α : Type} (sid : Nat) (config : Option configuration)
    (fs : List α) : ∀ (w : World α),
    w.m.Storage = some sid →
    (w.stores sid).storedConfiguration = .ok config →
    (w.stores sid).addFault = none →
    w.m.taskChan.length + fs.length ≤ w.m.taskChanSize →
    ∃ w', addTasks w sid fs =
        .returned ((List.range fs.length).map (fun i => (w.uuidSource (w.uuidNext + i), none))) w' ∧
      (∀ i, i < fs.length →
        (taskState.queued,
          ({ UUID := w.uuidSource (w.uuidNext + i), Status := .taskStatusQueued, Reason := "" } : Task))
          ∈ (w'.stores sid).tasks) ∧
      (∀ id, (taskState.queued, ({ UUID := id, Status := .taskStatusQueued, Reason := "" } : Task))
          ∈ (w.stores sid).tasks →
        (taskState.queued, ({ UUID := id, Status := .taskStatusQueued, Reason := "" } : Task))
          ∈ (w'.stores sid).tasks) ∧
      w'.m.taskChan.map (fun t => t.UUID) = w.m.taskChan.map (fun t => t.UUID) ++
        (List.range fs.length).map (fun i => w.uuidSource (w.uuidNext + i)) := by
  induction fs with
  | nil =>
    intro w _ _ _ _
    exact ⟨w, by simp [addTasks], by simp, fun _ h => h, by simp⟩
  | cons f rest ih =>
    intro w hs hconf hadd hroom
    simp only [List.length_cons] at hroom
    obtain ⟨w1, h1, hstore, hchan, hs1, hsize, hsrc, hnext, -⟩ :=
      AddTask_initialised w sid f config hs hconf hadd (by omega)
    have hconf1 : (w1.stores sid).storedConfiguration = .ok config := by rw [hstore]; exact hconf
    have hadd1 : (w1.stores sid).addFault = none := by rw [hstore]; exact hadd
    have hroom1 : w1.m.taskChan.length + rest.length ≤ w1.m.taskChanSize := by
      rw [hchan, hsize]; simp; omega
    obtain ⟨w2, h2, hmem, hkeep, hchan2⟩ := ih w1 hs1 hconf1 hadd1 hroom1
    refine ⟨w2, ?_, ?_, ?_, ?_⟩
    · simp only [addTasks, h1, h2, List.length_cons, List.range_succ_eq_map, List.map_cons,
        List.map_map, hsrc, hnext, Nat.add_zero]
      congr 2
      apply List.map_congr_left
      intro i _
      simp only [Function.comp]
      congr 2
      omega
    · intro i hi
      simp only [List.length_cons] at hi
      cases i with
      | zero =>
        apply hkeep
        rw [hstore]
        exact mem_putTask_self _ _ _
      | succ j =>
        have := hmem j (by omega)
        rw [hsrc, hnext] at this
        have e : w.uuidNext + 1 + j = w.uuidNext + (j + 1) := by omega
        rw [e] at this
        exact this
    · intro id hid
      apply hkeep
      rw [hstore]
      exact mem_putTask_fresh _ _ _ hid
    · rw [hchan2, hchan, hsrc, hnext]
      simp only [List.map_append, List.map_cons, List.map_nil, List.length_cons,
        List.range_succ_eq_map, List.map_map, List.append_assoc, List.singleton_append,
        Nat.add_zero]
      congr 2
      apply List.map_congr_left
      intro i _
      simp only [Function.comp]
      congr 1
      omega

theorem init_facts {α : Type} (w : World α) (sid : Nat)
    (hinit : w.m.Storage = none ∨ w.m.Storage = some sid) :
    (doTaskWrap.init w sid).2.m.Storage = some sid ∧
    ((doTaskWrap.init w sid).2.stores sid).storedConfiguration = (w.stores sid).storedConfiguration ∧
    ((doTaskWrap.init w sid).2.stores sid).addFault = (w.stores sid).addFault ∧
    (doTaskWrap.init w sid).2.m.taskChan = w.m.taskChan ∧
    (doTaskWrap.init w sid).2.m.taskChanSize = w.m.taskChanSize ∧
    (doTaskWrap.init w sid).2.uuidSource = w.uuidSource ∧
    (doTaskWrap.init w sid).2.uuidNext = w.uuidNext := by
  rcases hinit with h | h
  · have hf := invalidateStorage_fields (w.stores sid)
    unfold doTaskWrap.init
    rw [h]
    simp only
    generalize invalidateStorage (w.stores sid) = r at hf
    obtain ⟨e, s⟩ := r
    cases e <;> exact ⟨rfl, by simpa [World.setStore] using hf.1, by simpa [World.setStore] using hf.2.1, rfl, rfl, rfl, rfl⟩
  · rw [init_of_initialised w sid sid h]
    exact ⟨h, rfl, rfl, rfl, rfl, rfl, rfl⟩

theorem AddTask_init_eq {α : Type} (w : World α) (sid : Nat) (f : α)
    (hsweep : (doTaskWrap.init w sid).1 = none) :
    AddTask w sid f = AddTask (doTaskWrap.init w sid).2 sid f := by
  obtain ⟨⟨storage, hst⟩, -⟩ := init_storage w (doTaskWrap.init w sid).2 sid
    (doTaskWrap.init w sid).1 rfl
  have h2 := init_of_initialised (doTaskWrap.init w sid).2 sid storage hst
  have h1 : doTaskWrap.init w sid = (none, (doTaskWrap.init w sid).2) := by
    rw [← hsweep]
  unfold AddTask doTaskWrap
  rw [h2]
  rw [h1]

/-- C9, amended: on a manager that is not yet initialised or initialised on
the request storage, whose first-use sweep succeeds and whose storage serves
the configuration read and the writes of new task records, `N` consecutive
`AddTask` calls with `N` not exceeding the room left in the task channel all
return, each with a nil error (never `BusyError`, although the earlier tasks
are still queued).  The `N` returned identifiers are the next `N` identifiers
of the generator, in call order; they are pairwise distinct exactly when the
generator does not repeat itself on them.  Each has a queued record in
storage, and the channel holds, behind what it held before, tasks with those
identifiers in call order. -/
theorem AddTask_fifo {α : Type} (w : World α) (reqStorage : Nat) (taskFuncs : List α)
    (config : Option configuration)
    (hinit : w.m.Storage = none ∨ w.m.Storage = some reqStorage)
    (hsweep : (doTaskWrap.init w reqStorage).1 = none)
    (hconf : (w.stores reqStorage).storedConfiguration = .ok config)
    (hadd : (w.stores reqStorage).addFault = none)
    (hroom : w.m.taskChan.length + taskFuncs.length ≤ w.m.taskChanSize) :
    ∃ w' results, addTasks w reqStorage taskFuncs = .returned results w' ∧
      results.length = taskFuncs.length ∧
      (∀ r ∈ results, r.2 = none) ∧
      results.map (fun r => r.1)
        = (List.range taskFuncs.length).map (fun i => w.uuidSource (w.uuidNext + i)) ∧
      ((results.map (fun r => r.1)).Nodup ↔
        ∀ i j, i < taskFuncs.length → j < taskFuncs.length →
          w.uuidSource (w.uuidNext + i) = w.uuidSource (w.uuidNext + j) → i = j) ∧
      (∀ id ∈ results.map (fun r => r.1),
        (taskState.queued, ({ UUID := id, Status := .taskStatusQueued, Reason := "" } : Task))
          ∈ (w'.stores reqStorage).tasks) ∧
      w'.m.taskChan.map (fun t => t.UUID)
        = w.m.taskChan.map (fun t => t.UUID) ++ results.map (fun r => r.1) := by
  have hrun : ∃ w', addTasks w reqStorage taskFuncs =
        .returned ((List.range taskFuncs.length).map
          (fun i => (w.uuidSource (w.uuidNext + i), none))) w' ∧
      (∀ i, i < taskFuncs.length →
        (taskState.queued,
          ({ UUID := w.uuidSource (w.uuidNext + i), Status := .taskStatusQueued,
             Reason := "" } : Task))
          ∈ (w'.stores reqStorage).tasks) ∧
      w'.m.taskChan.map (fun t => t.UUID) = w.m.taskChan.map (fun t => t.UUID) ++
        (List.range taskFuncs.length).map (fun i => w.uuidSource (w.uuidNext + i)) := by
    cases taskFuncs with
    | nil => exact ⟨w, by simp [addTasks], by simp, by simp⟩
    | cons f rest =>
      obtain ⟨h1, h2, h3, h4, h5, h6, h7⟩ := init_facts w reqStorage hinit
      obtain ⟨w', ha, hb, -, hc⟩ := addTasks_initialised reqStorage config (f :: rest)
        (doTaskWrap.init w reqStorage).2 h1 (by rw [h2]; exact hconf) (by rw [h3]; exact hadd)
        (by rw [h4, h5]; exact hroom)
      rw [h6, h7] at ha hb hc
      rw [h4] at hc
      refine ⟨w', ?_, hb, hc⟩
      rw [← ha]
      simp only [addTasks]
      rw [AddTask_init_eq w reqStorage f hsweep]
  obtain ⟨w', hret, hrec, hchan⟩ := hrun
  have hids : ((List.range taskFuncs.length).map
      (fun i => ((w.uuidSource (w.uuidNext + i), none) : String × Option Error))).map
        (fun r => r.1)
      = (List.range taskFuncs.length).map (fun i => w.uuidSource (w.uuidNext + i)) := by
    rw [List.map_map]
    rfl
  refine ⟨w', _, hret, by simp, ?_, hids, ?_, ?_, ?_⟩
  · intro r hr
    obtain ⟨i, -, hi⟩ := List.mem_map.mp hr
    rw [← hi]
  · rw [hids, List.nodup_map_iff_inj_on (List.nodup_range _)]
    constructor
    · intro h i j hi hj hij
      exact h i (List.mem_range.mpr hi) j (List.mem_range.mpr hj) hij
    · intro h i hi j hj hij
      exact h i j (List.mem_range.mp hi) (List.mem_range.mp hj) hij
  · intro id hid
    rw [hids] at hid
    obtain ⟨i, hi, hid⟩ := List.mem_map.mp hid
    rw [← hid]
    exact hrec i (List.mem_range.mp hi)
  · rw [hids]
    exact hchan

/-! ## Concrete runs -/

theorem sampleUUIDs_ne_empty (n : Nat) : sampleUUIDs n ≠ "" := by
  intro h
  have := congrArg String.length h
  simp [sampleUUIDs, String.length] at this

theorem sampleUUIDs_injective : Function.Injective sampleUUIDs := by
  intro a b h
  have := congrArg String.length h
  simpa [sampleUUIDs, String.length] using this

/-- C1, the claim as stated fails: a manager on its first call, with a storage
that lists a running and a queued task and whose reads succeed, does not
return `BusyError` but queues a new task (the sweep has run before the busy
check); and a manager whose storage lists nothing but fails the write of the
new record returns that write error instead of an identifier. -/
theorem RunTask_first_call_not_busy :
    (taskState.running, ({ UUID := "r", Status := .taskStatusRunning, Reason := "" } : Task))
        ∈ ((setupTest inconsistentStorage).stores 0).tasks ∧
    (taskState.queued, ({ UUID := "q", Status := .taskStatusQueued, Reason := "" } : Task))
        ∈ ((setupTest inconsistentStorage).stores 0).tasks ∧
    (∀ st, ((setupTest inconsistentStorage).stores 0).listFault st = none) ∧
    ((setupTest inconsistentStorage).stores 0).storedConfiguration = .ok none ∧
    (RunTask (setupTest inconsistentStorage) 0 noneTask).result = some ("u", none) ∧
    ((setupTest readOnlyStorage).stores 0).tasks = [] ∧
    (∀ st, ((setupTest readOnlyStorage).stores 0).listFault st = none) ∧
    ((setupTest readOnlyStorage).stores 0).storedConfiguration = .ok none ∧
    (RunTask (setupTest readOnlyStorage) 0 noneTask).result
      = some ("", some (.external "read-only storage")) :=
  ⟨by decide, by decide, fun _ => rfl, rfl, by decide, rfl, fun _ => rfl, rfl, by decide⟩

/-- C1, the amended statement at the first call of `TestManager_RunTask`: on
the empty storage `RunTask` returns a non-empty identifier and no error. -/
theorem RunTask_busy_iff_witness :
    doTaskWrap.init (setupTest InmemStorage) 0
      = (none, (doTaskWrap.init (setupTest InmemStorage) 0).2) ∧
    (∃ id w', RunTask (setupTest InmemStorage) 0 noneTask = .returned (id, none) w' ∧ id ≠ "") := by
  refine ⟨rfl, ?_⟩
  have h := (RunTask_busy_iff (setupTest InmemStorage)
    (doTaskWrap.init (setupTest InmemStorage) 0).2 0 noneTask none rfl (fun _ => rfl) rfl
    sampleUUIDs_ne_empty).2
  obtain ⟨storage, hst, h2⟩ := h (by
    rintro ⟨t, ht | ht⟩ <;> exact absurd ht (List.not_mem_nil _))
  have hs : storage = 0 := by
    have h0 : (doTaskWrap.init (setupTest InmemStorage) 0).2.m.Storage = some 0 := rfl
    rw [h0] at hst
    exact (Option.some.inj hst).symm
  subst hs
  obtain ⟨id, w', hr, hne, -⟩ := h2 rfl (by decide)
  exact ⟨id, w', hr, hne⟩

/-- C2, the claim as stated fails: after the first `RunTask` on the storage of
`TestManager_RunTaskInvalidateStorage` the tasks `r` and `q` are stored with
status canceled, not failed, and with the reason "the task canceled due to
restart of the plugin", not "invalidated by plugin restart"; no record of the
storage carries the claimed status or reason. -/
theorem first_call_stores_canceled :
    ((setupTest inconsistentStorage).stores 0).tasks =
      [(.running, { UUID := "r", Status := .taskStatusRunning, Reason := "" }),
       (.queued, { UUID := "q", Status := .taskStatusQueued, Reason := "" })] ∧
    (setupTest inconsistentStorage).m.Storage = none ∧
    ((RunTask (setupTest inconsistentStorage) 0 noneTask).state.stores 0).tasks =
      [(.completed, { UUID := "r", Status := .taskStatusCanceled,
                      Reason := "the task canceled due to restart of the plugin" }),
       (.completed, { UUID := "q", Status := .taskStatusCanceled,
                      Reason := "the task canceled due to restart of the plugin" }),
       (.queued, { UUID := "u", Status := .taskStatusQueued, Reason := "" })] ∧
    (∀ e ∈ ((RunTask (setupTest inconsistentStorage) 0 noneTask).state.stores 0).tasks,
      e.2.Status ≠ .taskStatusFailed ∧ e.2.Reason ≠ "invalidated by plugin restart") ∧
    (∀ e ∈ ((AddTask (setupTest inconsistentStorage) 0 noneTask).state.stores 0).tasks,
      e.2.Status ≠ .taskStatusFailed ∧ e.2.Reason ≠ "invalidated by plugin restart") ∧
    (∀ e ∈ ((AddOptionalTask (setupTest inconsistentStorage) 0 noneTask).state.stores 0).tasks,
      e.2.Status ≠ .taskStatusFailed ∧ e.2.Reason ≠ "invalidated by plugin restart") :=
  ⟨rfl, rfl, by decide, by decide, by decide, by decide⟩

/-- C2, the amended statement on the storage of
`TestManager_RunTaskInvalidateStorage`, for its queued task `q`. -/
theorem first_call_invalidates_witness :
    (setupTest inconsistentStorage).m.Storage = none ∧
    (invalidateStorage ((setupTest inconsistentStorage).stores 0)).1 = none ∧
    (taskState.queued, ({ UUID := "q", Status := .taskStatusQueued, Reason := "" } : Task))
        ∈ ((setupTest inconsistentStorage).stores 0).tasks ∧
    Invalidated ((RunTask (setupTest inconsistentStorage) 0 noneTask).state.stores 0) "q" ∧
    Invalidated ((AddTask (setupTest inconsistentStorage) 0 noneTask).state.stores 0) "q" ∧
    Invalidated ((AddOptionalTask (setupTest inconsistentStorage) 0 noneTask).state.stores 0) "q" :=
  ⟨rfl, by decide, by decide,
    first_call_invalidates (setupTest inconsistentStorage) 0 noneTask .queued
      { UUID := "q", Status := .taskStatusQueued, Reason := "" } rfl (by decide) (Or.inl rfl)
      (by decide)⟩

/-- C3, the code at the failing inputs: the invalidation sweep returns without
error and the key `current_running_task` still holds its value, both on a
storage with that key and no task record (where the sweep has nothing to
switch) and on the storage of `TestManager_RunTaskInvalidateStorage`, also
after the whole first `RunTask`; the test asserts the key to be empty there. -/
theorem sweep_keeps_current_running_task :
    (invalidateStorage currentRunningTaskStorage).1 = none ∧
    (invalidateStorage currentRunningTaskStorage).2.currentRunningTask = some "ANY" ∧
    (invalidateStorage inconsistentStorage).1 = none ∧
    (invalidateStorage inconsistentStorage).2.currentRunningTask = some "r" ∧
    (RunTask (setupTest inconsistentStorage) 0 noneTask).result = some ("u", none) ∧
    ((RunTask (setupTest inconsistentStorage) 0 noneTask).state.stores 0).currentRunningTask
      = some "r" :=
  ⟨by decide, by decide, by decide, by decide, by decide, by decide⟩

/-- C9, the claim as stated fails: on a storage that refuses the write of a
new task record, with an empty task channel of capacity 2, an `AddTask` call
does not succeed.  It returns the write error with an empty identifier, and so
does a second call; no record is stored and nothing is put on the channel. -/
theorem AddTask_returns_write_error :
    (setupTest readOnlyStorage).m.taskChan.length = 0 ∧
    (setupTest readOnlyStorage).m.taskChanSize = 2 ∧
    (AddTask (setupTest readOnlyStorage) 0 noneTask).result
      = some ("", some (.external "read-only storage")) ∧
    (addTasks (setupTest readOnlyStorage) 0 [noneTask, noneTask]).result
      = some [("", some (.external "read-only storage")),
              ("", some (.external "read-only storage"))] ∧
    ((addTasks (setupTest readOnlyStorage) 0 [noneTask, noneTask]).state.stores 0).tasks = [] ∧
    (addTasks (setupTest readOnlyStorage) 0 [noneTask, noneTask]).state.m.taskChan.map
      (fun t => t.UUID) = [] :=
  ⟨by decide, by decide, by decide, by decide, by decide, by decide⟩

/-- C9 amended, at the two calls of `TestManager_AddTask`: both succeed, with
the distinct identifiers `u` and `uu`, and the channel then holds them in that
order. -/
theorem AddTask_fifo_witness :
    ∃ w' results, addTasks (setupTest InmemStorage) 0 [noneTask, noneTask]
        = .returned results w' ∧
      results = [("u", none), ("uu", none)] ∧
      (results.map (fun r => r.1)).Nodup ∧
      w'.m.taskChan.map (fun t => t.UUID) = ["u", "uu"] := by
  obtain ⟨w', results, h1, h2, h3, h4, h5, -, h7⟩ := AddTask_fifo (setupTest InmemStorage) 0
    [noneTask, noneTask] none (Or.inl rfl) (by decide) rfl rfl (by decide)
  have hids : results.map (fun r => r.1) = ["u", "uu"] := by
    rw [h4]; decide
  have hres : results = [("u", none), ("uu", none)] := by
    match results, h2, h3, hids with
    | [(a, x), (b, y)], _, h3, hids =>
      have hx : x = none := h3 (a, x) (by simp)
      have hy : y = none := h3 (b, y) (by simp)
      simp only [List.map_cons, List.map_nil, List.cons.injEq, and_true] at hids
      rw [hx, hy, hids.1, hids.2]
  refine ⟨w', results, h1, hres, ?_, ?_⟩
  · rw [hids]; decide
  · rw [h7, hids]; rfl

/-- C10 on the two calls of `TestManager_AddOptionalTask`: the first is added,
the second, made while the first task is still queued, is not. -/
theorem AddOptionalTask_maps_RunTask_witness :
    (AddOptionalTask (setupTest InmemStorage) 0 noneTask).result = some ("u", true, none) ∧
    (AddOptionalTask (AddOptionalTask (setupTest InmemStorage) 0 noneTask).state 0 noneTask).result
      = some ("", false, none) ∧
    ∃ w', AddOptionalTask (AddOptionalTask (setupTest InmemStorage) 0 noneTask).state 0 noneTask
      = .returned ("", false, none) w' := by
  refine ⟨by decide, by decide, ?_⟩
  refine ⟨(RunTask (AddOptionalTask (setupTest InmemStorage) 0 noneTask).state 0 noneTask).state,
    ((AddOptionalTask_maps_RunTask _ 0 noneTask).2.1 _).mpr rfl⟩

end Trdl.TasksManager

/-! # Theorems: task manager, the storage handle and the busy check -/

namespace Trdl.TasksManager

theorem RunTask_initialised_cases {α : Type} (w : World α) (sid storage : Nat) (f : α)
    (hs : w.m.Storage = some storage) :
    (∃ e, e ≠ Error.BusyError ∧ RunTask w sid f = .returned ("", some e) w) ∨
    RunTask w sid f = .returned ("", some .BusyError) w ∨
    (∃ a, RunTask w sid f = queueTask w a) := by
  unfold RunTask doTaskWrap
  rw [init_of_initialised w sid storage hs]
  simp only
  split
  · exact Or.inl ⟨_, by simp, rfl⟩
  · split
    · rename_i err _
      refine Or.inl ⟨err, ?_, rfl⟩
      rename_i h
      unfold isBusy at h
      simp only [isBusy.loop] at h
      intro hb
      subst hb
      split at h
      · simp at h
      · split at h
        · simp at h
        · split at h
          · simp at h
          · split at h <;> simp at h
    · split
      · exact Or.inr (Or.inl rfl)
      · exact Or.inr (Or.inr ⟨_, rfl⟩)

/-- C12: rejection is atomic.  For every manager whose storage handle is set,
when `RunTask` returns `BusyError` the returned identifier is the empty
string and the state is exactly the one before the call: every storage is as
it was (no task record is added) and the task channel is as it was (nothing
is put on the queue). -/
theorem RunTask_busy_atomic {α : Type} (w : World α) (reqStorage storage : Nat) (taskFunc : α)
    (id : String) (w' : World α)
    (hinit : w.m.Storage = some storage)
    (hbusy : RunTask w reqStorage taskFunc = .returned (id, some .BusyError) w') :
    id = "" ∧ w' = w ∧ w'.stores = w.stores ∧ w'.m.taskChan = w.m.taskChan ∧
      w'.uuidNext = w.uuidNext := by
  have hw : id = "" ∧ w' = w := by
    rcases RunTask_initialised_cases w reqStorage storage taskFunc hinit with
      ⟨e, he, h⟩ | h | ⟨a, h⟩
    · rw [h] at hbusy
      simp only [Outcome.returned.injEq, Prod.mk.injEq, Option.some.injEq] at hbusy
      exact absurd hbusy.1.2 he
    · rw [h] at hbusy
      simp only [Outcome.returned.injEq, Prod.mk.injEq] at hbusy
      exact ⟨hbusy.1.1.symm, hbusy.2.symm⟩
    · rw [h] at hbusy
      exact absurd hbusy (queueTask_not_busy _ _ _ _)
  obtain ⟨h1, h2⟩ := hw
  subst h2
  exact ⟨h1, rfl, rfl, rfl, rfl⟩

theorem queueTask_state_storage {α : Type} (w : World α) (a : α × Nat) :
    (queueTask w a).state.m.Storage = w.m.Storage := by
  unfold queueTask
  split
  · rfl
  · rename_i storage hs
    simp only [addNewTaskToStorage]
    cases hadd : (w.stores storage).addFault with
    | some err => rfl
    | none =>
      simp only
      split <;> rfl

theorem queueTask_state_records {α : Type} (w : World α) (a : α × Nat) (i : Nat)
    (e : taskState × Task) (he : e ∈ (w.stores i).tasks) :
    e ∈ ((queueTask w a).state.stores i).tasks ∨
      (e.1 = .queued ∧ e.2.UUID = w.uuidSource w.uuidNext) := by
  unfold queueTask
  split
  · exact Or.inl he
  · rename_i storage hs
    simp only [addNewTaskToStorage]
    cases hadd : (w.stores storage).addFault with
    | some err => exact Or.inl he
    | none =>
      have key : e ∈ ((({ w with uuidNext := w.uuidNext + 1 } : World α).setStore storage
            ((w.stores storage).putTask .queued
              { UUID := w.uuidSource w.uuidNext, Status := .taskStatusQueued, Reason := "" })).stores
            i).tasks ∨ (e.1 = .queued ∧ e.2.UUID = w.uuidSource w.uuidNext) := by
        simp only [World.setStore]
        split
        · rename_i hi
          subst hi
          by_cases hk : e.1 = .queued ∧ e.2.UUID = w.uuidSource w.uuidNext
          · exact Or.inr hk
          · exact Or.inl (mem_putTask_of_mem _ _ _ _ he hk)
        · exact Or.inl he
      simp only
      split <;> simpa [Outcome.state] using key

theorem RunTask_init_eq {α : Type} (w : World α) (sid : Nat) (f : α)
    (hsweep : (doTaskWrap.init w sid).1 = none) :
    RunTask w sid f = RunTask (doTaskWrap.init w sid).2 sid f := by
  obtain ⟨⟨storage, hst⟩, -⟩ := init_storage w (doTaskWrap.init w sid).2 sid
    (doTaskWrap.init w sid).1 rfl
  have h2 := init_of_initialised (doTaskWrap.init w sid).2 sid storage hst
  have h1 : doTaskWrap.init w sid = (none, (doTaskWrap.init w sid).2) := by
    rw [← hsweep]
  unfold RunTask doTaskWrap
  rw [h2]
  rw [h1]

theorem doTaskWrap_init_failed {α : Type} (w : World α) (sid : Nat) (f : α) (u : String)
    (F : World α → α × Nat → Outcome (String × Option Error) (World α)) (err : Error)
    (h : (doTaskWrap.init w sid).1 = some err) :
    doTaskWrap w sid f u F = .returned (u, some err) (doTaskWrap.init w sid).2 := by
  have h1 : doTaskWrap.init w sid = (some err, (doTaskWrap.init w sid).2) := by
    rw [← h]
  unfold doTaskWrap
  rw [h1]

theorem init_error_not_busy {α : Type} (w : World α) (sid : Nat) :
    (doTaskWrap.init w sid).1 ≠ some .BusyError := by
  unfold doTaskWrap.init
  split
  · simp only
    split <;> simp
  · simp

theorem init_fresh_facts {α : Type} (w : World α) (sid : Nat) (h : w.m.Storage = none) :
    (doTaskWrap.init w sid).2.m.Storage = some sid ∧
    (doTaskWrap.init w sid).2.stores sid = (invalidateStorage (w.stores sid)).2 ∧
    (∀ i, i ≠ sid → (doTaskWrap.init w sid).2.stores i = w.stores i) ∧
    ((doTaskWrap.init w sid).1 = none ↔ (invalidateStorage (w.stores sid)).1 = none) := by
  unfold doTaskWrap.init
  rw [h]
  simp only
  generalize invalidateStorage (w.stores sid) = r
  obtain ⟨e, s⟩ := r
  cases e with
  | none =>
    refine ⟨rfl, by simp [World.setStore], ?_, by simp⟩
    intro i hi
    simp [World.setStore, hi]
  | some err =>
    refine ⟨rfl, by simp [World.setStore], ?_, by simp⟩
    intro i hi
    simp [World.setStore, hi]

/-- C13: a manager built without a worker has no storage handle.  On a call of
`RunTask`, `AddTask` or `AddOptionalTask` that finds the handle unset, the
first-use block sets the handle to the request storage and runs the
invalidation sweep on that storage (the storage holds the result of the
sweep, the block fails exactly when the sweep fails, no other storage is
touched), and the handle is the request storage when the call is over; the
call then goes on as a call on the state so prepared, or returns the error of
the sweep.  On a call that finds the handle set, the block does nothing (no
sweep), the handle is the same when the call is over, and every task record
is still stored, except a queued one that the new record replaces. -/
theorem storage_handle_set_on_first_call {α : Type} (w : World α) (reqStorage : Nat)
    (taskFunc : α) :
    (∀ n, (initManagerWithoutWorker n).Storage = none) ∧
    (w.m.Storage = none →
      (doTaskWrap.init w reqStorage).2.m.Storage = some reqStorage ∧
      (doTaskWrap.init w reqStorage).2.stores reqStorage
        = (invalidateStorage (w.stores reqStorage)).2 ∧
      (∀ i, i ≠ reqStorage → (doTaskWrap.init w reqStorage).2.stores i = w.stores i) ∧
      ((doTaskWrap.init w reqStorage).1 = none ↔
        (invalidateStorage (w.stores reqStorage)).1 = none) ∧
      (RunTask w reqStorage taskFunc).state.m.Storage = some reqStorage ∧
      (AddTask w reqStorage taskFunc).state.m.Storage = some reqStorage ∧
      (AddOptionalTask w reqStorage taskFunc).state.m.Storage = some reqStorage) ∧
    ((doTaskWrap.init w reqStorage).1 = none →
      RunTask w reqStorage taskFunc
        = RunTask (doTaskWrap.init w reqStorage).2 reqStorage taskFunc ∧
      AddTask w reqStorage taskFunc
        = AddTask (doTaskWrap.init w reqStorage).2 reqStorage taskFunc ∧
      AddOptionalTask w reqStorage taskFunc
        = AddOptionalTask (doTaskWrap.init w reqStorage).2 reqStorage taskFunc) ∧
    (∀ err, (doTaskWrap.init w reqStorage).1 = some err →
      RunTask w reqStorage taskFunc
        = .returned ("", some err) (doTaskWrap.init w reqStorage).2 ∧
      AddTask w reqStorage taskFunc
        = .returned ("", some err) (doTaskWrap.init w reqStorage).2 ∧
      AddOptionalTask w reqStorage taskFunc
        = .returned ("", false, some err) (doTaskWrap.init w reqStorage).2) ∧
    (∀ h, w.m.Storage = some h →
      doTaskWrap.init w reqStorage = (none, w) ∧
      (RunTask w reqStorage taskFunc).state.m.Storage = some h ∧
      (AddTask w reqStorage taskFunc).state.m.Storage = some h ∧
      (AddOptionalTask w reqStorage taskFunc).state.m.Storage = some h ∧
      (∀ i e, e ∈ (w.stores i).tasks →
        (e ∈ ((RunTask w reqStorage taskFunc).state.stores i).tasks ∨
          (e.1 = .queued ∧ e.2.UUID = w.uuidSource w.uuidNext)) ∧
        (e ∈ ((AddTask w reqStorage taskFunc).state.stores i).tasks ∨
          (e.1 = .queued ∧ e.2.UUID = w.uuidSource w.uuidNext)) ∧
        (e ∈ ((AddOptionalTask w reqStorage taskFunc).state.stores i).tasks ∨
          (e.1 = .queued ∧ e.2.UUID = w.uuidSource w.uuidNext)))) := by
  have hstorage : ∀ x : Option Nat, (doTaskWrap.init w reqStorage).2.m.Storage = x →
      (RunTask w reqStorage taskFunc).state.m.Storage = x ∧
      (AddTask w reqStorage taskFunc).state.m.Storage = x ∧
      (AddOptionalTask w reqStorage taskFunc).state.m.Storage = x := by
    intro x hx
    have hq : ∀ (w1 : World α) (a : α × Nat), w1.m.Storage = x →
        (queueTask w1 a).state.m.Storage = x :=
      fun w1 a h => (queueTask_state_storage w1 a).trans h
    have h1 := RunTask_state (fun y => y.m.Storage = x) w reqStorage taskFunc hq hx
    exact ⟨h1, AddTask_state (fun y => y.m.Storage = x) w reqStorage taskFunc hq hx,
      by rw [AddOptionalTask_state]; exact h1⟩
  refine ⟨fun _ => rfl, ?_, ?_, ?_, ?_⟩
  · intro hnone
    obtain ⟨h1, h2, h3, h4⟩ := init_fresh_facts w reqStorage hnone
    exact ⟨h1, h2, h3, h4, hstorage _ h1⟩
  · intro hok
    have hr := RunTask_init_eq w reqStorage taskFunc hok
    refine ⟨hr, AddTask_init_eq w reqStorage taskFunc hok, ?_⟩
    unfold AddOptionalTask
    rw [← hr]
  · intro err herr
    have hne : err ≠ .BusyError := by
      intro hb
      subst hb
      exact init_error_not_busy w reqStorage herr
    have hr : RunTask w reqStorage taskFunc
        = .returned ("", some err) (doTaskWrap.init w reqStorage).2 := by
      unfold RunTask
      exact doTaskWrap_init_failed w reqStorage taskFunc "" _ err herr
    refine ⟨hr, ?_, ?_⟩
    · unfold AddTask
      exact doTaskWrap_init_failed w reqStorage taskFunc "" _ err herr
    · unfold AddOptionalTask
      rw [hr]
      simp [hne]
  · intro h hs
    have hinit := init_of_initialised w reqStorage h hs
    have hst := hstorage (some h) (by rw [hinit]; exact hs)
    refine ⟨hinit, hst.1, hst.2.1, hst.2.2, ?_⟩
    intro i e he
    have hq : ∀ (w1 : World α) (a : α × Nat),
        (w1.uuidSource = w.uuidSource ∧ w1.uuidNext = w.uuidNext ∧
          (e ∈ (w1.stores i).tasks ∨ (e.1 = .queued ∧ e.2.UUID = w.uuidSource w.uuidNext))) →
        (e ∈ ((queueTask w1 a).state.stores i).tasks ∨
          (e.1 = .queued ∧ e.2.UUID = w.uuidSource w.uuidNext)) := by
      intro w1 a ⟨h1, h2, h3⟩
      rcases h3 with h3 | h3
      · have := queueTask_state_records w1 a i e h3
        rw [h1, h2] at this
        exact this
      · exact Or.inr h3
    have hrun : e ∈ ((RunTask w reqStorage taskFunc).state.stores i).tasks ∨
        (e.1 = .queued ∧ e.2.UUID = w.uuidSource w.uuidNext) := by
      rcases RunTask_initialised_cases w reqStorage h taskFunc hs with ⟨err, -, hr⟩ | hr | ⟨a, hr⟩
      · rw [hr]; exact Or.inl he
      · rw [hr]; exact Or.inl he
      · rw [hr]; exact hq w a ⟨rfl, rfl, Or.inl he⟩
    refine ⟨hrun, ?_, by rw [AddOptionalTask_state]; exact hrun⟩
    unfold AddTask doTaskWrap
    rw [hinit]
    simp only
    split
    · exact Or.inl he
    · exact hq w _ ⟨rfl, rfl, Or.inl he⟩

/-! ## Concrete runs -/

/-- C11, the code at the failing input: on the manager and storage of
`TestManager_RunTaskWithCurrentRunningTask` (storage handle set, the key
`current_running_task` holding `ANY`, no task record) `RunTask` does not
return `BusyError`: it returns the new identifier `u` with a nil error, stores
a queued record for it and puts it on the queue.  When the key is then
deleted, as in the test, the next `RunTask` returns `BusyError`, for the
task queued by the first call.  On a storage without the key and without a
task record `RunTask` succeeds. -/
theorem RunTask_ignores_current_running_task :
    (setupInitialisedTest currentRunningTaskStorage).m.Storage = some 0 ∧
    ((setupInitialisedTest currentRunningTaskStorage).stores 0).currentRunningTask = some "ANY" ∧
    ((setupInitialisedTest currentRunningTaskStorage).stores 0).tasks = [] ∧
    isBusy ((setupInitialisedTest currentRunningTaskStorage).stores 0) = (false, none) ∧
    (RunTask (setupInitialisedTest currentRunningTaskStorage) 0 noneTask).result
      = some ("u", none) ∧
    ((RunTask (setupInitialisedTest currentRunningTaskStorage) 0 noneTask).state.stores 0).tasks
      = [(.queued, { UUID := "u", Status := .taskStatusQueued, Reason := "" })] ∧
    (RunTask (setupInitialisedTest currentRunningTaskStorage) 0 noneTask).state.m.taskChan.map
      (fun t => t.UUID) = ["u"] ∧
    (RunTask
      ((RunTask (setupInitialisedTest currentRunningTaskStorage) 0 noneTask).state.setStore 0
        ((RunTask (setupInitialisedTest currentRunningTaskStorage) 0
          noneTask).state.stores 0).deleteCurrentRunningTask)
      0 noneTask).result = some ("", some .BusyError) ∧
    (RunTask (setupInitialisedTest currentRunningTaskStorage.deleteCurrentRunningTask)
      0 noneTask).result = some ("u", none) :=
  ⟨rfl, rfl, rfl, by decide, by decide, by decide, by decide, by decide, by decide⟩

/-- C12 on the second call of `TestManager_RunTask`: the first task is still
queued, the call is rejected, and the state is the one before the call. -/
theorem RunTask_busy_atomic_witness :
    (RunTask (setupTest InmemStorage) 0 noneTask).state.m.Storage = some 0 ∧
    RunTask (RunTask (setupTest InmemStorage) 0 noneTask).state 0 noneTask
      = .returned ("", some .BusyError) (RunTask (setupTest InmemStorage) 0 noneTask).state ∧
    ((RunTask (setupTest InmemStorage) 0 noneTask).state.stores 0).tasks
      = [(.queued, { UUID := "u", Status := .taskStatusQueued, Reason := "" })] ∧
    ("" = "" ∧
      (RunTask (setupTest InmemStorage) 0 noneTask).state
        = (RunTask (setupTest InmemStorage) 0 noneTask).state ∧
      (RunTask (setupTest InmemStorage) 0 noneTask).state.stores
        = (RunTask (setupTest InmemStorage) 0 noneTask).state.stores ∧
      (RunTask (setupTest InmemStorage) 0 noneTask).state.m.taskChan
        = (RunTask (setupTest InmemStorage) 0 noneTask).state.m.taskChan ∧
      (RunTask (setupTest InmemStorage) 0 noneTask).state.uuidNext
        = (RunTask (setupTest InmemStorage) 0 noneTask).state.uuidNext) :=
  ⟨rfl, rfl, by decide,
    RunTask_busy_atomic (RunTask (setupTest InmemStorage) 0 noneTask).state 0 0 noneTask ""
      (RunTask (setupTest InmemStorage) 0 noneTask).state rfl rfl⟩

/-- C13 on `TestManager_RunTask`: the handle is unset after set-up, it is the
request storage after the first call, and the second call leaves it so. -/
theorem storage_handle_set_on_first_call_witness :
    (setupTest InmemStorage).m.Storage = none ∧
    (RunTask (setupTest InmemStorage) 0 noneTask).state.m.Storage = some 0 ∧
    (RunTask (RunTask (setupTest InmemStorage) 0 noneTask).state 0 noneTask).state.m.Storage
      = some 0 :=
  ⟨rfl,
    ((storage_handle_set_on_first_call (setupTest InmemStorage) 0 noneTask).2.1 rfl).2.2.2.2.1,
    ((storage_handle_set_on_first_call (RunTask (setupTest InmemStorage) 0 noneTask).state 0
      noneTask).2.2.2.2 0 rfl).2.1⟩

end Trdl.TasksManager

/-! # Theorems: release pipeline -/

namespace Trdl.Release

open TasksManager (Error Outcome)

theorem publishLoop_sequenced {Repo : Type} (env : Env Repo) (gitTag : String)
    (ending : StreamEnd) (entries : List Header) :
    ∀ (published : Nat) (log : List Call),
      (∀ d ∈ log, d.failed = false ∧ d.step ≠ .commit ∧ d.step.rank ≤ 5) →
      log.Pairwise InOrder →
      Sequenced (publishLoop env gitTag ending entries published log) := by
  have hnext : ∀ log : List Call,
      (∀ d ∈ log, d.failed = false ∧ d.step ≠ .commit ∧ d.step.rank ≤ 5) →
      log.Pairwise InOrder → ∀ (c : Call), c.step.rank = 5 →
      (log ++ [c]).Pairwise InOrder := by
    intro log hlog hp c hc
    rw [List.pairwise_append]
    refine ⟨hp, List.pairwise_singleton _ _, ?_⟩
    intro a ha b hb
    rw [List.mem_singleton] at hb
    subst hb
    have := (hlog a ha).2.2
    unfold InOrder
    omega
  induction entries with
  | nil =>
    intro published log hlog hp
    unfold publishLoop
    cases ending with
    | hang =>
      exact ⟨hp, Or.inr ⟨rfl, fun d hd => ⟨(hlog d hd).1, (hlog d hd).2.1⟩⟩⟩
    | readError e =>
      refine ⟨hnext log hlog hp _ rfl, Or.inl ⟨log, (Call.mk Step.next true), rfl,
        fun d hd => ⟨(hlog d hd).1, (hlog d hd).2.1⟩, Or.inr ⟨_, rfl, rfl⟩⟩⟩
    | EOF =>
      have hp1 := hnext log hlog hp (Call.mk Step.next false) rfl
      have hall : ∀ d ∈ log ++ [(Call.mk Step.next false)], d.failed = false ∧ d.step ≠ .commit := by
        intro d hd
        rcases List.mem_append.mp hd with hd | hd
        · exact ⟨(hlog d hd).1, (hlog d hd).2.1⟩
        · rw [List.mem_singleton] at hd; subst hd; exact ⟨rfl, by decide⟩
      have hp2 : ∀ b : Bool, (log ++ [(Call.mk Step.next false), (Call.mk Step.commit b)]).Pairwise InOrder := by
        intro b
        have e : log ++ [(Call.mk Step.next false), (Call.mk Step.commit b)]
            = (log ++ [(Call.mk Step.next false)]) ++ [(Call.mk Step.commit b)] := by simp
        rw [e, List.pairwise_append]
        refine ⟨hp1, List.pairwise_singleton _ _, ?_⟩
        intro a ha c hc
        rw [List.mem_singleton] at hc
        subst hc
        rcases List.mem_append.mp ha with ha | ha
        · have := (hlog a ha).2.2
          exact Or.inl (by show a.step.rank < 6; omega)
        · rw [List.mem_singleton] at ha; subst ha
          unfold InOrder
          simp [Step.rank]
      cases hc : env.Commit published with
      | some e =>
        simp only
        refine ⟨hp2 true, Or.inl ⟨log ++ [(Call.mk Step.next false)], (Call.mk Step.commit true), by simp [Outcome.state],
          hall, Or.inr ⟨_, rfl, rfl⟩⟩⟩
      | none =>
        simp only
        refine ⟨hp2 false, Or.inl ⟨log ++ [(Call.mk Step.next false)], (Call.mk Step.commit false),
          by simp [Outcome.state], hall, Or.inl ⟨rfl, rfl⟩⟩⟩
  | cons hdr rest ih =>
    intro published log hlog hp
    unfold publishLoop
    have hp1 := hnext log hlog hp (Call.mk Step.next false) rfl
    have hall : ∀ d ∈ log ++ [(Call.mk Step.next false)],
        d.failed = false ∧ d.step ≠ .commit ∧ d.step.rank ≤ 5 := by
      intro d hd
      rcases List.mem_append.mp hd with hd | hd
      · exact hlog d hd
      · rw [List.mem_singleton] at hd; subst hd; exact ⟨rfl, by decide, by decide⟩
    split
    · have e : ∀ b, log ++ [(Call.mk Step.next false), (Call.mk (Step.publishReleaseTarget gitTag hdr.Name) b)]
          = (log ++ [(Call.mk Step.next false)]) ++ [(Call.mk (Step.publishReleaseTarget gitTag hdr.Name) b)] := by
        intro b; simp
      have hp2 := fun b => hnext _ hall hp1 (Call.mk (Step.publishReleaseTarget gitTag hdr.Name) b) rfl
      cases hpub : env.PublishReleaseTarget published gitTag hdr.Name with
      | some err =>
        simp only
        rw [e]
        exact ⟨hp2 true, Or.inl ⟨_, _, rfl, fun d hd => ⟨(hall d hd).1, (hall d hd).2.1⟩,
          Or.inr ⟨_, rfl, rfl⟩⟩⟩
      | none =>
        simp only
        rw [e]
        apply ih _ _ _ (hp2 false)
        intro d hd
        rcases List.mem_append.mp hd with hd | hd
        · exact hall d hd
        · rw [List.mem_singleton] at hd; subst hd; exact ⟨rfl, by simp, by simp [Step.rank]⟩
    · exact ih _ _ hall hp1

theorem publishLoop_noneSkipped {Repo : Type} (env : Env Repo) (gitTag : String)
    (ending : StreamEnd) (entries : List Header) :
    ∀ (published : Nat) (log : List Call),
      (∀ j, j < 5 → ∃ a ∈ log, a.step.rank = j) →
      (∀ d ∈ log, d.step.rank ≤ 5) →
      NoneSkipped (publishLoop env gitTag ending entries published log).state := by
  have hbase : ∀ log : List Call, (∀ j, j < 5 → ∃ a ∈ log, a.step.rank = j) →
      (∀ d ∈ log, d.step.rank ≤ 5) → NoneSkipped log := by
    intro log h5 hle d hd j hj
    exact h5 j (by have := hle d hd; omega)
  have hcommit : ∀ (log : List Call) (b : Bool), (∀ j, j < 5 → ∃ a ∈ log, a.step.rank = j) →
      (∀ d ∈ log, d.step.rank ≤ 5) →
      NoneSkipped (log ++ [Call.mk Step.next false, Call.mk Step.commit b]) := by
    intro log b h5 hle d hd j hj
    by_cases hj5 : j < 5
    · obtain ⟨a, ha, hr⟩ := h5 j hj5
      exact ⟨a, List.mem_append_left _ ha, hr⟩
    · have hd6 : d.step.rank ≤ 6 := by
        rcases List.mem_append.mp hd with hd | hd
        · have := hle d hd; omega
        · simp only [List.mem_cons, List.mem_singleton, List.not_mem_nil, or_false] at hd
          rcases hd with rfl | rfl <;> simp [Step.rank]
      exact ⟨Call.mk Step.next false, by simp, by show 5 = j; omega⟩
  induction entries with
  | nil =>
    intro published log h5 hle
    unfold publishLoop
    cases ending with
    | hang => exact hbase log h5 hle
    | readError e =>
      apply hbase
      · intro j hj
        obtain ⟨a, ha, hr⟩ := h5 j hj
        exact ⟨a, List.mem_append_left _ ha, hr⟩
      · intro d hd
        rcases List.mem_append.mp hd with hd | hd
        · exact hle d hd
        · rw [List.mem_singleton] at hd; subst hd; simp [Step.rank]
    | EOF =>
      cases hc : env.Commit published with
      | some e => exact hcommit log true h5 hle
      | none => exact hcommit log false h5 hle
  | cons hdr rest ih =>
    intro published log h5 hle
    unfold publishLoop
    have ext : ∀ (extra : List Call), (∀ d ∈ extra, d.step.rank ≤ 5) →
        (∀ j, j < 5 → ∃ a ∈ log ++ extra, a.step.rank = j) ∧
        (∀ d ∈ log ++ extra, d.step.rank ≤ 5) := by
      intro extra hex
      refine ⟨?_, ?_⟩
      · intro j hj
        obtain ⟨a, ha, hr⟩ := h5 j hj
        exact ⟨a, List.mem_append_left _ ha, hr⟩
      · intro d hd
        rcases List.mem_append.mp hd with hd | hd
        · exact hle d hd
        · exact hex d hd
    split
    · cases hpub : env.PublishReleaseTarget published gitTag hdr.Name with
      | some err =>
        obtain ⟨e1, e2⟩ := ext [Call.mk Step.next false,
          Call.mk (Step.publishReleaseTarget gitTag hdr.Name) true] (by
            intro d hd
            simp only [List.mem_cons, List.mem_singleton, List.not_mem_nil, or_false] at hd
            rcases hd with rfl | rfl <;> simp [Step.rank])
        exact hbase _ e1 e2
      | none =>
        obtain ⟨e1, e2⟩ := ext [Call.mk Step.next false,
          Call.mk (Step.publishReleaseTarget gitTag hdr.Name) false] (by
            intro d hd
            simp only [List.mem_cons, List.mem_singleton, List.not_mem_nil, or_false] at hd
            rcases hd with rfl | rfl <;> simp [Step.rank])
        exact ih _ _ e1 e2
    · obtain ⟨e1, e2⟩ := ext [Call.mk Step.next false] (by
        intro d hd
        rw [List.mem_singleton] at hd; subst hd; simp [Step.rank])
      exact ih _ _ e1 e2

theorem ranked_facts (log : List Call) (k : Nat)
    (hk : log.map (fun d => d.step.rank) = List.range k)
    (hok : ∀ d ∈ log, d.failed = false) (hk5 : k ≤ 5) :
    (∀ d ∈ log, d.step.rank < k) ∧
    (∀ j, j < k → ∃ a ∈ log, a.step.rank = j) ∧
    (∀ d ∈ log, d.failed = false ∧ d.step ≠ .commit ∧ d.step.rank ≤ 5) ∧
    log.Pairwise InOrder := by
  have h1 : ∀ d ∈ log, d.step.rank < k := by
    intro d hd
    have : d.step.rank ∈ log.map (fun d => d.step.rank) := List.mem_map_of_mem _ hd
    rw [hk] at this
    exact List.mem_range.mp this
  refine ⟨h1, ?_, ?_, ?_⟩
  · intro j hj
    have : j ∈ log.map (fun d => d.step.rank) := by rw [hk]; exact List.mem_range.mpr hj
    obtain ⟨a, ha, hr⟩ := List.mem_map.mp this
    exact ⟨a, ha, hr⟩
  · intro d hd
    have := h1 d hd
    refine ⟨hok d hd, ?_, by omega⟩
    intro hc
    rw [hc] at this
    simp [Step.rank] at this
    omega
  · have hp : (log.map (fun d => d.step.rank)).Pairwise (fun a b => a < b) := by
      rw [hk]; exact List.pairwise_lt_range k
    rw [List.pairwise_map] at hp
    exact hp.imp (fun h => Or.inl h)

theorem early_failure (log : List Call) (c : Call) (e : Error) (k : Nat)
    (hk : log.map (fun d => d.step.rank) = List.range k)
    (hok : ∀ d ∈ log, d.failed = false) (hc : c.step.rank = k) (hf : c.failed = true)
    (hk5 : k ≤ 5) :
    Sequenced (.returned (some e) (log ++ [c])) ∧
    NoneSkipped (Outcome.returned (some e) (log ++ [c])).state := by
  obtain ⟨h1, h2, h3, h4⟩ := ranked_facts log k hk hok hk5
  refine ⟨⟨?_, Or.inl ⟨log, c, rfl, fun d hd => ⟨(h3 d hd).1, (h3 d hd).2.1⟩,
    Or.inr ⟨e, rfl, hf⟩⟩⟩, ?_⟩
  · show (log ++ [c]).Pairwise InOrder
    rw [List.pairwise_append]
    refine ⟨h4, List.pairwise_singleton _ _, ?_⟩
    intro a ha b hb
    rw [List.mem_singleton] at hb
    subst hb
    exact Or.inl (by rw [hc]; exact h1 a ha)
  · intro d hd j hj
    have hd' : d ∈ log ++ [c] := hd
    have hjk : j < k := by
      rcases List.mem_append.mp hd' with hd' | hd'
      · have := h1 d hd'; omega
      · rw [List.mem_singleton] at hd'; subst hd'; omega
    obtain ⟨a, ha, hr⟩ := h2 j hjk
    exact ⟨a, List.mem_append_left _ ha, hr⟩

theorem releaseTask_sequenced {Repo : Type} (env : Env Repo) (cfg : Configuration)
    (gitTag gitUsername gitPassword : String) :
    Sequenced (releaseTask env cfg gitTag gitUsername gitPassword) ∧
    NoneSkipped (releaseTask env cfg gitTag gitUsername gitPassword).state := by
  unfold releaseTask
  simp only
  split
  · exact early_failure [] _ _ 0 rfl (by simp) rfl rfl (by omega)
  · split
    · exact early_failure _ _ _ 1 rfl (by simp) rfl rfl (by omega)
    · split
      · exact early_failure _ _ _ 2 rfl (by simp) rfl rfl (by omega)
      · split
        · exact early_failure _ _ _ 3 rfl (by simp) rfl rfl (by omega)
        · split
          · exact early_failure _ _ _ 4 rfl (by simp) rfl rfl (by omega)
          · rename_i trdlCfg _ _ tar _
            obtain ⟨h1, h2, h3, h4⟩ := ranked_facts
              ([Call.mk (Step.clone cfg.GitRepoUrl gitTag
                  (cloneGitOptions env gitTag gitUsername gitPassword).Auth) false] ++
                [Call.mk Step.getTrustedPGPPublicKeys false] ++
                [Call.mk (Step.verifyTagSignatures gitTag _
                  cfg.RequiredNumberOfVerifiedSignaturesOnCommit) false] ++
                [Call.mk (Step.getTrdlConfig gitTag) false] ++
                [Call.mk (Step.buildReleaseArtifacts trdlCfg.DockerImage trdlCfg.Commands) false])
              5 rfl (by simp) (by omega)
            exact ⟨publishLoop_sequenced env gitTag _ _ 0 _ h3 h4,
              publishLoop_noneSkipped env gitTag _ _ 0 _ h2 (fun d hd => (h3 d hd).2.2)⟩

theorem sequenced_facts (r : Outcome (Option Error) (List Call)) (h : Sequenced r) :
    (∀ d ∈ r.state.dropLast, d.failed = false) ∧
    ((∃ d ∈ r.state, d.failed = true) ↔ ∃ e, r.result = some (some e)) ∧
    ((∃ d ∈ r.state, d.failed = true ∧ d.step ≠ .commit) → ∀ d ∈ r.state, d.step ≠ .commit) ∧
    ((∃ d ∈ r.state, d.failed = true ∧ d.step.rank = 2) → ∀ d ∈ r.state, d.step.rank ≤ 2) ∧
    (∀ pre d post, r.state = pre ++ d :: post → d.step = .commit → post = []) := by
  obtain ⟨hp, hshape⟩ := h
  rcases hshape with ⟨tr, c, hst, htr, hc⟩ | ⟨hres, hall⟩
  · have hfailed : ∀ d ∈ r.state, d.failed = true → d = c := by
      intro d hd hf
      rw [hst] at hd
      rcases List.mem_append.mp hd with hd | hd
      · rw [(htr d hd).1] at hf; cases hf
      · exact List.mem_singleton.mp hd
    refine ⟨?_, ?_, ?_, ?_, ?_⟩
    · intro d hd
      rw [hst, List.dropLast_concat] at hd
      exact (htr d hd).1
    · constructor
      · rintro ⟨d, hd, hf⟩
        have := hfailed d hd hf
        subst this
        rcases hc with ⟨-, hc⟩ | ⟨e, he, -⟩
        · rw [hc] at hf; cases hf
        · exact ⟨e, he⟩
      · rintro ⟨e, he⟩
        rcases hc with ⟨hn, -⟩ | ⟨_, -, hf⟩
        · rw [hn] at he; cases he
        · exact ⟨c, by rw [hst]; simp, hf⟩
    · rintro ⟨d, hd, hf, hne⟩ a ha
      have := hfailed d hd hf
      subst this
      rw [hst] at ha
      rcases List.mem_append.mp ha with ha | ha
      · exact (htr a ha).2
      · rw [List.mem_singleton.mp ha]; exact hne
    · rintro ⟨d, hd, hf, hr⟩ a ha
      have := hfailed d hd hf
      subst this
      rw [hst] at ha hp
      rcases List.mem_append.mp ha with ha | ha
      · have := (List.pairwise_append.mp hp).2.2 a ha d (List.mem_singleton_self d)
        unfold InOrder at this
        omega
      · rw [List.mem_singleton.mp ha]; omega
    · intro pre d post hpre hd
      rcases List.eq_nil_or_concat post with hpost | ⟨post', x, hpost⟩
      · exact hpost
      · exfalso
        rw [hst, hpost, List.concat_eq_append] at hpre
        have e : pre ++ d :: (post' ++ [x]) = (pre ++ d :: post') ++ [x] := by simp
        rw [e] at hpre
        have := (List.append_inj' hpre rfl).1
        exact (htr d (by rw [this]; simp)).2 hd
  · refine ⟨?_, ?_, ?_, ?_, ?_⟩
    · intro d hd
      exact (hall d (List.mem_of_mem_dropLast hd)).1
    · constructor
      · rintro ⟨d, hd, hf⟩
        rw [(hall d hd).1] at hf; cases hf
      · rintro ⟨e, he⟩
        rw [hres] at he; cases he
    · rintro ⟨d, hd, hf, -⟩
      rw [(hall d hd).1] at hf; cases hf
    · rintro ⟨d, hd, hf, -⟩
      rw [(hall d hd).1] at hf; cases hf
    · intro pre d post hpre hd
      exact absurd hd (hall d (by rw [hpre]; simp)).2

/-- C4: in the release task closure the steps run in the order clone, load
keys, verify tag signatures, read and validate trdl.yaml, build, read and
publish the tar entries, commit, none of them skipped; every call but the
last one made returned no error; some call failed if and only if the closure
returns a non-nil error; when a call other than the commit fails, Commit is
never invoked, and when the signature verification fails nothing after it is
invoked (no build, no publish, no commit); Commit is invoked at most once and
nothing is invoked after it. -/
theorem releaseTask_steps_in_order {Repo : Type} (env : Env Repo) (cfg : Configuration)
    (gitTag gitUsername gitPassword : String) :
    (releaseTask env cfg gitTag gitUsername gitPassword).state.Pairwise InOrder ∧
    NoneSkipped (releaseTask env cfg gitTag gitUsername gitPassword).state ∧
    (∀ d ∈ (releaseTask env cfg gitTag gitUsername gitPassword).state.dropLast,
      d.failed = false) ∧
    ((∃ d ∈ (releaseTask env cfg gitTag gitUsername gitPassword).state, d.failed = true) ↔
      ∃ e, (releaseTask env cfg gitTag gitUsername gitPassword).result = some (some e)) ∧
    ((∃ d ∈ (releaseTask env cfg gitTag gitUsername gitPassword).state,
        d.failed = true ∧ d.step ≠ .commit) →
      ∀ d ∈ (releaseTask env cfg gitTag gitUsername gitPassword).state, d.step ≠ .commit) ∧
    ((∃ d ∈ (releaseTask env cfg gitTag gitUsername gitPassword).state,
        d.failed = true ∧ d.step.rank = 2) →
      ∀ d ∈ (releaseTask env cfg gitTag gitUsername gitPassword).state, d.step.rank ≤ 2) ∧
    (∀ pre d post, (releaseTask env cfg gitTag gitUsername gitPassword).state = pre ++ d :: post →
      d.step = .commit → post = []) := by
  obtain ⟨h1, h2⟩ := releaseTask_sequenced env cfg gitTag gitUsername gitPassword
  exact ⟨h1.1, h2, sequenced_facts _ h1⟩

/-- C4 on two runs: with every step succeeding the calls are clone, keys,
verify, trdl.yaml, build, then a read for the directory entry, a read and a
publish for each of the two files, the read that meets the end of the
stream, and the commit; with a failing signature verification the run stops
there with an error and nothing after the verification is invoked. -/
theorem releaseTask_steps_in_order_witness :
    (releaseTask (sampleEnv none) sampleConfiguration "v1.0.0" "" "").result = some none ∧
    (releaseTask (sampleEnv none) sampleConfiguration "v1.0.0" "" "").state.map
        (fun d => (d.step.rank, d.failed))
      = [(0, false), (1, false), (2, false), (3, false), (4, false), (5, false),
         (5, false), (5, false), (5, false), (5, false), (5, false), (6, false)] ∧
    (releaseTask (sampleEnv (some "not enough")) sampleConfiguration "v1.0.0" "" "").state.map
        (fun d => (d.step.rank, d.failed))
      = [(0, false), (1, false), (2, true)] ∧
    (∀ d ∈ (releaseTask (sampleEnv (some "not enough")) sampleConfiguration "v1.0.0" "" "").state,
      d.step.rank ≤ 2) :=
  ⟨by decide, by decide, by decide,
    (releaseTask_steps_in_order (sampleEnv (some "not enough")) sampleConfiguration
      "v1.0.0" "" "").2.2.2.2.2.1
      ⟨⟨.verifyTagSignatures "v1.0.0" ["developer"] 1, true⟩, by decide, rfl, rfl⟩⟩

end Trdl.Release

/-! # Theorems: release pipeline, published targets and credential -/

namespace Trdl.Release

open TasksManager (Error Outcome)

theorem publishCalls_append (a b : List Call) :
    publishCalls (a ++ b) = publishCalls a ++ publishCalls b := by
  unfold publishCalls
  rw [List.filterMap_append]

theorem publishLoop_publishCalls {Repo : Type} (env : Env Repo) (gitTag : String)
    (ending : StreamEnd) (entries : List Header) :
    ∀ (published : Nat) (log : List Call),
      ∃ k, k ≤ (entries.filter (fun h => decide (h.Typeflag ≠ TypeDir))).length ∧
        publishCalls (publishLoop env gitTag ending entries published log).state
          = publishCalls log ++
            ((entries.filter (fun h => decide (h.Typeflag ≠ TypeDir))).take k).map
              (fun h => (gitTag, h.Name)) ∧
        ((∃ c ∈ (publishLoop env gitTag ending entries published log).state, c.step = .commit) →
          (∃ c ∈ log, c.step = .commit) ∨
            k = (entries.filter (fun h => decide (h.Typeflag ≠ TypeDir))).length) ∧
        (ending = .EOF → (∀ i n, env.PublishReleaseTarget i gitTag n = none) →
          ∃ c ∈ (publishLoop env gitTag ending entries published log).state,
            c.step = .commit) := by
  induction entries with
  | nil =>
    intro published log
    refine ⟨0, Nat.le_refl _, ?_, fun _ => Or.inr rfl, ?_⟩
    · unfold publishLoop
      cases ending with
      | hang => simp [Outcome.state]
      | readError e =>
        simp only [Outcome.state, publishCalls_append]
        simp [publishCalls]
      | EOF =>
        cases hc : env.Commit published <;>
          simp only [Outcome.state, publishCalls_append] <;> simp [publishCalls]
    · intro he _
      subst he
      unfold publishLoop
      cases hc : env.Commit published
      · exact ⟨Call.mk Step.commit false, by simp [Outcome.state], rfl⟩
      · exact ⟨Call.mk Step.commit true, by simp [Outcome.state], rfl⟩
  | cons hdr rest ih =>
    intro published log
    by_cases hd : hdr.Typeflag ≠ TypeDir
    · have hf : (hdr :: rest).filter (fun h => decide (h.Typeflag ≠ TypeDir))
          = hdr :: rest.filter (fun h => decide (h.Typeflag ≠ TypeDir)) := by
        rw [List.filter_cons_of_pos]; simpa using hd
      rw [hf]
      cases hp : env.PublishReleaseTarget published gitTag hdr.Name with
      | some e =>
        have hrun : publishLoop env gitTag ending (hdr :: rest) published log
            = .returned (some (.wrap "unable to publish release target %q: %s" (.external e)))
                (log ++ [Call.mk Step.next false,
                  Call.mk (Step.publishReleaseTarget gitTag hdr.Name) true]) := by
          rw [publishLoop, if_pos hd, hp]
        rw [hrun]
        refine ⟨1, by simp, ?_, ?_, ?_⟩
        · simp only [Outcome.state, publishCalls_append]
          simp [publishCalls]
        · rintro ⟨c, hc, hcs⟩
          simp only [Outcome.state, List.mem_append, List.mem_cons, List.mem_singleton,
            List.not_mem_nil, or_false] at hc
          rcases hc with hc | hc | hc
          · exact Or.inl ⟨c, hc, hcs⟩
          · subst hc; cases hcs
          · subst hc; cases hcs
        · intro _ hall
          rw [hall] at hp
          cases hp
      | none =>
        have hrun : publishLoop env gitTag ending (hdr :: rest) published log
            = publishLoop env gitTag ending rest (published + 1)
                (log ++ [Call.mk Step.next false,
                  Call.mk (Step.publishReleaseTarget gitTag hdr.Name) false]) := by
          rw [publishLoop, if_pos hd, hp]
        rw [hrun]
        obtain ⟨k, hk, hcalls, hcommit, hend⟩ := ih (published + 1)
          (log ++ [Call.mk Step.next false,
            Call.mk (Step.publishReleaseTarget gitTag hdr.Name) false])
        refine ⟨k + 1, by simpa using hk, ?_, ?_, hend⟩
        · rw [hcalls, publishCalls_append]
          simp [publishCalls]
        · intro h
          rcases hcommit h with ⟨c, hc, hcs⟩ | hk'
          · simp only [List.mem_append, List.mem_cons, List.mem_singleton,
              List.not_mem_nil, or_false] at hc
            rcases hc with hc | hc | hc
            · exact Or.inl ⟨c, hc, hcs⟩
            · subst hc; cases hcs
            · subst hc; cases hcs
          · exact Or.inr (by simp [hk'])
    · have hf : (hdr :: rest).filter (fun h => decide (h.Typeflag ≠ TypeDir))
          = rest.filter (fun h => decide (h.Typeflag ≠ TypeDir)) := by
        rw [List.filter_cons_of_neg]; simpa using hd
      rw [hf]
      have hrun : publishLoop env gitTag ending (hdr :: rest) published log
          = publishLoop env gitTag ending rest published (log ++ [Call.mk Step.next false]) := by
        rw [publishLoop, if_neg hd]
      rw [hrun]
      obtain ⟨k, hk, hcalls, hcommit, hend⟩ := ih published (log ++ [Call.mk Step.next false])
      refine ⟨k, hk, ?_, ?_, hend⟩
      · rw [hcalls, publishCalls_append]
        simp [publishCalls]
      · intro h
        rcases hcommit h with ⟨c, hc, hcs⟩ | hk'
        · simp only [List.mem_append, List.mem_singleton] at hc
          rcases hc with hc | hc
          · exact Or.inl ⟨c, hc, hcs⟩
          · subst hc; cases hcs
        · exact Or.inr hk'

/-- C14: in a run of the release task that gets as far as the artifact tar
stream, the `PublishReleaseTarget` calls are made for the entries of the
stream whose type is not directory, in stream order and from the first on,
each with the requested git tag as release and the name of the entry as name;
so no directory entry is published.  When the stream is read to its end (the
run reaches the commit) the calls are exactly all of those entries; and the
stream is read to its end whenever it ends without a read error and no
publication fails. -/
theorem releaseTask_publishes_non_directory_entries {Repo : Type} (env : Env Repo)
    (cfg : Configuration) (gitTag gitUsername gitPassword : String) (gitRepo : Repo)
    (trustedPGPPublicKeys : List String) (trdlCfg : Trdl) (tar : TarStream)
    (hclone : cloneGitRepositoryTag env cfg.GitRepoUrl gitTag gitUsername gitPassword
      = .ok gitRepo)
    (hkeys : env.GetTrustedPGPPublicKeys = .ok trustedPGPPublicKeys)
    (hverify : env.VerifyTagSignatures gitRepo gitTag trustedPGPPublicKeys
      cfg.RequiredNumberOfVerifiedSignaturesOnCommit = none)
    (hcfg : getTrdlConfig env gitRepo gitTag = .ok trdlCfg)
    (hbuild : buildReleaseArtifacts env gitRepo trdlCfg.DockerImage trdlCfg.Commands
      = .ok tar) :
    (∃ k, publishCalls (releaseTask env cfg gitTag gitUsername gitPassword).state
        = ((tar.entries.filter (fun h => decide (h.Typeflag ≠ TypeDir))).take k).map
            (fun h => (gitTag, h.Name))) ∧
    ((∃ c ∈ (releaseTask env cfg gitTag gitUsername gitPassword).state, c.step = .commit) →
      publishCalls (releaseTask env cfg gitTag gitUsername gitPassword).state
        = (tar.entries.filter (fun h => decide (h.Typeflag ≠ TypeDir))).map
            (fun h => (gitTag, h.Name))) ∧
    (tar.ending = .EOF → (∀ i n, env.PublishReleaseTarget i gitTag n = none) →
      ∃ c ∈ (releaseTask env cfg gitTag gitUsername gitPassword).state, c.step = .commit) ∧
    (∀ h ∈ tar.entries, h.Typeflag = TypeDir →
      (∀ g ∈ tar.entries, g.Typeflag ≠ TypeDir → g.Name ≠ h.Name) →
      (gitTag, h.Name) ∉ publishCalls (releaseTask env cfg gitTag gitUsername gitPassword).state)
    := by
  have hrun : releaseTask env cfg gitTag gitUsername gitPassword
      = publishLoop env gitTag tar.ending tar.entries 0
          ([Call.mk (Step.clone cfg.GitRepoUrl gitTag
              (cloneGitOptions env gitTag gitUsername gitPassword).Auth) false] ++
            [Call.mk Step.getTrustedPGPPublicKeys false] ++
            [Call.mk (Step.verifyTagSignatures gitTag trustedPGPPublicKeys
              cfg.RequiredNumberOfVerifiedSignaturesOnCommit) false] ++
            [Call.mk (Step.getTrdlConfig gitTag) false] ++
            [Call.mk (Step.buildReleaseArtifacts trdlCfg.DockerImage trdlCfg.Commands)
              false]) := by
    unfold releaseTask
    simp only [hclone, hkeys, hverify, hcfg, hbuild]
  obtain ⟨k, hk, hcalls, hcommit, hend⟩ := publishLoop_publishCalls env gitTag tar.ending
    tar.entries 0
    ([Call.mk (Step.clone cfg.GitRepoUrl gitTag
        (cloneGitOptions env gitTag gitUsername gitPassword).Auth) false] ++
      [Call.mk Step.getTrustedPGPPublicKeys false] ++
      [Call.mk (Step.verifyTagSignatures gitTag trustedPGPPublicKeys
        cfg.RequiredNumberOfVerifiedSignaturesOnCommit) false] ++
      [Call.mk (Step.getTrdlConfig gitTag) false] ++
      [Call.mk (Step.buildReleaseArtifacts trdlCfg.DockerImage trdlCfg.Commands) false])
  rw [← hrun] at hcalls hcommit hend
  have hnil : publishCalls
      ([Call.mk (Step.clone cfg.GitRepoUrl gitTag
          (cloneGitOptions env gitTag gitUsername gitPassword).Auth) false] ++
        [Call.mk Step.getTrustedPGPPublicKeys false] ++
        [Call.mk (Step.verifyTagSignatures gitTag trustedPGPPublicKeys
          cfg.RequiredNumberOfVerifiedSignaturesOnCommit) false] ++
        [Call.mk (Step.getTrdlConfig gitTag) false] ++
        [Call.mk (Step.buildReleaseArtifacts trdlCfg.DockerImage trdlCfg.Commands) false])
      = [] := by
    simp [publishCalls]
  rw [hnil, List.nil_append] at hcalls
  refine ⟨⟨k, hcalls⟩, ?_, hend, ?_⟩
  · intro h
    rcases hcommit h with ⟨c, hc, hcs⟩ | hk'
    · simp only [List.mem_append, List.mem_singleton] at hc
      rcases hc with (((hc | hc) | hc) | hc) | hc <;> (subst hc; cases hcs)
    · rw [hcalls, hk', List.take_length]
  · intro h _ hdir hnames hmem
    rw [hcalls] at hmem
    obtain ⟨g, hg, hgn⟩ := List.mem_map.mp hmem
    have hg' := List.mem_filter.mp (List.mem_of_mem_take hg)
    have hne : g.Typeflag ≠ TypeDir := by simpa using hg'.2
    exact hnames g hg'.1 hne (by simpa using congrArg Prod.snd hgn)

/-- C14 on the sample run: the stream holds the directory `any-any` and the
files `any-any/README` and `any-any/bin/tool`; the two files are published
under the tag, in this order, and the directory is not. -/
theorem releaseTask_publishes_non_directory_entries_witness :
    publishCalls (releaseTask (sampleEnv none) sampleConfiguration "v1.0.0" "" "").state
      = [("v1.0.0", "any-any/README"), ("v1.0.0", "any-any/bin/tool")] :=
  ((releaseTask_publishes_non_directory_entries (sampleEnv none) sampleConfiguration
      "v1.0.0" "" "" () ["developer"] { DockerImage := "alpine:3", Commands := ["make"] }
      { entries := [⟨TypeDir, "any-any"⟩, ⟨'0', "any-any/README"⟩, ⟨'0', "any-any/bin/tool"⟩],
        ending := .EOF }
      rfl rfl rfl rfl rfl).2.1
    ⟨Call.mk Step.commit false, by decide, rfl⟩).trans (by decide)

theorem publishLoop_state_append {Repo : Type} (env : Env Repo) (gitTag : String)
    (ending : StreamEnd) (entries : List Header) :
    ∀ (published : Nat) (log : List Call),
      ∃ rest, (publishLoop env gitTag ending entries published log).state = log ++ rest := by
  induction entries with
  | nil =>
    intro published log
    unfold publishLoop
    cases ending with
    | hang => exact ⟨[], by simp [Outcome.state]⟩
    | readError e => exact ⟨_, rfl⟩
    | EOF => cases hc : env.Commit published <;> exact ⟨_, rfl⟩
  | cons hdr rest ih =>
    intro published log
    rw [publishLoop]
    split
    · split
      · exact ⟨_, rfl⟩
      · obtain ⟨r, hr⟩ := ih (published + 1)
          (log ++ [Call.mk Step.next false,
            Call.mk (Step.publishReleaseTarget gitTag hdr.Name) false])
        exact ⟨_, by rw [hr, List.append_assoc]⟩
    · obtain ⟨r, hr⟩ := ih published (log ++ [Call.mk Step.next false])
      exact ⟨_, by rw [hr, List.append_assoc]⟩

theorem releaseTask_first_call {Repo : Type} (env : Env Repo) (cfg : Configuration)
    (gitTag gitUsername gitPassword : String) :
    ∃ failed, (releaseTask env cfg gitTag gitUsername gitPassword).state.head?
      = some (Call.mk (Step.clone cfg.GitRepoUrl gitTag
          (cloneGitOptions env gitTag gitUsername gitPassword).Auth) failed) := by
  unfold releaseTask
  simp only
  split
  · exact ⟨true, rfl⟩
  · split
    · exact ⟨false, rfl⟩
    · split
      · exact ⟨false, rfl⟩
      · split
        · exact ⟨false, rfl⟩
        · split
          · exact ⟨false, rfl⟩
          · rename_i trdlCfg _ _ tar _
            obtain ⟨r, hr⟩ := publishLoop_state_append env gitTag tar.ending tar.entries 0
              ([Call.mk (Step.clone cfg.GitRepoUrl gitTag
                  (cloneGitOptions env gitTag gitUsername gitPassword).Auth) false] ++
                [Call.mk Step.getTrustedPGPPublicKeys false] ++
                [Call.mk (Step.verifyTagSignatures gitTag _
                  cfg.RequiredNumberOfVerifiedSignaturesOnCommit) false] ++
                [Call.mk (Step.getTrdlConfig gitTag) false] ++
                [Call.mk (Step.buildReleaseArtifacts trdlCfg.DockerImage trdlCfg.Commands)
                  false])
            exact ⟨false, by rw [hr]; rfl⟩

theorem RunTask_queued_task {α : Type} (w w1 : TasksManager.World α) (sid : Nat) (f : α)
    (id : String)
    (h : TasksManager.RunTask w sid f = .returned (id, none) w1) :
    ∃ timeout, w1.m.taskChan = w.m.taskChan ++ [{ UUID := id, Action := (f, timeout) }] := by
  have hchan : (TasksManager.doTaskWrap.init w sid).2.m.taskChan = w.m.taskChan := by
    unfold TasksManager.doTaskWrap.init
    split
    · simp only
      split <;> rfl
    · rfl
  unfold TasksManager.RunTask TasksManager.doTaskWrap at h
  split at h
  · simp at h
  · rename_i w0 hinit
    rw [hinit] at hchan
    simp only at hchan
    split at h
    · simp at h
    · rename_i config _
      simp only at h
      split at h
      · simp at h
      · split at h
        · simp at h
        · unfold TasksManager.queueTask at h
          split at h
          · simp at h
          · rename_i storage _
            simp only [TasksManager.addNewTaskToStorage] at h
            cases hadd : (w0.stores storage).addFault with
            | some e =>
              rw [hadd] at h
              simp at h
            | none =>
              rw [hadd] at h
              simp only at h
              split at h
              · simp only [TasksManager.Outcome.returned.injEq, Prod.mk.injEq, and_true] at h
                obtain ⟨hid, hw⟩ := h
                refine ⟨TasksManager.taskTimeoutDuration config w0.defaultTaskTimeoutDuration, ?_⟩
                rw [← hw, ← hid, ← hchan]
                rfl
              · simp at h

/-- C15, the claim refuted: with the credential `robot` stored, a request that
sets `git_username` and leaves `git_password` out is accepted, and the task it
queues captures `alice` and the empty password; run, the task clones without
basic auth, not with the stored credential.  The same request without a user
name clones with the stored credential. -/
theorem clone_ignores_stored_credential_on_partial_request :
    (pathRelease (sampleBackend (some sampleCredential)) sampleManagerWorld
        (sampleRequest [("git_tag", "v1.0.0"), ("git_username", "alice")])).result
      = some (some (.Data "u"), none) ∧
    (pathRelease (sampleBackend (some sampleCredential)) sampleManagerWorld
        (sampleRequest [("git_tag", "v1.0.0"), ("git_username", "alice")])).state.m.taskChan.map
        (fun t => (t.UUID, t.Action.1.gitTag, t.Action.1.gitUsername, t.Action.1.gitPassword))
      = [("u", "v1.0.0", "alice", "")] ∧
    (pathRelease (sampleBackend (some sampleCredential)) sampleManagerWorld
        (sampleRequest [("git_tag", "v1.0.0"), ("git_username", "alice")])).state.m.taskChan.map
        (fun t => (t.Action.1.run (sampleEnv none)).state.head?)
      = [some (Call.mk (Step.clone "https://git.example/project" "v1.0.0" none) false)] ∧
    (pathRelease (sampleBackend (some sampleCredential)) sampleManagerWorld
        (sampleRequest [("git_tag", "v1.0.0")])).state.m.taskChan.map
        (fun t => (t.Action.1.run (sampleEnv none)).state.head?)
      = [some (Call.mk (Step.clone "https://git.example/project" "v1.0.0"
          (some { Username := "robot", Password := "stored-secret" })) false)] :=
  ⟨by decide, by decide, by decide, by decide⟩

/-- C15, amended: when `pathRelease` accepts a request and returns a task
identifier, the task it has put on the queue carries that identifier and the
requested tag, and its first call is the clone of the configured repository
at that tag, with basic auth as follows: the request user name and password
when both are non-empty; the stored credential when both request fields are
empty, one is stored, and both its fields are non-empty; and no basic auth in
every other case, a request that sets only one of the two fields among
them. -/
theorem pathRelease_clone_credential {Repo : Type} (env : Env Repo) (b : Backend)
    (w w1 : TasksManager.World ReleaseClosure) (req : Request) (cfg : Configuration)
    (stored : Option GitCredential) (taskUUID : String)
    (hcfg : b.getConfiguration req.Storage = .ok (some cfg))
    (hcred : b.getGitCredential req.Storage = .ok stored)
    (hret : pathRelease b w req = .returned (some (.Data taskUUID), none) w1) :
    ∃ t failed, w1.m.taskChan = w.m.taskChan ++ [t] ∧ t.UUID = taskUUID ∧
      (t.Action.1.run env).state.head?
        = some (Call.mk (Step.clone cfg.GitRepoUrl (req.Get fieldNameGitTag)
            (if req.Get fieldNameGitUsername ≠ "" ∧ req.Get fieldNameGitPassword ≠ "" then
              some { Username := req.Get fieldNameGitUsername,
                     Password := req.Get fieldNameGitPassword }
            else if req.Get fieldNameGitUsername = "" ∧ req.Get fieldNameGitPassword = "" then
              match stored with
              | some cred =>
                if cred.Username ≠ "" ∧ cred.Password ≠ "" then
                  some { Username := cred.Username, Password := cred.Password }
                else none
              | none => none
            else none)) failed) := by
  have hauth : ∀ gitTag : String,
      (cloneGitOptions env gitTag
        (requestCredential stored (req.Get fieldNameGitUsername)
          (req.Get fieldNameGitPassword)).1
        (requestCredential stored (req.Get fieldNameGitUsername)
          (req.Get fieldNameGitPassword)).2).Auth
      = (if req.Get fieldNameGitUsername ≠ "" ∧ req.Get fieldNameGitPassword ≠ "" then
            some { Username := req.Get fieldNameGitUsername,
                   Password := req.Get fieldNameGitPassword }
          else if req.Get fieldNameGitUsername = "" ∧ req.Get fieldNameGitPassword = "" then
            match stored with
            | some cred =>
              if cred.Username ≠ "" ∧ cred.Password ≠ "" then
                some { Username := cred.Username, Password := cred.Password }
              else none
            | none => none
          else none) := by
    intro gitTag
    unfold cloneGitOptions requestCredential
    cases stored with
    | none =>
      simp only
      by_cases h1 : req.Get fieldNameGitUsername ≠ "" ∧ req.Get fieldNameGitPassword ≠ ""
      · rw [if_pos h1, if_pos h1]
      · rw [if_neg h1, if_neg h1]
        split <;> rfl
    | some cred =>
      simp only
      by_cases h0 : req.Get fieldNameGitUsername = "" ∧ req.Get fieldNameGitPassword = ""
      · have h1 : ¬ (req.Get fieldNameGitUsername ≠ "" ∧ req.Get fieldNameGitPassword ≠ "") :=
          fun h => h.1 h0.1
        rw [if_pos h0, if_neg h1, if_pos h0]
      · rw [if_neg h0]
        by_cases h1 : req.Get fieldNameGitUsername ≠ "" ∧ req.Get fieldNameGitPassword ≠ ""
        · rw [if_pos h1, if_pos h1]
        · rw [if_neg h1, if_neg h1, if_neg h0]
  unfold pathRelease at hret
  split at hret
  · simp at hret
  · rw [hcfg, hcred] at hret
    simp only at hret
    split at hret
    · simp at hret
    · split at hret
      · split at hret <;> simp at hret
      · rename_i id w2 hrun
        simp only [Outcome.returned.injEq, Prod.mk.injEq, Option.some.injEq,
          Response.Data.injEq, and_true] at hret
        obtain ⟨hid, hw⟩ := hret
        subst hid hw
        obtain ⟨timeout, hchan⟩ := RunTask_queued_task _ _ _ _ _ hrun
        obtain ⟨failed, hhead⟩ := releaseTask_first_call env cfg (req.Get fieldNameGitTag)
          (requestCredential stored (req.Get fieldNameGitUsername)
            (req.Get fieldNameGitPassword)).1
          (requestCredential stored (req.Get fieldNameGitUsername)
            (req.Get fieldNameGitPassword)).2
        rw [hauth] at hhead
        exact ⟨_, failed, hchan, rfl, hhead⟩
      · simp at hret
      · simp at hret

/-- C15 amended, on two requests with the credential `robot` stored: the one
that sets both fields clones with its own credential, the one that sets only
the user name clones without basic auth. -/
theorem pathRelease_clone_credential_witness :
    (∃ t failed,
      (pathRelease (sampleBackend (some sampleCredential)) sampleManagerWorld
        (sampleRequest [("git_tag", "v1.0.0"), ("git_username", "alice"),
          ("git_password", "secret")])).state.m.taskChan = [] ++ [t] ∧ t.UUID = "u" ∧
      (t.Action.1.run (sampleEnv none)).state.head?
        = some (Call.mk (Step.clone "https://git.example/project" "v1.0.0"
            (some { Username := "alice", Password := "secret" })) failed)) ∧
    (∃ t failed,
      (pathRelease (sampleBackend (some sampleCredential)) sampleManagerWorld
        (sampleRequest [("git_tag", "v1.0.0"), ("git_username", "alice")])).state.m.taskChan
          = [] ++ [t] ∧ t.UUID = "u" ∧
      (t.Action.1.run (sampleEnv none)).state.head?
        = some (Call.mk (Step.clone "https://git.example/project" "v1.0.0" none) failed)) :=
  ⟨pathRelease_clone_credential (sampleEnv none) (sampleBackend (some sampleCredential))
      sampleManagerWorld _
      (sampleRequest [("git_tag", "v1.0.0"), ("git_username", "alice"),
        ("git_password", "secret")])
      sampleConfiguration (some sampleCredential) "u" rfl rfl rfl,
   pathRelease_clone_credential (sampleEnv none) (sampleBackend (some sampleCredential))
      sampleManagerWorld _
      (sampleRequest [("git_tag", "v1.0.0"), ("git_username", "alice")])
      sampleConfiguration (some sampleCredential) "u" rfl rfl rfl⟩

/-! ## The pipes behind the image build -/

/-- C20: when `ReadTarFromImageBuildResponse` returns an error, or the base64
decoder fails (on corrupt text, or on text that stops inside a quantum), the
copy of the second goroutine fails with an error, that goroutine closes
`tarWriter` with this error, no other close call is made on `tarWriter`, and
the read of the consumer after the delivered bytes returns this error: it
neither blocks nor reports the end of the stream. -/
theorem handleFromImageBuildResponse_propagates_failure (decode : Bytes → Decoded)
    (response : ImageBuildResponse)
    (hfail : response.err ≠ none ∨ (decode response.written).ending ≠ .complete) :
    ∃ e, copyResult (decode response.written) response.err = some e ∧
      (handleFromImageBuildResponse decode response).closes.filter
          (fun c => decide (c.writer = .tarWriter))
        = [CloseCall.mk .tarWriter .decoder (some e)] ∧
      writerState (handleFromImageBuildResponse decode response).closes .tarWriter
        = .closed (some e) ∧
      consumerRead (handleFromImageBuildResponse decode response) = .error e := by
  have hcopy : ∃ e, copyResult (decode response.written) response.err = some e := by
    unfold copyResult
    cases hd : (decode response.written).ending with
    | corrupt msg drained => exact ⟨_, rfl⟩
    | truncated =>
      cases he : response.err with
      | none => exact ⟨_, rfl⟩
      | some e => exact ⟨_, rfl⟩
    | complete =>
      cases he : response.err with
      | none =>
        rcases hfail with h | h
        · exact absurd he h
        · exact absurd hd h
      | some e => exact ⟨_, rfl⟩
  obtain ⟨e, he⟩ := hcopy
  have hcloses : (handleFromImageBuildResponse decode response).closes.filter
      (fun c => decide (c.writer = .tarWriter))
        = [CloseCall.mk .tarWriter .decoder (some e)] := by
    unfold handleFromImageBuildResponse
    simp only [he]
    rw [List.filter_append]
    split <;> simp [List.filter]
  have hstate : writerState (handleFromImageBuildResponse decode response).closes .tarWriter
      = .closed (some e) := by
    unfold writerState
    have hfind : (handleFromImageBuildResponse decode response).closes.find?
        (fun c => decide (c.writer = .tarWriter))
          = some (CloseCall.mk .tarWriter .decoder (some e)) := by
      unfold handleFromImageBuildResponse
      simp only [he]
      split <;> simp [List.find?]
    rw [hfind]
  refine ⟨e, he, hcloses, hstate, ?_⟩
  unfold consumerRead
  rw [hstate]

/-- C20 on three responses, the decoder of the sample being the identity on
complete text: a failing read of the response, corrupt text met while the
first goroutine still writes, and text that stops inside a quantum. -/
theorem handleFromImageBuildResponse_propagates_failure_witness :
    (∃ e, copyResult (sampleDecode ['Y', 'Q', '=', '='])
          (some "unexpected error from daemon") = some e ∧
      (handleFromImageBuildResponse sampleDecode
          ⟨['Y', 'Q', '=', '='], some "unexpected error from daemon"⟩).closes.filter
          (fun c => decide (c.writer = .tarWriter))
        = [CloseCall.mk .tarWriter .decoder (some e)] ∧
      writerState (handleFromImageBuildResponse sampleDecode
          ⟨['Y', 'Q', '=', '='], some "unexpected error from daemon"⟩).closes .tarWriter
        = .closed (some e) ∧
      consumerRead (handleFromImageBuildResponse sampleDecode
          ⟨['Y', 'Q', '=', '='], some "unexpected error from daemon"⟩) = .error e) ∧
    consumerRead (handleFromImageBuildResponse sampleDecode
        ⟨['Y', 'Q', '=', '='], some "unexpected error from daemon"⟩)
      = .error (.external "unexpected error from daemon") ∧
    consumerRead (handleFromImageBuildResponse sampleDecode ⟨['Y', '!', 'Q', '='], none⟩)
      = .error (.external "illegal base64 data") ∧
    consumerRead (handleFromImageBuildResponse sampleDecode ⟨['Y', 'Q'], none⟩)
      = .error (.external "unexpected EOF") :=
  ⟨handleFromImageBuildResponse_propagates_failure sampleDecode
      ⟨['Y', 'Q', '=', '='], some "unexpected error from daemon"⟩ (Or.inl (by decide)),
    by decide, by decide, by decide⟩

end Trdl.Release

/-! # Theorems: release pipeline, the close calls on the pipes -/

namespace Trdl.Release

open TasksManager (Error Outcome)

/-- C22, the code on error-free completion: when the read of the response
returns no error and the base64 text is complete, the close calls are two,
both on the intermediate writer `w`, the first by the producer goroutine and
the second by the decoder goroutine; `tarWriter` is never closed, and the
read of the consumer after the delivered bytes blocks instead of reporting
the end of the stream.  On a failing read of the response each writer is
closed once: `w` by the producer and `tarWriter` by the decoder, both with
the error. -/
theorem decoder_closes_intermediate_writer_on_success :
    (∀ (decode : Bytes → Decoded) (response : ImageBuildResponse),
      response.err = none → (decode response.written).ending = .complete →
      (handleFromImageBuildResponse decode response).closes
          = [CloseCall.mk .w .producer none, CloseCall.mk .w .decoder none] ∧
        writerState (handleFromImageBuildResponse decode response).closes .tarWriter
          = .opened ∧
        consumerRead (handleFromImageBuildResponse decode response) = .blocks) ∧
    (sampleDecode ['Y', 'Q', '=', '=']).ending = .complete ∧
    (handleFromImageBuildResponse sampleDecode ⟨['Y', 'Q', '=', '='], none⟩).closes
      = [CloseCall.mk .w .producer none, CloseCall.mk .w .decoder none] ∧
    ((handleFromImageBuildResponse sampleDecode ⟨['Y', 'Q', '=', '='], none⟩).closes.filter
      (fun c => decide (c.writer = .w))).length = 2 ∧
    ((handleFromImageBuildResponse sampleDecode ⟨['Y', 'Q', '=', '='], none⟩).closes.filter
      (fun c => decide (c.writer = .tarWriter))).length = 0 ∧
    consumerRead (handleFromImageBuildResponse sampleDecode ⟨['Y', 'Q', '=', '='], none⟩)
      = .blocks ∧
    (handleFromImageBuildResponse sampleDecode
        ⟨['Y', 'Q', '=', '='], some "unexpected error from daemon"⟩).closes
      = [CloseCall.mk .w .producer (some (.external "unexpected error from daemon")),
         CloseCall.mk .tarWriter .decoder (some (.external "unexpected error from daemon"))] := by
  refine ⟨?_, by decide, by decide, by decide, by decide, by decide, by decide⟩
  intro decode response herr hend
  have hcloses : (handleFromImageBuildResponse decode response).closes
      = [CloseCall.mk .w .producer none, CloseCall.mk .w .decoder none] := by
    unfold handleFromImageBuildResponse
    simp only [copyResult, hend, herr, Option.map_none']
    rfl
  refine ⟨hcloses, ?_, ?_⟩
  · rw [hcloses]; rfl
  · unfold consumerRead
    rw [hcloses]; rfl

end Trdl.Release

/-! # Theorems: signature verifier -/

namespace Trdl.Signatures

theorem verifiedFingerprints_length (trusted : List String) (sigs : List Signature) :
    (verifiedFingerprints trusted sigs).length = distinctSigners trusted sigs := by
  unfold verifiedFingerprints distinctSigners
  rw [← List.card_toFinset]
  congr 1
  ext f
  simp only [List.mem_toFinset, List.mem_flatMap, List.mem_filter, Bool.and_eq_true,
    decide_eq_true_eq, Finset.mem_filter]
  constructor
  · rintro ⟨s, hs, hf, hv, he⟩
    exact ⟨hf, s, hs, hv, he⟩
  · rintro ⟨hf, s, hs, hv, he⟩
    exact ⟨s, hs, hf, hv, he⟩

theorem verifySignatures_eq (trusted : List String) (sigs : List Signature) (required : Int) :
    verifySignatures trusted sigs required =
      if (distinctSigners trusted sigs : Int) ≥ required then .ok ()
      else .error (.NotEnoughVerifiedPGPSignatures (required - distinctSigners trusted sigs)) := by
  unfold verifySignatures
  simp only [verifiedFingerprints_length]

theorem distinctSigners_untrusted (trusted : List String) (sigs : List Signature)
    (s : Signature) (h : s.signer ∉ trusted) :
    distinctSigners trusted (sigs ++ [s]) = distinctSigners trusted sigs := by
  unfold distinctSigners
  congr 1
  ext f
  simp only [Finset.mem_filter, List.mem_toFinset, List.mem_append, List.mem_singleton]
  constructor
  · rintro ⟨hf, t, ht | ht, hv, he⟩
    · exact ⟨hf, t, ht, hv, he⟩
    · subst ht; subst he; exact absurd hf h
  · rintro ⟨hf, t, ht, hv, he⟩
    exact ⟨hf, t, Or.inl ht, hv, he⟩

theorem distinctSigners_one_signer (trusted : List String) (k : String) (m : Nat)
    (hk : k ∈ trusted) :
    distinctSigners trusted (List.replicate (m + 1) ⟨k, true⟩) = 1 := by
  unfold distinctSigners
  rw [Finset.card_eq_one]
  refine ⟨k, ?_⟩
  ext f
  simp only [Finset.mem_filter, List.mem_toFinset, Finset.mem_singleton, List.mem_replicate]
  constructor
  · rintro ⟨-, s, ⟨-, rfl⟩, -, he⟩
    exact he.symm
  · rintro rfl
    exact ⟨hk, ⟨f, true⟩, ⟨by omega, rfl⟩, rfl, rfl⟩

/-- C5: for `VerifyTagSignatures` and `VerifyCommitSignatures`, with `n` the
number of distinct trusted fingerprints that verify at least one candidate
signature of the object (embedded or stored in git notes), the result is Ok
if `n ≥ required_n` and otherwise the error `NotEnough(required_n − n)`.
Hence `required_n = 0` succeeds for every object and every key set; a
signature by an untrusted key changes neither `n` nor the result; any
positive number of signatures by one trusted key gives `n = 1`; and three
signatures by one signer with `required_n = 3` give `NotEnough(2)`. -/
theorem verify_counts_distinct_signers (trustedPGPPublicKeys : List String) (required : Int) :
    (∀ tag : Tag, VerifyTagSignatures tag trustedPGPPublicKeys required =
      if (distinctSigners trustedPGPPublicKeys (candidateSignatures tag.object) : Int) ≥ required
      then .ok ()
      else .error (.NotEnoughVerifiedPGPSignatures
        (required - distinctSigners trustedPGPPublicKeys (candidateSignatures tag.object)))) ∧
    (∀ commit : GitObject, VerifyCommitSignatures commit trustedPGPPublicKeys required =
      if (distinctSigners trustedPGPPublicKeys (candidateSignatures commit) : Int) ≥ required
      then .ok ()
      else .error (.NotEnoughVerifiedPGPSignatures
        (required - distinctSigners trustedPGPPublicKeys (candidateSignatures commit)))) ∧
    (∀ (tag : Tag) (commit : GitObject),
      VerifyTagSignatures tag trustedPGPPublicKeys 0 = .ok () ∧
      VerifyCommitSignatures commit trustedPGPPublicKeys 0 = .ok ()) ∧
    (∀ (obj : GitObject) (s : Signature), s.signer ∉ trustedPGPPublicKeys →
      distinctSigners trustedPGPPublicKeys (candidateSignatures { obj with notes := obj.notes ++ [s] })
        = distinctSigners trustedPGPPublicKeys (candidateSignatures obj) ∧
      VerifyCommitSignatures { obj with notes := obj.notes ++ [s] } trustedPGPPublicKeys required
        = VerifyCommitSignatures obj trustedPGPPublicKeys required ∧
      VerifyTagSignatures (.annotated { obj with notes := obj.notes ++ [s] })
          trustedPGPPublicKeys required
        = VerifyTagSignatures (.annotated obj) trustedPGPPublicKeys required ∧
      VerifyTagSignatures (.lightweight { obj with notes := obj.notes ++ [s] })
          trustedPGPPublicKeys required
        = VerifyTagSignatures (.lightweight obj) trustedPGPPublicKeys required) ∧
    (∀ (k : String) (m : Nat), k ∈ trustedPGPPublicKeys →
      distinctSigners trustedPGPPublicKeys (List.replicate (m + 1) ⟨k, true⟩) = 1) ∧
    VerifyTagSignatures (.annotated threeSignaturesByOneSigner) [pgpSigningKeyDeveloper] 3
      = .error (.NotEnoughVerifiedPGPSignatures 2) ∧
    VerifyTagSignatures (.lightweight threeSignaturesByOneSigner) [pgpSigningKeyDeveloper] 3
      = .error (.NotEnoughVerifiedPGPSignatures 2) ∧
    VerifyCommitSignatures threeSignaturesByOneSigner [pgpSigningKeyDeveloper] 3
      = .error (.NotEnoughVerifiedPGPSignatures 2) := by
  have hcount : ∀ (obj : GitObject) (s : Signature), s.signer ∉ trustedPGPPublicKeys →
      distinctSigners trustedPGPPublicKeys (candidateSignatures { obj with notes := obj.notes ++ [s] })
        = distinctSigners trustedPGPPublicKeys (candidateSignatures obj) := by
    intro obj s hs
    have : candidateSignatures { obj with notes := obj.notes ++ [s] }
        = candidateSignatures obj ++ [s] := by
      simp [candidateSignatures]
    rw [this]
    exact distinctSigners_untrusted _ _ _ hs
  have hthree : verifySignatures [pgpSigningKeyDeveloper]
      (candidateSignatures threeSignaturesByOneSigner) 3
      = .error (.NotEnoughVerifiedPGPSignatures 2) := by
    rw [verifySignatures_eq]
    have : candidateSignatures threeSignaturesByOneSigner
        = List.replicate (2 + 1) ⟨pgpSigningKeyDeveloper, true⟩ := rfl
    rw [this, distinctSigners_one_signer _ _ _ (List.mem_singleton_self _)]
    rfl
  refine ⟨?_, ?_, ?_, ?_, ?_, ?_, ?_, ?_⟩
  · intro tag
    cases tag <;> exact verifySignatures_eq _ _ _
  · intro commit
    exact verifySignatures_eq _ _ _
  · intro tag commit
    constructor
    · cases tag <;> simp [VerifyTagSignatures, verifySignatures]
    · simp [VerifyCommitSignatures, verifySignatures]
  · intro obj s hs
    have h := hcount obj s hs
    refine ⟨h, ?_, ?_, ?_⟩
    · simp only [VerifyCommitSignatures, verifySignatures_eq, h]
    · simp only [VerifyTagSignatures, verifySignatures_eq, h]
    · simp only [VerifyTagSignatures, verifySignatures_eq, h]
  · intro k m hk
    exact distinctSigners_one_signer _ _ _ hk
  · exact hthree
  · exact hthree
  · exact hthree

end Trdl.Signatures

/-! # Theorems: release client -/

namespace Trdl.Project

theorem downloadFile_syncs (c : Client) (w : World) (targetName dest : String) (destMode : Nat) :
    (downloadFile c w targetName dest destMode).2.syncs = w.syncs := by
  unfold downloadFile
  split
  · rfl
  · split
    · rfl
    · split <;> rfl

theorem syncFile_syncs (c : Client) (w : World) (targetName : String)
    (targetMeta : TargetFileMeta) (dest : String) (destMode : Nat) :
    (syncFile c w targetName targetMeta dest destMode).2.syncs
      = w.syncs ++ [⟨targetName, targetMeta, dest, destMode⟩] := by
  unfold syncFile
  simp only
  split
  · rfl
  · split
    · split
      · rfl
      · rfl
      · split
        · rfl
        · split
          · split <;> rfl
          · rw [downloadFile_syncs]
    · rw [downloadFile_syncs]

theorem SameBytes.refl (fs : FS) : SameBytes fs fs :=
  ⟨fun _ => rfl, rfl, rfl, rfl, rfl, rfl, rfl, rfl⟩

theorem SameBytes.trans {fs fs1 fs2 : FS} (h1 : SameBytes fs fs1) (h2 : SameBytes fs1 fs2) :
    SameBytes fs fs2 :=
  ⟨fun p => (h2.1 p).trans (h1.1 p), h2.2.1.trans h1.2.1, h2.2.2.1.trans h1.2.2.1,
    h2.2.2.2.1.trans h1.2.2.2.1, h2.2.2.2.2.1.trans h1.2.2.2.2.1,
    h2.2.2.2.2.2.1.trans h1.2.2.2.2.2.1, h2.2.2.2.2.2.2.1.trans h1.2.2.2.2.2.2.1,
    h2.2.2.2.2.2.2.2.trans h1.2.2.2.2.2.2.2⟩

theorem Chmod_sameBytes (fs fs1 : FS) (path : String) (mode : Nat) (e : Option String)
    (h : Chmod fs path mode = (e, fs1)) : SameBytes fs fs1 := by
  unfold Chmod at h
  split at h
  · simp only [Prod.mk.injEq] at h; rw [← h.2]; exact SameBytes.refl fs
  · split at h
    · simp only [Prod.mk.injEq] at h; rw [← h.2]; exact SameBytes.refl fs
    · rename_i f hf
      simp only [Prod.mk.injEq] at h
      rw [← h.2]
      refine ⟨?_, rfl, rfl, rfl, rfl, rfl, rfl, rfl⟩
      intro p
      simp only [FS.setFile]
      split
      · rename_i hp; subst hp; rw [hf]; rfl
      · rfl

theorem UpToDate.of_sameBytes {c : Client} {fs fs1 : FS} {dest : String}
    {targetMeta : TargetFileMeta} (h : UpToDate c fs dest targetMeta) (hs : SameBytes fs fs1) :
    UpToDate c fs1 dest targetMeta := by
  obtain ⟨f, m, hf, hg, he⟩ := h
  have := hs.1 dest
  rw [hf] at this
  cases hf1 : fs1.files dest with
  | none => rw [hf1] at this; simp at this
  | some f1 =>
    rw [hf1] at this
    simp only [Option.map_some', Option.some.injEq] at this
    exact ⟨f1, m, hf1, by rw [this]; exact hg, he⟩

/-- When the destination exists and its meta, if it can be generated, equals
the target meta, `syncFile` downloads nothing and changes no byte. -/
theorem syncFile_no_download (c : Client) (w : World) (targetName : String)
    (targetMeta : TargetFileMeta) (dest : String) (destMode : Nat) (f : File)
    (hf : w.fs.files dest = some f)
    (hm : ∀ m, GenerateTargetFileMeta c.hash f.content targetMeta.HashAlgorithms = .ok m →
      TargetFileMetaEqual targetMeta m = none) :
    (syncFile c w targetName targetMeta dest destMode).2.downloads = w.downloads ∧
    SameBytes w.fs (syncFile c w targetName targetMeta dest destMode).2.fs := by
  unfold syncFile
  simp only [IsRegularFileExist]
  split
  · rename_i h
    split at h
    · exact ⟨rfl, SameBytes.refl _⟩
    · simp at h
  · rename_i exist h
    split at h
    · simp at h
    · simp only [Except.ok.injEq] at h
      rw [hf] at h
      simp only [Option.isSome_some] at h
      subst h
      simp only [if_true]
      split
      · exact ⟨rfl, SameBytes.refl _⟩
      · exact ⟨rfl, SameBytes.refl _⟩
      · rename_i f1 _ hf1
        rw [hf] at hf1
        simp only [Option.some.injEq] at hf1
        subst hf1
        split
        · exact ⟨rfl, SameBytes.refl _⟩
        · rename_i m hgen
          rw [hm m hgen]
          simp only
          split
          · exact ⟨rfl, SameBytes.refl _⟩
          · rename_i fs1 hc
            exact ⟨rfl, Chmod_sameBytes _ _ _ _ _ hc⟩

theorem syncFile_upToDate_no_download (c : Client) (w : World) (targetName : String)
    (targetMeta : TargetFileMeta) (dest : String) (destMode : Nat)
    (h : UpToDate c w.fs dest targetMeta) :
    (syncFile c w targetName targetMeta dest destMode).2.downloads = w.downloads ∧
    SameBytes w.fs (syncFile c w targetName targetMeta dest destMode).2.fs := by
  obtain ⟨f, m, hf, hg, he⟩ := h
  refine syncFile_no_download c w targetName targetMeta dest destMode f hf ?_
  intro m1 hm1
  rw [hg] at hm1
  simp only [Except.ok.injEq] at hm1
  subst hm1
  exact he

theorem syncAll_no_download (c : Client) (releaseTargetPrefix : String) (targets : TargetFiles) :
    ∀ w : World, (∀ t ∈ targets, UpToDate c w.fs (Join [c.dir, t.1]) t.2) →
      (syncChannelRelease.syncAll c releaseTargetPrefix targets w).2.downloads = w.downloads ∧
      SameBytes w.fs (syncChannelRelease.syncAll c releaseTargetPrefix targets w).2.fs := by
  induction targets with
  | nil => intro w _; exact ⟨rfl, SameBytes.refl _⟩
  | cons t rest ih =>
    intro w h
    obtain ⟨name, meta⟩ := t
    have h1 := syncFile_upToDate_no_download c w name meta (Join [c.dir, name])
      (releaseFileMode releaseTargetPrefix name) (h (name, meta) (List.mem_cons_self _ _))
    simp only [syncChannelRelease.syncAll]
    split
    · rename_i err w1 hs
      rw [hs] at h1
      exact h1
    · rename_i w1 hs
      rw [hs] at h1
      have h2 := ih w1 (fun t ht => (h t (List.mem_cons_of_mem _ ht)).of_sameBytes h1.2)
      exact ⟨h2.1.trans h1.1, h1.2.trans h2.2⟩

theorem channelRelease_sameBytes (c : Client) (fs fs1 : FS) (group channel : String)
    (h : SameBytes fs fs1) :
    channelRelease c fs1 group channel = channelRelease c fs group channel := by
  have hfile := h.1 (channelPath c group channel)
  unfold channelRelease IsRegularFileExist readChannelRelease
  simp only [h.2.1, h.2.2.2.1]
  cases h0 : fs.files (channelPath c group channel) with
  | none =>
    rw [h0] at hfile
    simp only [Option.map_none', Option.map_eq_none'] at hfile
    rw [hfile]
  | some f =>
    rw [h0] at hfile
    cases h1 : fs1.files (channelPath c group channel) with
    | none => rw [h1] at hfile; simp at hfile
    | some f1 =>
      rw [h1] at hfile
      simp only [Option.map_some', Option.some.injEq] at hfile
      simp only [hfile, Option.isSome_some]

theorem syncChannel_no_download (c : Client) (w : World) (group channel : String)
    (hchan : ∀ T mc, c.tufClient.Targets = .ok T →
      T.lookup (channelTargetName group channel) = some mc →
      UpToDate c w.fs (channelPath c group channel) mc) :
    (syncChannel c w group channel).2.downloads = w.downloads ∧
    SameBytes w.fs (syncChannel c w group channel).2.fs := by
  unfold syncChannel
  split
  · exact ⟨rfl, SameBytes.refl _⟩
  · rename_i T hT
    simp only
    split
    · exact ⟨rfl, SameBytes.refl _⟩
    · rename_i mc hmc
      exact syncFile_upToDate_no_download c w _ mc _ _ (hchan T mc hT hmc)

theorem syncChannelRelease_no_download (c : Client) (w : World) (group channel : String)
    (hrel : ∀ r targets p, channelRelease c w.fs group channel = .ok r →
      syncChannelRelease.select c (releaseTargetPrefixes c r) = .ok (targets, p) →
      ∀ t ∈ targets, UpToDate c w.fs (Join [c.dir, t.1]) t.2) :
    (syncChannelRelease c w group channel).2.downloads = w.downloads ∧
    SameBytes w.fs (syncChannelRelease c w group channel).2.fs := by
  unfold syncChannelRelease
  split
  · exact ⟨rfl, SameBytes.refl _⟩
  · rename_i r hr
    split
    · exact ⟨rfl, SameBytes.refl _⟩
    · rename_i targets p hsel
      split
      · exact ⟨rfl, SameBytes.refl _⟩
      · exact syncAll_no_download c p targets w (hrel r targets p hr hsel)

theorem UpdateChannel_no_download (c : Client) (w : World) (group channel : String)
    (hchan : ∀ T mc, c.tufClient.Targets = .ok T →
      T.lookup (channelTargetName group channel) = some mc →
      UpToDate c w.fs (channelPath c group channel) mc)
    (hrel : ∀ r targets p, channelRelease c w.fs group channel = .ok r →
      syncChannelRelease.select c (releaseTargetPrefixes c r) = .ok (targets, p) →
      ∀ t ∈ targets, UpToDate c w.fs (Join [c.dir, t.1]) t.2) :
    (UpdateChannel c w group channel).2.downloads = w.downloads ∧
    SameBytes w.fs (UpdateChannel c w group channel).2.fs := by
  unfold UpdateChannel
  split
  · exact ⟨rfl, SameBytes.refl _⟩
  · split
    · exact ⟨rfl, SameBytes.refl _⟩
    · have h1 := syncChannel_no_download c w group channel hchan
      split
      · rename_i err w1 hs
        rw [hs] at h1
        exact h1
      · rename_i w1 hs
        rw [hs] at h1
        have h2 := syncChannelRelease_no_download c w1 group channel (by
          intro r targets p hr hsel t ht
          rw [channelRelease_sameBytes c w.fs w1.fs group channel h1.2] at hr
          exact (hrel r targets p hr hsel t ht).of_sameBytes h1.2)
        exact ⟨h2.1.trans h1.1, h1.2.trans h2.2⟩

theorem syncFile_of_upToDate (c : Client) (w : World) (targetName : String)
    (targetMeta : TargetFileMeta) (dest : String) (destMode : Nat) (f : File)
    (localFileMeta : TargetFileMeta)
    (hf : w.fs.files dest = some f) (hstat : w.fs.statFault dest = none)
    (hopen : w.fs.openFault dest = none) (hchmod : w.fs.chmodFault dest = none)
    (hgen : GenerateTargetFileMeta c.hash f.content targetMeta.HashAlgorithms = .ok localFileMeta)
    (heq : TargetFileMetaEqual targetMeta localFileMeta = none) :
    (syncFile c w targetName targetMeta dest destMode).1 = none ∧
    (syncFile c w targetName targetMeta dest destMode).2.fs.files dest
      = some { f with mode := destMode } ∧
    (∀ p, p ≠ dest →
      (syncFile c w targetName targetMeta dest destMode).2.fs.files p = w.fs.files p) := by
  unfold syncFile
  simp only [IsRegularFileExist, hstat, hf, Option.isSome_some, if_true, hopen, hgen, heq,
    Chmod, hchmod, FS.setFile, true_and]
  intro p hp
  simp [hp]

theorem downloadFile_upToDate (c : Client) (w : World) (targetName dest : String)
    (destMode : Nat) (targetMeta : TargetFileMeta) (data : Bytes) (m : TargetFileMeta)
    (hd : c.tufClient.Download targetName = .ok data)
    (hg : GenerateTargetFileMeta c.hash data targetMeta.HashAlgorithms = .ok m)
    (he : TargetFileMetaEqual targetMeta m = none)
    (hlen : ∀ f, w.fs.files dest = some f → f.content.length ≤ data.length)
    (hret : (downloadFile c w targetName dest destMode).1 = none) :
    UpToDate c (downloadFile c w targetName dest destMode).2.fs dest targetMeta := by
  unfold downloadFile at hret ⊢
  cases hmk : w.fs.mkdirAllFault (Dir dest) with
  | some e => rw [hmk] at hret; simp at hret
  | none =>
    unfold OpenFile at hret ⊢
    cases hof : w.fs.openFileFault dest with
    | some e => rw [hmk, hof] at hret; simp at hret
    | none =>
      cases hfile : w.fs.files dest with
      | some f0 =>
        have hdrop : f0.content.drop data.length = [] :=
          List.drop_eq_nil_of_le (hlen f0 hfile)
        refine ⟨writeAt0 f0 data, m, ?_, ?_, he⟩
        · simp [hd, hfile, FS.setFile]
        · simp only [writeAt0, hdrop, List.append_nil]
          exact hg
      | none =>
        refine ⟨writeAt0 ⟨[], createMode w.fs destMode⟩ data, m, ?_, ?_, he⟩
        · simp [hd, hfile, FS.setFile]
        · simp only [writeAt0, List.drop_nil, List.append_nil]
          exact hg

theorem syncFile_upToDate_after (c : Client) (w : World) (targetName : String)
    (targetMeta : TargetFileMeta) (dest : String) (destMode : Nat) (data : Bytes)
    (m : TargetFileMeta)
    (hd : c.tufClient.Download targetName = .ok data)
    (hg : GenerateTargetFileMeta c.hash data targetMeta.HashAlgorithms = .ok m)
    (he : TargetFileMetaEqual targetMeta m = none)
    (hlen : ∀ f, w.fs.files dest = some f → f.content.length ≤ data.length)
    (hret : (syncFile c w targetName targetMeta dest destMode).1 = none) :
    UpToDate c (syncFile c w targetName targetMeta dest destMode).2.fs dest targetMeta := by
  by_cases hup : UpToDate c w.fs dest targetMeta
  · exact hup.of_sameBytes
      (syncFile_upToDate_no_download c w targetName targetMeta dest destMode hup).2
  · have hdl : syncFile c w targetName targetMeta dest destMode
        = downloadFile c { w with syncs := w.syncs ++ [⟨targetName, targetMeta, dest, destMode⟩] }
            targetName dest destMode := by
      cases hst : w.fs.statFault dest with
      | some e => simp [syncFile, IsRegularFileExist, hst] at hret
      | none =>
        cases hfile : w.fs.files dest with
        | none => simp [syncFile, IsRegularFileExist, hst, hfile]
        | some f =>
          cases hop : w.fs.openFault dest with
          | some e => simp [syncFile, IsRegularFileExist, hst, hfile, hop] at hret
          | none =>
            cases hgen : GenerateTargetFileMeta c.hash f.content targetMeta.HashAlgorithms with
            | error e => simp [syncFile, IsRegularFileExist, hst, hfile, hop, hgen] at hret
            | ok lm =>
              cases heq : TargetFileMetaEqual targetMeta lm with
              | none => exact absurd ⟨f, lm, hfile, hgen, heq⟩ hup
              | some x => simp [syncFile, IsRegularFileExist, hst, hfile, hop, hgen, heq]
    rw [hdl] at hret ⊢
    exact downloadFile_upToDate c _ targetName dest destMode targetMeta data m hd hg he hlen hret

/-- C8, amended: `syncFile` is idempotent on an up-to-date file.  When the
destination exists as a regular file that can be examined, opened and
chmod-ed, and its meta, generated with the hash algorithms of the target
meta, equals the target meta, `syncFile` returns nil, performs no download,
leaves the bytes of every file unchanged and sets the mode of the destination
to the requested mode; a second call does the same.  A download happens only
when the destination is absent or its meta differs from the target meta.  An
`UpdateChannel` that finds the channel file and the selected release targets
up to date performs no download and changes no byte, and so does every
`UpdateChannel` after it.  And a `syncFile` that returns nil where the
download delivers the target (its meta equals the target meta) and the
destination was absent or held no more bytes than the target leaves the
destination up to date, so that the next `syncFile` on it performs no
download and changes no byte. -/
theorem syncFile_idempotent (c : Client) (w : World) :
    (∀ (targetName : String) (targetMeta : TargetFileMeta) (dest : String) (destMode : Nat)
        (f : File) (localFileMeta : TargetFileMeta),
      w.fs.files dest = some f → w.fs.statFault dest = none →
      w.fs.openFault dest = none → w.fs.chmodFault dest = none →
      GenerateTargetFileMeta c.hash f.content targetMeta.HashAlgorithms = .ok localFileMeta →
      TargetFileMetaEqual targetMeta localFileMeta = none →
      (syncFile c w targetName targetMeta dest destMode).1 = none ∧
      (syncFile c w targetName targetMeta dest destMode).2.downloads = w.downloads ∧
      (syncFile c w targetName targetMeta dest destMode).2.fs.files dest
        = some { f with mode := destMode } ∧
      (∀ p, p ≠ dest →
        (syncFile c w targetName targetMeta dest destMode).2.fs.files p = w.fs.files p) ∧
      (syncFile c (syncFile c w targetName targetMeta dest destMode).2
        targetName targetMeta dest destMode).1 = none ∧
      (syncFile c (syncFile c w targetName targetMeta dest destMode).2
        targetName targetMeta dest destMode).2.downloads = w.downloads ∧
      (syncFile c (syncFile c w targetName targetMeta dest destMode).2
        targetName targetMeta dest destMode).2.fs.files dest = some { f with mode := destMode }) ∧
    (∀ (targetName : String) (targetMeta : TargetFileMeta) (dest : String) (destMode : Nat),
      (syncFile c w targetName targetMeta dest destMode).2.downloads ≠ w.downloads →
      w.fs.files dest = none ∨
      ∃ f m, w.fs.files dest = some f ∧
        GenerateTargetFileMeta c.hash f.content targetMeta.HashAlgorithms = .ok m ∧
        TargetFileMetaEqual targetMeta m ≠ none) ∧
    (∀ group channel : String,
      (∀ T mc, c.tufClient.Targets = .ok T →
        T.lookup (channelTargetName group channel) = some mc →
        UpToDate c w.fs (channelPath c group channel) mc) →
      (∀ r targets p, channelRelease c w.fs group channel = .ok r →
        syncChannelRelease.select c (releaseTargetPrefixes c r) = .ok (targets, p) →
        ∀ t ∈ targets, UpToDate c w.fs (Join [c.dir, t.1]) t.2) →
      (UpdateChannel c w group channel).2.downloads = w.downloads ∧
      SameBytes w.fs (UpdateChannel c w group channel).2.fs ∧
      (UpdateChannel c (UpdateChannel c w group channel).2 group channel).2.downloads
        = w.downloads ∧
      SameBytes w.fs (UpdateChannel c (UpdateChannel c w group channel).2 group channel).2.fs) ∧
    (∀ (targetName : String) (targetMeta : TargetFileMeta) (dest : String) (destMode : Nat)
        (data : Bytes) (m : TargetFileMeta),
      c.tufClient.Download targetName = .ok data →
      GenerateTargetFileMeta c.hash data targetMeta.HashAlgorithms = .ok m →
      TargetFileMetaEqual targetMeta m = none →
      (∀ f, w.fs.files dest = some f → f.content.length ≤ data.length) →
      (syncFile c w targetName targetMeta dest destMode).1 = none →
      UpToDate c (syncFile c w targetName targetMeta dest destMode).2.fs dest targetMeta ∧
      (syncFile c (syncFile c w targetName targetMeta dest destMode).2
        targetName targetMeta dest destMode).2.downloads
          = (syncFile c w targetName targetMeta dest destMode).2.downloads ∧
      SameBytes (syncFile c w targetName targetMeta dest destMode).2.fs
        (syncFile c (syncFile c w targetName targetMeta dest destMode).2
          targetName targetMeta dest destMode).2.fs) := by
  refine ⟨?_, ?_, ?_, ?_⟩
  · intro targetName targetMeta dest destMode f localFileMeta hf hstat hopen hchmod hgen heq
    have h1 := syncFile_of_upToDate c w targetName targetMeta dest destMode f localFileMeta
      hf hstat hopen hchmod hgen heq
    have h2 := syncFile_upToDate_no_download c w targetName targetMeta dest destMode
      ⟨f, localFileMeta, hf, hgen, heq⟩
    have hs := h2.2
    have h3 := syncFile_of_upToDate c (syncFile c w targetName targetMeta dest destMode).2
      targetName targetMeta dest destMode { f with mode := destMode } localFileMeta
      h1.2.1 (by rw [hs.2.1]; exact hstat) (by rw [hs.2.2.1]; exact hopen)
      (by rw [hs.2.2.2.2.1]; exact hchmod) hgen heq
    have h4 := syncFile_upToDate_no_download c (syncFile c w targetName targetMeta dest destMode).2
      targetName targetMeta dest destMode ⟨{ f with mode := destMode }, localFileMeta, h1.2.1, hgen, heq⟩
    exact ⟨h1.1, h2.1, h1.2.1, h1.2.2, h3.1, h4.1.trans h2.1, h3.2.1⟩
  · intro targetName targetMeta dest destMode hne
    by_contra hcon
    rw [not_or] at hcon
    obtain ⟨hsome, hno⟩ := hcon
    cases hf : w.fs.files dest with
    | none => exact hsome hf
    | some f =>
      apply hne
      refine (syncFile_no_download c w targetName targetMeta dest destMode f hf ?_).1
      intro m hm
      by_contra hd
      exact hno ⟨f, m, hf, hm, hd⟩
  · intro group channel hchan hrel
    have h1 := UpdateChannel_no_download c w group channel hchan hrel
    have h2 := UpdateChannel_no_download c (UpdateChannel c w group channel).2 group channel
      (fun T mc hT hmc => (hchan T mc hT hmc).of_sameBytes h1.2)
      (by
        intro r targets p hr hsel t ht
        rw [channelRelease_sameBytes c w.fs _ group channel h1.2] at hr
        exact (hrel r targets p hr hsel t ht).of_sameBytes h1.2)
    exact ⟨h1.1, h1.2, h2.1.trans h1.1, h1.2.trans h2.2⟩
  · intro targetName targetMeta dest destMode data m hd hg he hlen hret
    have hup := syncFile_upToDate_after c w targetName targetMeta dest destMode data m
      hd hg he hlen hret
    exact ⟨hup, syncFile_upToDate_no_download c _ targetName targetMeta dest destMode hup⟩

theorem select_none (c : Client) (T : TargetFiles) (hT : c.tufClient.Targets = .ok T)
    (P : List String)
    (h : ∀ p ∈ P, ∀ t ∈ T, HasPrefix t.1 (p ++ "/") = false) :
    syncChannelRelease.select c P = .ok ([], "") := by
  induction P with
  | nil => rfl
  | cons p rest ih =>
    have hp : T.filter (fun t => HasPrefix t.1 (p ++ "/")) = [] := by
      rw [List.filter_eq_nil_iff]
      intro t ht
      rw [h p (List.mem_cons_self _ _) t ht]
      simp
    simp only [syncChannelRelease.select, filterTargets, hT, hp, List.length_nil, ne_eq,
      not_true_eq_false, if_false]
    exact ih (fun q hq => h q (List.mem_cons_of_mem _ hq))

theorem select_first (c : Client) (T : TargetFiles) (hT : c.tufClient.Targets = .ok T)
    (pre : List String) (p : String) (post : List String)
    (hpre : ∀ q ∈ pre, ∀ t ∈ T, HasPrefix t.1 (q ++ "/") = false)
    (hp : ∃ t ∈ T, HasPrefix t.1 (p ++ "/") = true) :
    syncChannelRelease.select c (pre ++ p :: post)
      = .ok (T.filter (fun t => HasPrefix t.1 (p ++ "/")), p) := by
  induction pre with
  | nil =>
    have hne : (T.filter (fun t => HasPrefix t.1 (p ++ "/"))).length ≠ 0 := by
      obtain ⟨t, ht, hpt⟩ := hp
      have : t ∈ T.filter (fun t => HasPrefix t.1 (p ++ "/")) := List.mem_filter.mpr ⟨ht, hpt⟩
      intro h0
      rw [List.length_eq_zero] at h0
      rw [h0] at this
      exact List.not_mem_nil _ this
    simp only [List.nil_append, syncChannelRelease.select, filterTargets, hT]
    rw [if_pos hne]
  | cons q rest ih =>
    have hq : T.filter (fun t => HasPrefix t.1 (q ++ "/")) = [] := by
      rw [List.filter_eq_nil_iff]
      intro t ht
      rw [hpre q (List.mem_cons_self _ _) t ht]
      simp
    simp only [List.cons_append, syncChannelRelease.select, filterTargets, hT, hq,
      List.length_nil, ne_eq, not_true_eq_false, if_false]
    exact ih (fun q1 hq1 => hpre q1 (List.mem_cons_of_mem _ hq1))

theorem syncAll_syncs (c : Client) (releaseTargetPrefix : String) (targets : TargetFiles) :
    ∀ w : World, ∃ k,
      (syncChannelRelease.syncAll c releaseTargetPrefix targets w).2.syncs =
        w.syncs ++ (targets.take k).map (fun t =>
          (⟨t.1, t.2, Join [c.dir, t.1], releaseFileMode releaseTargetPrefix t.1⟩ : SyncCall)) ∧
      ((syncChannelRelease.syncAll c releaseTargetPrefix targets w).1 = none →
        k = targets.length) := by
  induction targets with
  | nil => intro w; exact ⟨0, by simp [syncChannelRelease.syncAll], fun _ => rfl⟩
  | cons t rest ih =>
    intro w
    obtain ⟨name, meta⟩ := t
    have h1 := syncFile_syncs c w name meta (Join [c.dir, name])
      (releaseFileMode releaseTargetPrefix name)
    simp only [syncChannelRelease.syncAll]
    split
    · rename_i err w1 hs
      rw [hs] at h1
      exact ⟨1, by simpa using h1, by simp⟩
    · rename_i w1 hs
      rw [hs] at h1
      obtain ⟨k, hk, hk2⟩ := ih w1
      refine ⟨k + 1, ?_, fun h => by rw [hk2 h]; rfl⟩
      rw [hk, h1]
      simp

/-! ## Concrete runs -/

/-- C8, the claim as stated fails.  The README is installed with the bytes of
the target, so its meta equals the target meta, but it cannot be chmod-ed:
`syncFile` does not return nil, it returns the chmod error, and the mode stays
0o600 instead of the requested 0o655.  And on the installation with the stale,
longer README a first `UpdateChannel` returns nil after downloading the tool
and the README, and a second `UpdateChannel`, with no remote change,
downloads the README again. -/
theorem syncFile_returns_chmod_error :
    chmodDeniedWorld.fs.files "/home/u/.trdl/p/releases/1.0.0/any-any/README"
      = some ⟨"read me".data, 0o600⟩ ∧
    GenerateTargetFileMeta sampleClient.hash "read me".data (metaOf "read me").HashAlgorithms
      = .ok (metaOf "read me") ∧
    TargetFileMetaEqual (metaOf "read me") (metaOf "read me") = none ∧
    (syncFile sampleClient chmodDeniedWorld "releases/1.0.0/any-any/README" (metaOf "read me")
      "/home/u/.trdl/p/releases/1.0.0/any-any/README" 0o655).1
      = some (.wrap "unable to chmod file %q: %s"
          ["/home/u/.trdl/p/releases/1.0.0/any-any/README"]
          (.external "operation not permitted")) ∧
    (syncFile sampleClient chmodDeniedWorld "releases/1.0.0/any-any/README" (metaOf "read me")
      "/home/u/.trdl/p/releases/1.0.0/any-any/README" 0o655).2.fs.files
        "/home/u/.trdl/p/releases/1.0.0/any-any/README"
      = some ⟨"read me".data, 0o600⟩ ∧
    (UpdateChannel sampleClient staleWorld "g" "c").1 = none ∧
    (UpdateChannel sampleClient staleWorld "g" "c").2.downloads
      = ["releases/1.0.0/any-any/bin/tool", "releases/1.0.0/any-any/README"] ∧
    (UpdateChannel sampleClient (UpdateChannel sampleClient staleWorld "g" "c").2 "g" "c").1
      = none ∧
    (UpdateChannel sampleClient (UpdateChannel sampleClient staleWorld "g" "c").2
        "g" "c").2.downloads
      = ["releases/1.0.0/any-any/bin/tool", "releases/1.0.0/any-any/README",
         "releases/1.0.0/any-any/README"] :=
  ⟨by decide, rfl, by decide, by decide, by decide, by decide, by decide, by decide,
    by decide⟩

/-- C8 amended, on the sample installation: the first `UpdateChannel` on the
empty installation downloads the channel file and the two release files; the
second one finds them up to date and downloads nothing.  A `syncFile` of the
README onto the empty installation downloads it, and a second one does not
download again. -/
theorem syncFile_idempotent_witness :
    installedWorld.downloads =
      ["channels/g/c", "releases/1.0.0/any-any/bin/tool", "releases/1.0.0/any-any/README"] ∧
    (UpdateChannel sampleClient installedWorld "g" "c").1 = none ∧
    (UpdateChannel sampleClient installedWorld "g" "c").2.downloads = installedWorld.downloads ∧
    (syncFile sampleClient emptyWorld "releases/1.0.0/any-any/README" (metaOf "read me")
      "/home/u/.trdl/p/releases/1.0.0/any-any/README" 0o655).2.downloads
      = ["releases/1.0.0/any-any/README"] ∧
    (syncFile sampleClient
      (syncFile sampleClient emptyWorld "releases/1.0.0/any-any/README" (metaOf "read me")
        "/home/u/.trdl/p/releases/1.0.0/any-any/README" 0o655).2
      "releases/1.0.0/any-any/README" (metaOf "read me")
      "/home/u/.trdl/p/releases/1.0.0/any-any/README" 0o655).2.downloads
      = ["releases/1.0.0/any-any/README"] := by
  refine ⟨by decide, by decide, ?_, by decide,
    ((syncFile_idempotent sampleClient emptyWorld).2.2.2 "releases/1.0.0/any-any/README"
      (metaOf "read me") "/home/u/.trdl/p/releases/1.0.0/any-any/README" 0o655
      "read me".data (metaOf "read me") rfl rfl (by decide)
      (fun f hf => by cases hf) (by decide)).2.1.trans (by decide)⟩
  refine ((syncFile_idempotent sampleClient installedWorld).2.2.1 "g" "c" ?_ ?_).1
  · intro T mc hT hmc
    have hT1 : (Except.ok (sampleRemote.map (fun t => (t.1, metaOf t.2))) : Except String TargetFiles)
        = Except.ok T := hT
    cases hT1
    have hl : List.lookup (channelTargetName "g" "c")
        (sampleRemote.map (fun t => (t.1, metaOf t.2))) = some (metaOf "1.0.0\n") := by decide
    rw [hl] at hmc
    cases hmc
    exact ⟨⟨"1.0.0\n".data, 0o655⟩, metaOf "1.0.0\n", by decide, rfl, by decide⟩
  · intro r targets p hr hsel t ht
    have hr1 : (Except.ok "1.0.0" : Except Error String) = Except.ok r := hr
    cases hr1
    have hs1 : (Except.ok ([("releases/1.0.0/any-any/bin/tool", metaOf "#!tool"),
          ("releases/1.0.0/any-any/README", metaOf "read me")], "releases/1.0.0/any-any") :
        Except Error (TargetFiles × String)) = Except.ok (targets, p) := hsel
    cases hs1
    simp only [List.mem_cons, List.mem_singleton, List.not_mem_nil, or_false] at ht
    rcases ht with rfl | rfl
    · exact ⟨⟨"#!tool".data, 0o755⟩, metaOf "#!tool", by decide, rfl, by decide⟩
    · exact ⟨⟨"read me".data, 0o655⟩, metaOf "read me", by decide, rfl, by decide⟩

/-- C7, the code at the failing input: the destination holds a stale README
that is longer than the target; `syncFile` downloads the verified target
(whose meta is the target meta), returns nil, and the destination then holds
the target's bytes followed by the tail of the old content, and keeps its old
mode: its length is 18, not 7, and its meta differs from the target meta.  A
second `syncFile` therefore downloads again, with the same result; so do two
`UpdateChannel` calls in a row, each returning nil. -/
theorem syncFile_keeps_stale_tail :
    staleWorld.fs.files "/home/u/.trdl/p/releases/1.0.0/any-any/README"
      = some ⟨"OLD README, longer".data, 0o600⟩ ∧
    sampleClient.tufClient.Download "releases/1.0.0/any-any/README" = .ok "read me".data ∧
    GenerateTargetFileMeta sampleClient.hash "read me".data (metaOf "read me").HashAlgorithms
      = .ok (metaOf "read me") ∧
    (syncFile sampleClient staleWorld "releases/1.0.0/any-any/README" (metaOf "read me")
      "/home/u/.trdl/p/releases/1.0.0/any-any/README" 0o655).1 = none ∧
    (syncFile sampleClient staleWorld "releases/1.0.0/any-any/README" (metaOf "read me")
      "/home/u/.trdl/p/releases/1.0.0/any-any/README" 0o655).2.fs.files
        "/home/u/.trdl/p/releases/1.0.0/any-any/README"
      = some ⟨"read meDME, longer".data, 0o600⟩ ∧
    (GenerateTargetFileMeta sampleClient.hash "read meDME, longer".data
        (metaOf "read me").HashAlgorithms).map
      (fun m => (m.Length, TargetFileMetaEqual (metaOf "read me") m))
      = .ok (18, some "wrong length") ∧
    (syncFile sampleClient
      (syncFile sampleClient staleWorld "releases/1.0.0/any-any/README" (metaOf "read me")
        "/home/u/.trdl/p/releases/1.0.0/any-any/README" 0o655).2
      "releases/1.0.0/any-any/README" (metaOf "read me")
      "/home/u/.trdl/p/releases/1.0.0/any-any/README" 0o655).2.downloads
      = ["releases/1.0.0/any-any/README", "releases/1.0.0/any-any/README"] ∧
    (UpdateChannel sampleClient staleWorld "g" "c").1 = none ∧
    (UpdateChannel sampleClient (UpdateChannel sampleClient staleWorld "g" "c").2 "g" "c").1
      = none ∧
    (UpdateChannel sampleClient (UpdateChannel sampleClient staleWorld "g" "c").2 "g" "c").2.downloads
      = ["releases/1.0.0/any-any/bin/tool", "releases/1.0.0/any-any/README",
         "releases/1.0.0/any-any/README"] ∧
    (UpdateChannel sampleClient (UpdateChannel sampleClient staleWorld "g" "c").2 "g" "c").2.fs.files
        "/home/u/.trdl/p/releases/1.0.0/any-any/README"
      = some ⟨"read meDME, longer".data, 0o600⟩ :=
  ⟨by decide, rfl, rfl, by decide, by decide, rfl, by decide, by decide,
    by decide, by decide, by decide⟩

end Trdl.Project

/-! # Theorems: project client, paths and file modes -/

namespace Trdl.Project

theorem splitPath_ne_nil (s : List Char) : splitPath s ≠ [] := by
  induction s with
  | nil => simp [splitPath]
  | cons c cs ih =>
    unfold splitPath
    split
    · simp
    · split <;> simp

theorem splitPath_append_slash (x y : List Char) :
    splitPath (x ++ '/' :: y) = splitPath x ++ splitPath y := by
  induction x with
  | nil => simp [splitPath]
  | cons c cs ih =>
    by_cases hc : c = '/'
    · subst hc
      simp [splitPath, ih]
    · have h1 : splitPath (c :: cs ++ '/' :: y)
          = match splitPath (cs ++ '/' :: y) with
            | [] => [[c]]
            | x :: xs => (c :: x) :: xs := by
        rw [List.cons_append, splitPath, if_neg hc]
      have h2 : splitPath (c :: cs)
          = match splitPath cs with
            | [] => [[c]]
            | x :: xs => (c :: x) :: xs := by
        rw [splitPath, if_neg hc]
      rw [h1, h2, ih]
      cases hs : splitPath cs with
      | nil => exact absurd hs (splitPath_ne_nil cs)
      | cons a as => rfl

theorem splitPath_of_no_slash (x : List Char) (h : '/' ∉ x) : splitPath x = [x] := by
  induction x with
  | nil => rfl
  | cons c cs ih =>
    have hc : c ≠ '/' := fun e => h (by rw [e]; exact List.mem_cons_self _ _)
    have hcs : '/' ∉ cs := fun e => h (List.mem_cons_of_mem _ e)
    rw [splitPath, if_neg hc, ih hcs]

theorem mem_splitPath_no_slash (s : List Char) : ∀ x ∈ splitPath s, '/' ∉ x := by
  induction s with
  | nil => intro x hx; simp [splitPath] at hx; subst hx; simp
  | cons c cs ih =>
    intro x hx
    unfold splitPath at hx
    split at hx
    · rcases List.mem_cons.mp hx with h | h
      · subst h; simp
      · exact ih x h
    · rename_i hc
      cases hs : splitPath cs with
      | nil => exact absurd hs (splitPath_ne_nil cs)
      | cons a as =>
        rw [hs] at hx ih
        simp only [List.mem_cons] at hx
        rcases hx with h | h
        · subst h
          intro hm
          rcases List.mem_cons.mp hm with e | e
          · exact hc e.symm
          · exact ih a (List.mem_cons_self _ _) e
        · exact ih x (List.mem_cons_of_mem _ h)

theorem joinSlash_concat (L : List (List Char)) (z : List Char) (hne : L ≠ []) :
    joinSlash (L ++ [z]) = joinSlash L ++ '/' :: z := by
  induction L with
  | nil => exact absurd rfl hne
  | cons x rest ih =>
    cases rest with
    | nil => simp [joinSlash]
    | cons y rest2 =>
      have := ih (by simp)
      simp only [List.cons_append] at this ⊢
      rw [joinSlash, this, joinSlash]
      simp

theorem splitPath_joinSlash (L : List (List Char)) (hne : L ≠ [])
    (h : ∀ x ∈ L, '/' ∉ x) : splitPath (joinSlash L) = L := by
  induction L with
  | nil => exact absurd rfl hne
  | cons x rest ih =>
    cases rest with
    | nil => simpa [joinSlash] using splitPath_of_no_slash x (h x (List.mem_cons_self _ _))
    | cons y rest2 =>
      rw [joinSlash, splitPath_append_slash, ih (by simp)
        (fun z hz => h z (List.mem_cons_of_mem _ hz)),
        splitPath_of_no_slash x (h x (List.mem_cons_self _ _))]
      rfl

theorem cleanStep_cleanStack (rooted : Bool) (S : List (List Char)) (e : List Char)
    (hS : CleanStack rooted S) (he : '/' ∉ e) : CleanStack rooted (cleanStep rooted S e) := by
  obtain ⟨h1, h2, h3⟩ := hS
  unfold cleanStep
  split
  · exact ⟨h1, h2, h3⟩
  · rename_i hne
    have hne1 : e ≠ [] ∧ e ≠ ['.'] := by
      constructor
      · exact fun h => hne (Or.inl h)
      · exact fun h => hne (Or.inr h)
    split
    · rename_i hdd
      cases S with
      | nil =>
        simp only
        split
        · exact ⟨h1, h2, h3⟩
        · rename_i hr
          refine ⟨?_, List.pairwise_singleton _ _, ?_⟩
          · intro x hx
            rw [List.mem_singleton] at hx
            subst hx
            exact ⟨hne1.1, hne1.2, he⟩
          · intro x _ _
            simpa using hr
      | cons top rest =>
        simp only
        split
        · rename_i htop
          refine ⟨?_, ?_, ?_⟩
          · intro x hx
            rcases List.mem_cons.mp hx with h | h
            · subst h; exact ⟨hne1.1, hne1.2, he⟩
            · exact h1 x h
          · rw [List.pairwise_cons]
            refine ⟨?_, h2⟩
            intro y hy _
            rcases List.mem_cons.mp hy with h | h
            · rw [h]; exact htop
            · exact (List.pairwise_cons.mp h2).1 y h htop
          · intro x hx hxd
            rcases List.mem_cons.mp hx with h | h
            · exact h3 top (List.mem_cons_self _ _) htop
            · exact h3 x h hxd
        · exact ⟨fun x hx => h1 x (List.mem_cons_of_mem _ hx), (List.pairwise_cons.mp h2).2,
            fun x hx => h3 x (List.mem_cons_of_mem _ hx)⟩
    · rename_i hdd
      refine ⟨?_, ?_, ?_⟩
      · intro x hx
        rcases List.mem_cons.mp hx with h | h
        · subst h; exact ⟨hne1.1, hne1.2, he⟩
        · exact h1 x h
      · rw [List.pairwise_cons]
        exact ⟨fun y _ h => absurd h hdd, h2⟩
      · intro x hx hxd
        rcases List.mem_cons.mp hx with h | h
        · subst h; exact absurd hxd hdd
        · exact h3 x h hxd

theorem foldl_cleanStep_cleanStack (rooted : Bool) (L : List (List Char)) :
    ∀ S, CleanStack rooted S → (∀ e ∈ L, '/' ∉ e) →
      CleanStack rooted (L.foldl (cleanStep rooted) S) := by
  induction L with
  | nil => intro S hS _; exact hS
  | cons e rest ih =>
    intro S hS hL
    rw [List.foldl_cons]
    exact ih _ (cleanStep_cleanStack rooted S e hS (hL e (List.mem_cons_self _ _)))
      (fun x hx => hL x (List.mem_cons_of_mem _ hx))

theorem foldl_cleanStep_of_cleanStack (rooted : Bool) (L : List (List Char)) :
    ∀ T, CleanStack rooted (L.reverse ++ T) →
      L.foldl (cleanStep rooted) T = L.reverse ++ T := by
  induction L with
  | nil => intro T _; rfl
  | cons x rest ih =>
    intro T hT
    have hT1 : CleanStack rooted (rest.reverse ++ x :: T) := by
      simpa [List.reverse_cons, List.append_assoc] using hT
    have hstep : cleanStep rooted T x = x :: T := by
      obtain ⟨h1, h2, h3⟩ := hT1
      have hx := h1 x (by simp)
      have hp := (List.pairwise_append.mp h2).2.1
      unfold cleanStep
      rw [if_neg (by rintro (h | h); exact hx.1 h; exact hx.2.1 h)]
      split
      · rename_i hdd
        have hr : rooted = false := h3 x (by simp) hdd
        cases T with
        | nil => simp [hr]
        | cons top rest2 =>
          have : top = ['.', '.'] :=
            (List.pairwise_cons.mp hp).1 top (List.mem_cons_self _ _) hdd
          simp [this]
      · rfl
    rw [List.foldl_cons, hstep, ih _ hT1]
    simp

theorem joinSlash_head (L : List (List Char)) (x : List Char) (c : Char) (cs : List Char)
    (hx : x = c :: cs) : (joinSlash (x :: L)).head? = some c := by
  subst hx
  cases L with
  | nil => rfl
  | cons y rest => rfl

theorem Clean_of_last_name (X : List Char) (L0 : List (List Char)) (e : List Char)
    (hsplit : splitPath X = L0 ++ [e])
    (he : e ≠ [] ∧ e ≠ ['.'] ∧ e ≠ ['.', '.'] ∧ '/' ∉ e) :
    ∃ S, CleanStack (decide (X.head? = some '/')) (e :: S) ∧
      (Clean (String.mk X)).data
        = (if decide (X.head? = some '/') = true then ['/'] else []) ++
            joinSlash (S.reverse ++ [e]) := by
  have hL0 : ∀ x ∈ L0, '/' ∉ x := fun x hx =>
    mem_splitPath_no_slash X x (by rw [hsplit]; exact List.mem_append_left _ hx)
  have hS := foldl_cleanStep_cleanStack (decide (X.head? = some '/')) L0 []
    ⟨by simp, List.Pairwise.nil, by simp⟩ hL0
  have hstep : cleanStep (decide (X.head? = some '/'))
      (L0.foldl (cleanStep (decide (X.head? = some '/'))) []) e
      = e :: L0.foldl (cleanStep (decide (X.head? = some '/'))) [] := by
    unfold cleanStep
    rw [if_neg (by rintro (h | h); exact he.1 h; exact he.2.1 h), if_neg he.2.2.1]
  have hgood : CleanStack (decide (X.head? = some '/'))
      (e :: L0.foldl (cleanStep (decide (X.head? = some '/'))) []) := by
    rw [← hstep]
    exact cleanStep_cleanStack _ _ _ hS he.2.2.2
  refine ⟨_, hgood, ?_⟩
  have hout : joinSlash ((L0.foldl (cleanStep (decide (X.head? = some '/'))) []).reverse ++ [e])
      ≠ [] := by
    obtain ⟨c, cs, hc⟩ := List.exists_cons_of_ne_nil he.1
    cases hrev : (L0.foldl (cleanStep (decide (X.head? = some '/'))) []).reverse with
    | nil =>
      simp [joinSlash, he.1]
    | cons y rest =>
      have hy : y ≠ [] := by
        have : y ∈ L0.foldl (cleanStep (decide (X.head? = some '/'))) [] := by
          rw [← List.mem_reverse, hrev]; exact List.mem_cons_self _ _
        exact (hS.1 y this).1
      obtain ⟨d, ds, hd⟩ := List.exists_cons_of_ne_nil hy
      intro h0
      have := joinSlash_head (rest ++ [e]) y d ds hd
      rw [List.cons_append] at h0
      rw [h0] at this
      cases this
  unfold Clean
  simp only [hsplit, List.foldl_append, List.foldl_cons, List.foldl_nil, hstep,
    List.reverse_cons]
  rw [if_neg]
  · simp
  · intro h0
    rcases List.append_eq_nil.mp h0 with ⟨_, h2⟩
    exact hout h2

theorem Join_bin_of_clean (rooted : Bool) (L : List (List Char)) (p : String)
    (hne : L ≠ []) (hL : CleanStack rooted L.reverse)
    (hp : p.data = (if rooted = true then ['/'] else []) ++ joinSlash L) :
    Join [p, "bin"] = p ++ "/bin" := by
  obtain ⟨x, rest, hxr⟩ := List.exists_cons_of_ne_nil hne
  have hx : x ≠ [] ∧ x ≠ ['.'] ∧ '/' ∉ x := hL.1 x (by rw [List.mem_reverse, hxr]; simp)
  obtain ⟨c, cs, hc⟩ := List.exists_cons_of_ne_nil hx.1
  have hcs : c ≠ '/' := fun h => hx.2.2 (by rw [hc, h]; exact List.mem_cons_self _ _)
  have hdata : p.data ≠ [] := by
    rw [hp]
    intro h0
    have h2 := (List.append_eq_nil.mp h0).2
    have := joinSlash_head rest x c cs hc
    rw [← hxr, h2] at this
    cases this
  have hpne : p ≠ "" := by
    intro h
    rw [h] at hdata
    exact hdata rfl
  have hhead : decide ((p.data ++ '/' :: "bin".data).head? = some '/') = rooted := by
    rw [hp]
    cases rooted with
    | true => simp
    | false =>
      have := joinSlash_head rest x c cs hc
      rw [← hxr] at this
      simp only [Bool.false_eq_true, if_false, List.nil_append]
      rw [List.head?_append_of_ne_nil _ (by intro h0; rw [h0] at this; cases this), this]
      simp [hcs]
  have hheadL : decide ((p.data ++ ['/', 'b', 'i', 'n']).head? = some '/') = rooted := hhead
  have hheadP : ((p.data ++ ['/', 'b', 'i', 'n']).head? = some '/') ↔ rooted = true := by
    rw [← hheadL]
    exact decide_eq_true_iff.symm
  have hnoslash : ∀ y ∈ L, '/' ∉ y := fun y hy => (hL.1 y (List.mem_reverse.mpr hy)).2.2
  have hsplit : splitPath p.data = (if rooted = true then [[]] else []) ++ L := by
    rw [hp]
    cases rooted with
    | true =>
      simp only [if_true]
      have := splitPath_append_slash [] (joinSlash L)
      rw [List.nil_append] at this
      rw [List.singleton_append, this, splitPath_joinSlash L hne hnoslash]
      rfl
    | false =>
      simp only [Bool.false_eq_true, if_false, List.nil_append]
      exact splitPath_joinSlash L hne hnoslash
  have hfold : (splitPath p.data).foldl (cleanStep rooted) [] = L.reverse := by
    rw [hsplit, List.foldl_append]
    have h0 : (if rooted = true then [[]] else []).foldl (cleanStep rooted) []
        = ([] : List (List Char)) := by
      cases rooted <;> simp [cleanStep]
    rw [h0]
    have := foldl_cleanStep_of_cleanStack rooted L [] (by simpa using hL)
    simpa using this
  have hbin : cleanStep rooted L.reverse "bin".data = "bin".data :: L.reverse := by
    unfold cleanStep
    rw [if_neg (by decide), if_neg (by decide)]
  have hjoin : Join [p, "bin"]
      = Clean (String.mk (p.data ++ '/' :: "bin".data)) := by
    simp only [Join, hpne, if_false, List.map_cons, List.map_nil, joinSlash]
  rw [hjoin]
  unfold Clean
  simp only [hhead, hheadL, splitPath_append_slash, List.foldl_append, hfold,
    splitPath_of_no_slash "bin".data (by decide), List.foldl_cons, List.foldl_nil, hbin,
    List.reverse_cons, List.reverse_reverse, joinSlash_concat L _ hne]
  rw [if_neg]
  · apply String.ext
    rw [String.data_append]
    show (if (p.data ++ ['/', 'b', 'i', 'n']).head? = some '/' then ['/'] else []) ++
        (joinSlash L ++ ['/', 'b', 'i', 'n']) = p.data ++ ['/', 'b', 'i', 'n']
    simp only [hheadP]
    rw [hp]
    simp
  · intro h0
    rcases List.append_eq_nil.mp h0 with ⟨_, h2⟩
    rcases List.append_eq_nil.mp h2 with ⟨_, h3⟩
    cases h3

theorem Join_name_bin (b e : String)
    (he : e.data ≠ [] ∧ e.data ≠ ['.'] ∧ e.data ≠ ['.', '.'] ∧ '/' ∉ e.data) :
    Join [Join [b, e], "bin"] = Join [b, e] ++ "/bin" := by
  have hene : e ≠ "" := by
    intro h
    rw [h] at he
    exact he.1 rfl
  have key : ∀ X L0, splitPath X = L0 ++ [e.data] →
      Join [Clean (String.mk X), "bin"] = Clean (String.mk X) ++ "/bin" := by
    intro X L0 hsplit
    obtain ⟨S, hS, hdata⟩ := Clean_of_last_name X L0 e.data hsplit he
    refine Join_bin_of_clean (decide (X.head? = some '/')) (S.reverse ++ [e.data]) _
      (by simp) (by simpa using hS) hdata
  by_cases hb : b = ""
  · have hj : Join [b, e] = Clean (String.mk e.data) := by
      simp [Join, hb, hene, joinSlash]
    rw [hj]
    exact key e.data [] (by simpa using splitPath_of_no_slash e.data he.2.2.2)
  · have hj : Join [b, e] = Clean (String.mk (b.data ++ '/' :: e.data)) := by
      simp [Join, hb, joinSlash]
    rw [hj]
    exact key _ (splitPath b.data) (by
      rw [splitPath_append_slash, splitPath_of_no_slash e.data he.2.2.2])

theorem name_of_dash (s : String) (hdash : '-' ∈ s.data) (hslash : '/' ∉ s.data) :
    s.data ≠ [] ∧ s.data ≠ ['.'] ∧ s.data ≠ ['.', '.'] ∧ '/' ∉ s.data := by
  refine ⟨?_, ?_, ?_, hslash⟩
  · intro h; rw [h] at hdash; simp at hdash
  · intro h; rw [h] at hdash; simp at hdash
  · intro h; rw [h] at hdash; simp at hdash

theorem select_mem (c : Client) (P : List String) (targets : TargetFiles) (p : String)
    (hsel : syncChannelRelease.select c P = .ok (targets, p)) (hne : targets.length ≠ 0) :
    p ∈ P := by
  induction P with
  | nil =>
    simp only [syncChannelRelease.select, Except.ok.injEq, Prod.mk.injEq] at hsel
    rw [← hsel.1] at hne
    exact absurd rfl hne
  | cons q rest ih =>
    simp only [syncChannelRelease.select] at hsel
    split at hsel
    · cases hsel
    · split at hsel
      · simp only [Except.ok.injEq, Prod.mk.injEq] at hsel
        rw [← hsel.2]
        exact List.mem_cons_self _ _
      · exact List.mem_cons_of_mem _ (ih hsel)

theorem releaseTargetPrefix_bin (c : Client) (r p : String)
    (hos : '/' ∉ c.GOOS.data) (harch : '/' ∉ c.GOARCH.data)
    (hp : p ∈ releaseTargetPrefixes c r) : Join [p, "bin"] = p ++ "/bin" := by
  simp only [releaseTargetPrefixes, List.mem_cons, List.mem_singleton, List.not_mem_nil,
    or_false] at hp
  rcases hp with h | h | h | h <;> rw [h] <;> apply Join_name_bin <;> apply name_of_dash
  · simp [String.data_append]
  · simpa [String.data_append] using ⟨hos, harch⟩
  · simp [String.data_append]
  · simpa [String.data_append] using hos
  · simp [String.data_append]
  · simpa [String.data_append] using harch
  · decide
  · decide

theorem HasPrefix_append (p a s : String) :
    HasPrefix (p ++ s) (p ++ a) = HasPrefix s a := by
  unfold HasPrefix
  rw [String.data_append, String.data_append]
  induction p.data with
  | nil => rfl
  | cons x xs ih => simpa [List.isPrefixOf] using ih

/-- C16: when `syncChannelRelease` has chosen the platform directory `p` (the
operating system and architecture names being free of `/`), the mode it
requests for a target is 0o755 if and only if the name of the target starts
with `p/bin/`, and the regular mode otherwise; its `syncFile` calls are on the
selected targets, in order, each with the mode so determined.  A target named
`p/bin`, and every target under `p/binary/`, gets the regular mode. -/
theorem syncChannelRelease_executable_iff_under_bin (c : Client) (w : World)
    (group channel : String) (r : String) (targets : TargetFiles) (p : String)
    (hos : '/' ∉ c.GOOS.data) (harch : '/' ∉ c.GOARCH.data)
    (hr : channelRelease c w.fs group channel = .ok r)
    (hsel : syncChannelRelease.select c (releaseTargetPrefixes c r) = .ok (targets, p))
    (hne : targets.length ≠ 0) :
    (∃ k, (syncChannelRelease c w group channel).2.syncs =
        w.syncs ++ (targets.take k).map (fun t =>
          (⟨t.1, t.2, Join [c.dir, t.1],
            if HasPrefix t.1 (p ++ "/bin/") = true then 0o755 else fileModeRegular⟩ :
              SyncCall)) ∧
      ((syncChannelRelease c w group channel).1 = none → k = targets.length)) ∧
    (∀ name, releaseFileMode p name = 0o755 ↔ HasPrefix name (p ++ "/bin/") = true) ∧
    (∀ name, HasPrefix name (p ++ "/bin/") = false →
      releaseFileMode p name = fileModeRegular) ∧
    fileModeExecutable = 0o755 ∧
    releaseFileMode p (p ++ "/bin") = fileModeRegular ∧
    (∀ rest, releaseFileMode p (p ++ "/binary/" ++ rest) = fileModeRegular) := by
  have hbin : Join [p, "bin"] = p ++ "/bin" :=
    releaseTargetPrefix_bin c r p hos harch (select_mem c _ targets p hsel hne)
  have hmode : ∀ name, releaseFileMode p name
      = if HasPrefix name (p ++ "/bin/") = true then 0o755 else fileModeRegular := by
    intro name
    unfold releaseFileMode
    rw [hbin, String.append_assoc]
    rfl
  have hreg : ∀ name, HasPrefix name (p ++ "/bin/") = false →
      releaseFileMode p name = fileModeRegular := by
    intro name h
    rw [hmode, h]
    rfl
  refine ⟨?_, ?_, hreg, rfl, ?_, ?_⟩
  · obtain ⟨k, hk, hk2⟩ := syncAll_syncs c p targets w
    refine ⟨k, ?_, ?_⟩
    · unfold syncChannelRelease
      simp only [hr, hsel, if_neg hne]
      rw [hk]
      congr 1
      apply List.map_congr_left
      intro t _
      rw [hmode]
    · intro h
      apply hk2
      unfold syncChannelRelease at h
      simpa only [hr, hsel, if_neg hne] using h
  · intro name
    rw [hmode]
    cases HasPrefix name (p ++ "/bin/") <;> simp [fileModeRegular]
  · apply hreg
    rw [HasPrefix_append]
    decide
  · intro rest
    apply hreg
    rw [String.append_assoc, HasPrefix_append]
    unfold HasPrefix
    rw [String.data_append]
    rfl

/-- C16 on the sample installation: the chosen directory is
`releases/1.0.0/any-any`; the tool under its `bin/` is synced with mode 0o755
and the README with the regular mode. -/
theorem syncChannelRelease_executable_iff_under_bin_witness :
    ∃ k, (syncChannelRelease sampleClient channelOnlyWorld "g" "c").2.syncs =
      channelOnlyWorld.syncs ++
        ([ (⟨"releases/1.0.0/any-any/bin/tool", metaOf "#!tool",
              "/home/u/.trdl/p/releases/1.0.0/any-any/bin/tool", 0o755⟩ : SyncCall),
           ⟨"releases/1.0.0/any-any/README", metaOf "read me",
              "/home/u/.trdl/p/releases/1.0.0/any-any/README", fileModeRegular⟩ ].take k) := by
  obtain ⟨k, hk, -⟩ := (syncChannelRelease_executable_iff_under_bin sampleClient
    channelOnlyWorld "g" "c" "1.0.0"
    [("releases/1.0.0/any-any/bin/tool", metaOf "#!tool"),
     ("releases/1.0.0/any-any/README", metaOf "read me")]
    "releases/1.0.0/any-any" (by decide) (by decide) rfl rfl (by decide)).1
  refine ⟨k, ?_⟩
  rw [hk, List.map_take]
  rfl

/-- C17, the code on the sample installation: the regular mode of the source
is 0o655, not 0o644.  A first `UpdateChannel` requests 0o655 for the channel
file and for the README outside `bin/` (and 0o755 for the tool under `bin/`),
and both files are installed with mode 0o655. -/
theorem regular_files_synced_with_0o655 :
    fileModeRegular = 0o655 ∧ fileModeRegular ≠ 0o644 ∧
    (UpdateChannel sampleClient emptyWorld "g" "c").1 = none ∧
    (UpdateChannel sampleClient emptyWorld "g" "c").2.syncs.map
        (fun s => (s.targetName, s.destMode))
      = [("channels/g/c", 0o655), ("releases/1.0.0/any-any/bin/tool", 0o755),
         ("releases/1.0.0/any-any/README", 0o655)] ∧
    ((UpdateChannel sampleClient emptyWorld "g" "c").2.fs.files
        "/home/u/.trdl/p/channels/g/c").map (fun f => f.mode) = some 0o655 ∧
    ((UpdateChannel sampleClient emptyWorld "g" "c").2.fs.files
        "/home/u/.trdl/p/releases/1.0.0/any-any/README").map (fun f => f.mode) = some 0o655 :=
  ⟨by decide, by decide, by decide, by decide, by decide, by decide⟩

/-- C18, the code at the failing inputs.  The destination holds a stale
README with mode 0o600: `syncFile` with the requested mode 0o655 takes the
download path, returns nil and leaves the mode 0o600; only a second call, on
the path for an up-to-date file, sets 0o655.  The destination is absent and
the umask is 077: `syncFile` with the requested mode 0o755 downloads, returns
nil, and the new file has mode 0o700.  (Absent under the umask 022 it has
the requested mode.) -/
theorem download_path_leaves_mode :
    staleModeWorld.fs.files "/home/u/.trdl/p/releases/1.0.0/any-any/README"
      = some ⟨"old".data, 0o600⟩ ∧
    (syncFile sampleClient staleModeWorld "releases/1.0.0/any-any/README" (metaOf "read me")
      "/home/u/.trdl/p/releases/1.0.0/any-any/README" 0o655).1 = none ∧
    (syncFile sampleClient staleModeWorld "releases/1.0.0/any-any/README" (metaOf "read me")
      "/home/u/.trdl/p/releases/1.0.0/any-any/README" 0o655).2.downloads
      = ["releases/1.0.0/any-any/README"] ∧
    (syncFile sampleClient staleModeWorld "releases/1.0.0/any-any/README" (metaOf "read me")
      "/home/u/.trdl/p/releases/1.0.0/any-any/README" 0o655).2.fs.files
        "/home/u/.trdl/p/releases/1.0.0/any-any/README"
      = some ⟨"read me".data, 0o600⟩ ∧
    (syncFile sampleClient
      (syncFile sampleClient staleModeWorld "releases/1.0.0/any-any/README" (metaOf "read me")
        "/home/u/.trdl/p/releases/1.0.0/any-any/README" 0o655).2
      "releases/1.0.0/any-any/README" (metaOf "read me")
      "/home/u/.trdl/p/releases/1.0.0/any-any/README" 0o655).2.downloads
      = ["releases/1.0.0/any-any/README"] ∧
    (syncFile sampleClient
      (syncFile sampleClient staleModeWorld "releases/1.0.0/any-any/README" (metaOf "read me")
        "/home/u/.trdl/p/releases/1.0.0/any-any/README" 0o655).2
      "releases/1.0.0/any-any/README" (metaOf "read me")
      "/home/u/.trdl/p/releases/1.0.0/any-any/README" 0o655).2.fs.files
        "/home/u/.trdl/p/releases/1.0.0/any-any/README"
      = some ⟨"read me".data, 0o655⟩ ∧
    privateWorld.fs.files "/home/u/.trdl/p/releases/1.0.0/any-any/bin/tool" = none ∧
    (syncFile sampleClient privateWorld "releases/1.0.0/any-any/bin/tool" (metaOf "#!tool")
      "/home/u/.trdl/p/releases/1.0.0/any-any/bin/tool" 0o755).1 = none ∧
    (syncFile sampleClient privateWorld "releases/1.0.0/any-any/bin/tool" (metaOf "#!tool")
      "/home/u/.trdl/p/releases/1.0.0/any-any/bin/tool" 0o755).2.downloads
      = ["releases/1.0.0/any-any/bin/tool"] ∧
    (syncFile sampleClient privateWorld "releases/1.0.0/any-any/bin/tool" (metaOf "#!tool")
      "/home/u/.trdl/p/releases/1.0.0/any-any/bin/tool" 0o755).2.fs.files
        "/home/u/.trdl/p/releases/1.0.0/any-any/bin/tool"
      = some ⟨"#!tool".data, 0o700⟩ ∧
    (syncFile sampleClient emptyWorld "releases/1.0.0/any-any/bin/tool" (metaOf "#!tool")
      "/home/u/.trdl/p/releases/1.0.0/any-any/bin/tool" 0o755).2.fs.files
        "/home/u/.trdl/p/releases/1.0.0/any-any/bin/tool"
      = some ⟨"#!tool".data, 0o755⟩ :=
  ⟨by decide, by decide, by decide, by decide, by decide, by decide, by decide, by decide,
    by decide, by decide, by decide⟩

/-- C19, the code at the failing input.  For the bin directory `/d/bin` and
the matches `/d/bin/binary` and `/d/bin/idle` the names collected for the
several-files-found error are `ary` and `le`, not `binary` and `idle`:
`strings.TrimLeft` drops every leading character that occurs in `/d/bin/`.
On the sample installation, with the files `idle` and `tool` in the bin
directory and no `optionalBinName`, `channelReleaseBinPath` returns the
several-files-found error with two empty names; with `tool` as
`optionalBinName` it returns the path of that file. -/
theorem channelReleaseBinPath_names_overtrimmed :
    channelReleaseBinPath.names "/d/bin" ["/d/bin/binary", "/d/bin/idle"] = ["ary", "le"] ∧
    TrimLeft "/d/bin/binary" ("/d/bin" ++ "/") = "ary" ∧
    TrimLeft "/d/bin/idle" ("/d/bin" ++ "/") = "le" ∧
    TrimLeft "/d/bin/tool" ("/d/bin" ++ "/") = "tool" ∧
    channelReleaseBinDir sampleClient channelOnlyWorld.fs sampleDirView "g" "c"
      = .ok ("/home/u/.trdl/p/releases/1.0.0/any-any/bin", "1.0.0") ∧
    channelReleaseBinPath sampleClient channelOnlyWorld.fs sampleDirView "g" "c" ""
      = .error (.ErrChannelReleaseSeveralFilesFound sampleClient.projectName "g" "c" "1.0.0"
          ["", ""]) ∧
    channelReleaseBinPath sampleClient channelOnlyWorld.fs sampleDirView "g" "c" "tool"
      = .ok "/home/u/.trdl/p/releases/1.0.0/any-any/bin/tool" :=
  ⟨by decide, by decide, by decide, by decide, rfl, rfl, rfl⟩

end Trdl.Project

/-! # Theorems: project client, the selection of targets -/

namespace Trdl.Project

theorem HasPrefix_iff (s p : String) : HasPrefix s p = true ↔ ∃ rest, s = p ++ rest := by
  unfold HasPrefix
  rw [List.isPrefixOf_iff_prefix]
  constructor
  · rintro ⟨t, ht⟩
    refine ⟨String.mk t, ?_⟩
    apply String.ext
    rw [String.data_append, ht]
  · rintro ⟨rest, hrest⟩
    refine ⟨rest.data, ?_⟩
    rw [hrest, String.data_append]

theorem HasPrefix_extended (d : String) (ch : Char) (rest : String) (hch : ch ≠ '/') :
    HasPrefix (d ++ String.singleton ch ++ rest) (d ++ "/") = false := by
  rw [String.append_assoc, HasPrefix_append]
  unfold HasPrefix
  rw [String.data_append]
  show List.isPrefixOf ['/'] (ch :: rest.data) = false
  simp [List.isPrefixOf, Ne.symm hch]

theorem select_filter (c : Client) (T : TargetFiles) (hT : c.tufClient.Targets = .ok T)
    (P : List String) (targets : TargetFiles) (p : String)
    (hsel : syncChannelRelease.select c P = .ok (targets, p)) (hne : targets.length ≠ 0) :
    targets = T.filter (fun t => HasPrefix t.1 (p ++ "/")) := by
  induction P with
  | nil =>
    simp only [syncChannelRelease.select, Except.ok.injEq, Prod.mk.injEq] at hsel
    rw [← hsel.1] at hne
    exact absurd rfl hne
  | cons q rest ih =>
    simp only [syncChannelRelease.select, filterTargets, hT] at hsel
    split at hsel
    · simp only [Except.ok.injEq, Prod.mk.injEq] at hsel
      rw [← hsel.1, ← hsel.2]
    · exact ih hsel

/-- C23: for every target set `T` of the TUF client and every prefix `p`,
`filterTargets` returns the entries of `T` whose name starts with `p`, in
their order and each with its meta: an entry is returned if and only if it is
in `T` and its name is `p` followed by something.  With a directory `d`
followed by `/` as prefix, no name that continues `d` with a character other
than `/` is returned.  So when `syncChannelRelease` has chosen the platform
directory `p`, its selection is `filterTargets` of `p/`, and every `syncFile`
call it makes is on an entry of `T` whose name starts with `p/`, never on one
whose directory name merely extends `p`. -/
theorem filterTargets_exact (c : Client) (T : TargetFiles)
    (hT : c.tufClient.Targets = .ok T) :
    (∀ p, ∃ R, filterTargets c p = .ok R ∧ R.Sublist T ∧
      ∀ name meta, (name, meta) ∈ R ↔ (name, meta) ∈ T ∧ ∃ rest, name = p ++ rest) ∧
    (∀ d ch rest meta R, ch ≠ '/' → filterTargets c (d ++ "/") = .ok R →
      (d ++ String.singleton ch ++ rest, meta) ∉ R) ∧
    (∀ (w : World) (group channel r : String) (targets : TargetFiles) (p : String),
      channelRelease c w.fs group channel = .ok r →
      syncChannelRelease.select c (releaseTargetPrefixes c r) = .ok (targets, p) →
      targets.length ≠ 0 →
      p ∈ releaseTargetPrefixes c r ∧ filterTargets c (p ++ "/") = .ok targets ∧
      ∀ s ∈ (syncChannelRelease c w group channel).2.syncs, s ∈ w.syncs ∨
        ((s.targetName, s.targetMeta) ∈ T ∧ (∃ rest, s.targetName = p ++ "/" ++ rest) ∧
          ∀ ch rest, ch ≠ '/' → s.targetName ≠ p ++ String.singleton ch ++ rest)) := by
  have hfilter : ∀ p, filterTargets c p = .ok (T.filter (fun t => HasPrefix t.1 p)) := by
    intro p
    simp only [filterTargets, hT]
  refine ⟨?_, ?_, ?_⟩
  · intro p
    refine ⟨_, hfilter p, List.filter_sublist _, ?_⟩
    intro name meta
    rw [List.mem_filter, HasPrefix_iff]
  · intro d ch rest meta R hch hR hmem
    rw [hfilter] at hR
    cases hR
    have := (List.mem_filter.mp hmem).2
    rw [HasPrefix_extended d ch rest hch] at this
    cases this
  · intro w group channel r targets p hr hsel hne
    have htargets := select_filter c T hT _ targets p hsel hne
    refine ⟨select_mem c _ targets p hsel hne, by rw [hfilter, htargets], ?_⟩
    intro s hs
    obtain ⟨k, hk, -⟩ := syncAll_syncs c p targets w
    have hrun : syncChannelRelease c w group channel
        = syncChannelRelease.syncAll c p targets w := by
      unfold syncChannelRelease
      simp only [hr, hsel, if_neg hne]
    rw [hrun, hk] at hs
    rcases List.mem_append.mp hs with h | h
    · exact Or.inl h
    · right
      obtain ⟨t, ht, hst⟩ := List.mem_map.mp h
      have ht1 : t ∈ targets := List.mem_of_mem_take ht
      rw [htargets] at ht1
      obtain ⟨htT, htp⟩ := List.mem_filter.mp ht1
      have hname : s.targetName = t.1 := by rw [← hst]
      have hmeta : s.targetMeta = t.2 := by rw [← hst]
      rw [hname, hmeta]
      refine ⟨htT, ?_, ?_⟩
      · obtain ⟨rest, hrest⟩ := (HasPrefix_iff _ _).mp htp
        exact ⟨rest, hrest⟩
      · intro ch rest hch heq
        rw [heq, HasPrefix_extended p ch rest hch] at htp
        cases htp

/-- C23 on a repository with look-alike directories (releases 1.0 and 1.0.1,
platform directories `linux-amd64` and `linux-amd64v2`), the channel pointing
to release 1.0 on linux/amd64: the selection for `releases/1.0/linux-amd64/`
is the one tool under that directory, and it is the only target synced. -/
theorem filterTargets_exact_witness :
    (∀ meta R, filterTargets lookAlikeClient ("releases/1.0/linux-amd64" ++ "/") = .ok R →
      ("releases/1.0/linux-amd64" ++ String.singleton 'v' ++ "2/bin/tool", meta) ∉ R) ∧
    filterTargets lookAlikeClient "releases/1.0/linux-amd64/"
      = .ok [("releases/1.0/linux-amd64/bin/tool", metaOf "#!tool")] ∧
    (syncChannelRelease lookAlikeClient lookAlikeWorld "g" "c").1 = none ∧
    (syncChannelRelease lookAlikeClient lookAlikeWorld "g" "c").2.syncs.map
        (fun s => s.targetName)
      = ["releases/1.0/linux-amd64/bin/tool"] :=
  ⟨fun meta R => (filterTargets_exact lookAlikeClient
      (lookAlikeRemote.map (fun t : String × String => (t.1, metaOf t.2))) rfl).2.1
      "releases/1.0/linux-amd64" 'v' "2/bin/tool" meta R (by decide),
    rfl, by decide, by decide⟩

end Trdl.Project

/-! # Theorems: project client, the platform fallback -/

namespace Trdl.Project

theorem Join_name_of_clean (rooted : Bool) (L : List (List Char)) (p e : String)
    (hne : L ≠ []) (hL : CleanStack rooted L.reverse)
    (hp : p.data = (if rooted = true then ['/'] else []) ++ joinSlash L)
    (he : e.data ≠ [] ∧ e.data ≠ ['.'] ∧ e.data ≠ ['.', '.'] ∧ '/' ∉ e.data) :
    (Join [p, e]).data = p.data ++ '/' :: e.data := by
  obtain ⟨x, rest, hxr⟩ := List.exists_cons_of_ne_nil hne
  have hx : x ≠ [] ∧ x ≠ ['.'] ∧ '/' ∉ x := hL.1 x (by rw [List.mem_reverse, hxr]; simp)
  obtain ⟨c, cs, hc⟩ := List.exists_cons_of_ne_nil hx.1
  have hcs : c ≠ '/' := fun h => hx.2.2 (by rw [hc, h]; exact List.mem_cons_self _ _)
  have hdata : p.data ≠ [] := by
    rw [hp]
    intro h0
    have h2 := (List.append_eq_nil.mp h0).2
    have := joinSlash_head rest x c cs hc
    rw [← hxr, h2] at this
    cases this
  have hpne : p ≠ "" := by
    intro h
    rw [h] at hdata
    exact hdata rfl
  have hhead : decide ((p.data ++ '/' :: e.data).head? = some '/') = rooted := by
    rw [hp]
    cases rooted with
    | true => simp
    | false =>
      have := joinSlash_head rest x c cs hc
      rw [← hxr] at this
      simp only [Bool.false_eq_true, if_false, List.nil_append]
      rw [List.head?_append_of_ne_nil _ (by intro h0; rw [h0] at this; cases this), this]
      simp [hcs]
  have hnoslash : ∀ y ∈ L, '/' ∉ y := fun y hy => (hL.1 y (List.mem_reverse.mpr hy)).2.2
  have hsplit : splitPath p.data = (if rooted = true then [[]] else []) ++ L := by
    rw [hp]
    cases rooted with
    | true =>
      simp only [if_true]
      have := splitPath_append_slash [] (joinSlash L)
      rw [List.nil_append] at this
      rw [List.singleton_append, this, splitPath_joinSlash L hne hnoslash]
      rfl
    | false =>
      simp only [Bool.false_eq_true, if_false, List.nil_append]
      exact splitPath_joinSlash L hne hnoslash
  have hfold : (splitPath p.data).foldl (cleanStep rooted) [] = L.reverse := by
    rw [hsplit, List.foldl_append]
    have h0 : (if rooted = true then [[]] else []).foldl (cleanStep rooted) []
        = ([] : List (List Char)) := by
      cases rooted <;> simp [cleanStep]
    rw [h0]
    have := foldl_cleanStep_of_cleanStack rooted L [] (by simpa using hL)
    simpa using this
  have hstep : cleanStep rooted L.reverse e.data = e.data :: L.reverse := by
    unfold cleanStep
    rw [if_neg (by rintro (h | h); exact he.1 h; exact he.2.1 h), if_neg he.2.2.1]
  have hjoin : Join [p, e] = Clean (String.mk (p.data ++ '/' :: e.data)) := by
    simp only [Join, hpne, if_false, List.map_cons, List.map_nil, joinSlash]
  have hheadP : ((p.data ++ '/' :: e.data).head? = some '/') ↔ rooted = true := by
    rw [← hhead]
    exact decide_eq_true_iff.symm
  rw [hjoin]
  unfold Clean
  simp only [hheadP, Bool.decide_eq_true, splitPath_append_slash, List.foldl_append, hfold,
    splitPath_of_no_slash e.data he.2.2.2, List.foldl_cons, List.foldl_nil, hstep,
    List.reverse_cons, List.reverse_reverse, joinSlash_concat L _ hne]
  rw [if_neg]
  · rw [hp]
    simp
  · intro h0
    rcases List.append_eq_nil.mp h0 with ⟨_, h2⟩
    rcases List.append_eq_nil.mp h2 with ⟨_, h3⟩
    cases h3

theorem Join_release_platform (r plat : String)
    (hr : r.data ≠ [] ∧ r.data ≠ ['.'] ∧ r.data ≠ ['.', '.'] ∧ '/' ∉ r.data)
    (hdash : '-' ∈ plat.data) (hslash : '/' ∉ plat.data) :
    Join [Join [targetsReleases, r], plat] = "releases/" ++ r ++ "/" ++ plat := by
  have hbase : (Join [targetsReleases, r]).data = "releases".data ++ '/' :: r.data := by
    refine Join_name_of_clean false ["releases".data] targetsReleases r (by simp) ?_ rfl hr
    refine ⟨?_, by simp, fun _ _ _ => rfl⟩
    intro x hx
    simp only [List.reverse_cons, List.reverse_nil, List.nil_append, List.mem_singleton] at hx
    subst hx
    decide
  have hplat := Join_name_of_clean false ["releases".data, r.data]
    (Join [targetsReleases, r]) plat (by simp)
    (by
      refine ⟨?_, ?_, fun _ _ _ => rfl⟩
      · intro x hx
        simp only [List.reverse_cons, List.reverse_nil, List.nil_append, List.singleton_append,
          List.mem_cons, List.mem_singleton, List.not_mem_nil, or_false] at hx
        rcases hx with h | h
        · subst h; exact ⟨hr.1, hr.2.1, hr.2.2.2⟩
        · subst h; decide
      · simp only [List.reverse_cons, List.reverse_nil, List.nil_append, List.singleton_append]
        rw [List.pairwise_cons]
        exact ⟨fun y _ h => absurd h hr.2.2.1, List.pairwise_singleton _ _⟩)
    (by rw [hbase]; simp [joinSlash])
    (name_of_dash plat hdash hslash)
  apply String.ext
  rw [hplat, hbase]
  simp only [String.data_append]
  simp

theorem releaseTargetPrefixes_names (c : Client) (r : String)
    (hr : r.data ≠ [] ∧ r.data ≠ ['.'] ∧ r.data ≠ ['.', '.'] ∧ '/' ∉ r.data)
    (hos : '/' ∉ c.GOOS.data) (harch : '/' ∉ c.GOARCH.data) :
    releaseTargetPrefixes c r =
      [ "releases/" ++ r ++ "/" ++ (c.GOOS ++ "-" ++ c.GOARCH),
        "releases/" ++ r ++ "/" ++ (c.GOOS ++ "-any"),
        "releases/" ++ r ++ "/" ++ ("any-" ++ c.GOARCH),
        "releases/" ++ r ++ "/" ++ "any-any" ] := by
  unfold releaseTargetPrefixes
  simp only
  rw [Join_release_platform r (c.GOOS ++ "-" ++ c.GOARCH) hr
      (by simp [String.data_append]) (by simpa [String.data_append] using ⟨hos, harch⟩),
    Join_release_platform r (c.GOOS ++ "-any") hr
      (by simp [String.data_append]) (by simpa [String.data_append] using hos),
    Join_release_platform r ("any-" ++ c.GOARCH) hr
      (by simp [String.data_append]) (by simpa [String.data_append] using harch),
    Join_release_platform r "any-any" hr (by decide) (by decide)]

theorem afterSyncs_syncs (c : Client) (p : String) (done : TargetFiles) :
    ∀ w : World, (afterSyncs c p done w).syncs
      = w.syncs ++ done.map (fun t =>
          (⟨t.1, t.2, Join [c.dir, t.1], releaseFileMode p t.1⟩ : SyncCall)) := by
  induction done with
  | nil => intro w; simp [afterSyncs]
  | cons t rest ih =>
    intro w
    have := ih (syncFile c w t.1 t.2 (Join [c.dir, t.1]) (releaseFileMode p t.1)).2
    unfold afterSyncs at this ⊢
    rw [List.foldl_cons, this, syncFile_syncs]
    simp

theorem syncAll_trace (c : Client) (p : String) (targets : TargetFiles) (hne : targets ≠ []) :
    ∀ w : World, ∃ k t, targets[k]? = some t ∧
      (∀ i ti, i < k → targets[i]? = some ti →
        (syncFile c (afterSyncs c p (targets.take i) w) ti.1 ti.2 (Join [c.dir, ti.1])
          (releaseFileMode p ti.1)).1 = none) ∧
      syncChannelRelease.syncAll c p targets w
        = syncFile c (afterSyncs c p (targets.take k) w) t.1 t.2 (Join [c.dir, t.1])
            (releaseFileMode p t.1) ∧
      ((syncChannelRelease.syncAll c p targets w).1 = none → k + 1 = targets.length) := by
  induction targets with
  | nil => exact absurd rfl hne
  | cons t0 rest ih =>
    intro w
    obtain ⟨name, meta⟩ := t0
    cases hs : syncFile c w name meta (Join [c.dir, name]) (releaseFileMode p name) with
    | mk e w1 =>
      cases e with
      | some err =>
        refine ⟨0, (name, meta), by simp, fun i ti hi => absurd hi (Nat.not_lt_zero i), ?_, ?_⟩
        · simp [syncChannelRelease.syncAll, hs, afterSyncs]
        · simp [syncChannelRelease.syncAll, hs]
      | none =>
        by_cases hrest : rest = []
        · subst hrest
          refine ⟨0, (name, meta), by simp, fun i ti hi => absurd hi (Nat.not_lt_zero i), ?_, ?_⟩
          · simp [syncChannelRelease.syncAll, hs, afterSyncs]
          · intro _; rfl
        · obtain ⟨k, t, hk, hprev, heq, hall⟩ := ih hrest w1
          have hstep : ∀ l : TargetFiles, afterSyncs c p ((name, meta) :: l) w
              = afterSyncs c p l w1 := by
            intro l
            unfold afterSyncs
            rw [List.foldl_cons, hs]
          have hrun : syncChannelRelease.syncAll c p ((name, meta) :: rest) w
              = syncChannelRelease.syncAll c p rest w1 := by
            simp [syncChannelRelease.syncAll, hs]
          refine ⟨k + 1, t, by simpa using hk, ?_, ?_, ?_⟩
          · intro i ti hi hti
            cases i with
            | zero =>
              simp only [List.getElem?_cons_zero, Option.some.injEq] at hti
              subst hti
              simp only [List.take_zero, afterSyncs, List.foldl_nil]
              rw [hs]
            | succ j =>
              rw [List.take_succ_cons, hstep]
              exact hprev j ti (by omega) (by simpa using hti)
          · rw [hrun, heq, List.take_succ_cons, hstep]
          · intro h
            rw [hrun] at h
            have := hall h
            simp only [List.length_cons]
            omega

theorem syncFile_not_errorf (c : Client) (w : World) (targetName : String)
    (targetMeta : TargetFileMeta) (dest : String) (destMode : Nat) (format : String)
    (args : List String) :
    (syncFile c w targetName targetMeta dest destMode).1 ≠ some (.errorf format args) := by
  have hd : ∀ w1 : World,
      (downloadFile c w1 targetName dest destMode).1 ≠ some (.errorf format args) := by
    intro w1
    unfold downloadFile
    split
    · simp
    · split
      · simp
      · split <;> simp
  unfold syncFile
  simp only
  split
  · simp
  · split
    · split
      · simp
      · simp
      · split
        · simp
        · split
          · split <;> simp
          · exact hd _
    · exact hd _

/-- C6, amended: for every TUF target set `T` and release name `r` read from
the channel file, `syncChannelRelease` tries the platform directories
`filepath.Join(releases, r, <os>-<arch>)`, then `<os>-any`, `any-<arch>` and
`any-any` (they are `releases/r/<os>-<arch>` and so on when `r` and the
platform names are plain names), and chooses the first one, `p`, under which
a target exists.  It then calls `syncFile` on the targets under `p`, in their
order, each on the state the previous call left, with its meta, its place
under the client directory and the mode of its kind, until a call fails: at
least the first target is synced, the calls before the last one returned nil,
the result and the final state are those of the last call, and when the
result is nil the last call is on the last target under `p`.  No `syncFile`
call is made on a target that is not under `p`, and the result is never an
error built by `fmt.Errorf` without a cause, such as the "nothing found"
error.  If no target exists under any of the four directories it returns the
"nothing found" error and leaves everything as it was: no file is synced. -/
theorem syncChannelRelease_platform_fallback (c : Client) (w : World) (group channel : String)
    (T : TargetFiles) (r : String)
    (hT : c.tufClient.Targets = .ok T)
    (hr : channelRelease c w.fs group channel = .ok r) :
    (r.data ≠ [] ∧ r.data ≠ ['.'] ∧ r.data ≠ ['.', '.'] ∧ '/' ∉ r.data →
      '/' ∉ c.GOOS.data → '/' ∉ c.GOARCH.data →
      releaseTargetPrefixes c r =
        [ "releases/" ++ r ++ "/" ++ (c.GOOS ++ "-" ++ c.GOARCH),
          "releases/" ++ r ++ "/" ++ (c.GOOS ++ "-any"),
          "releases/" ++ r ++ "/" ++ ("any-" ++ c.GOARCH),
          "releases/" ++ r ++ "/" ++ "any-any" ]) ∧
    ((∀ p ∈ releaseTargetPrefixes c r, ∀ t ∈ T, HasPrefix t.1 (p ++ "/") = false) →
      syncChannelRelease c w group channel =
        (some (.errorf
          "nothing found in the repo for group: %q channel: %q os: %q arch: %q (release: %q)"
          [group, channel, c.GOOS, c.GOARCH, r]), w)) ∧
    (∀ pre p post, releaseTargetPrefixes c r = pre ++ p :: post →
      (∀ q ∈ pre, ∀ t ∈ T, HasPrefix t.1 (q ++ "/") = false) →
      (∃ t ∈ T, HasPrefix t.1 (p ++ "/") = true) →
      syncChannelRelease.select c (releaseTargetPrefixes c r)
        = .ok (T.filter (fun t => HasPrefix t.1 (p ++ "/")), p) ∧
      ∃ k t, (T.filter (fun t => HasPrefix t.1 (p ++ "/")))[k]? = some t ∧
        (∀ i ti, i < k → (T.filter (fun t => HasPrefix t.1 (p ++ "/")))[i]? = some ti →
          (syncFile c
            (afterSyncs c p ((T.filter (fun t => HasPrefix t.1 (p ++ "/"))).take i) w)
            ti.1 ti.2 (Join [c.dir, ti.1]) (releaseFileMode p ti.1)).1 = none) ∧
        syncChannelRelease c w group channel
          = syncFile c
              (afterSyncs c p ((T.filter (fun t => HasPrefix t.1 (p ++ "/"))).take k) w)
              t.1 t.2 (Join [c.dir, t.1]) (releaseFileMode p t.1) ∧
        ((syncChannelRelease c w group channel).1 = none →
          k + 1 = (T.filter (fun t => HasPrefix t.1 (p ++ "/"))).length) ∧
        (syncChannelRelease c w group channel).2.syncs
          = w.syncs ++ ((T.filter (fun t => HasPrefix t.1 (p ++ "/"))).take (k + 1)).map
              (fun t => (⟨t.1, t.2, Join [c.dir, t.1], releaseFileMode p t.1⟩ : SyncCall)) ∧
        (∀ s ∈ (syncChannelRelease c w group channel).2.syncs, s ∈ w.syncs ∨
          ((s.targetName, s.targetMeta) ∈ T ∧ HasPrefix s.targetName (p ++ "/") = true)) ∧
        (∀ format args,
          (syncChannelRelease c w group channel).1 ≠ some (.errorf format args))) := by
  refine ⟨releaseTargetPrefixes_names c r, ?_, ?_⟩
  · intro h
    unfold syncChannelRelease
    simp only [hr, select_none c T hT _ h, List.length_nil, if_true]
  · intro pre p post hP hpre hp
    have hsel : syncChannelRelease.select c (releaseTargetPrefixes c r)
        = .ok (T.filter (fun t => HasPrefix t.1 (p ++ "/")), p) := by
      rw [hP]
      exact select_first c T hT pre p post hpre hp
    have hne : T.filter (fun t => HasPrefix t.1 (p ++ "/")) ≠ [] := by
      obtain ⟨t, ht, hpt⟩ := hp
      intro h0
      have : t ∈ T.filter (fun t => HasPrefix t.1 (p ++ "/")) := List.mem_filter.mpr ⟨ht, hpt⟩
      rw [h0] at this
      exact List.not_mem_nil _ this
    have hlen : (T.filter (fun t => HasPrefix t.1 (p ++ "/"))).length ≠ 0 := by
      rw [Ne, List.length_eq_zero]
      exact hne
    have hrun : syncChannelRelease c w group channel
        = syncChannelRelease.syncAll c p (T.filter (fun t => HasPrefix t.1 (p ++ "/"))) w := by
      unfold syncChannelRelease
      simp only [hr, hsel, if_neg hlen]
    obtain ⟨k, t, hk, hprev, heq, hall⟩ := syncAll_trace c p _ hne w
    have hsyncs : (syncChannelRelease c w group channel).2.syncs
        = w.syncs ++ ((T.filter (fun t => HasPrefix t.1 (p ++ "/"))).take (k + 1)).map
            (fun t => (⟨t.1, t.2, Join [c.dir, t.1], releaseFileMode p t.1⟩ : SyncCall)) := by
      rw [hrun, heq, syncFile_syncs, afterSyncs_syncs, List.take_succ, hk]
      simp
    refine ⟨hsel, k, t, hk, hprev, hrun.trans heq, ?_, hsyncs, ?_, ?_⟩
    · rw [hrun]; exact hall
    · intro s hs
      rw [hsyncs] at hs
      rcases List.mem_append.mp hs with h | h
      · exact Or.inl h
      · right
        obtain ⟨t1, ht1, hst⟩ := List.mem_map.mp h
        obtain ⟨htT, htp⟩ := List.mem_filter.mp (List.mem_of_mem_take ht1)
        rw [← hst]
        exact ⟨htT, htp⟩
    · intro format args
      rw [hrun, heq]
      exact syncFile_not_errorf c _ _ _ _ _ format args

/-! ## Concrete runs -/

/-- C6, the claim as stated fails: two targets exist under the chosen
directory `releases/1.0.0/any-any`, the tool and the README, and the download
of the tool fails.  `syncChannelRelease` returns the download error after the
one `syncFile` call on the tool; the README, a target under the chosen
directory, is not synced and not installed. -/
theorem syncChannelRelease_stops_at_failed_sync :
    channelRelease failingDownloadClient channelOnlyWorld.fs "g" "c" = .ok "1.0.0" ∧
    syncChannelRelease.select failingDownloadClient
        (releaseTargetPrefixes failingDownloadClient "1.0.0")
      = .ok ([("releases/1.0.0/any-any/bin/tool", metaOf "#!tool"),
              ("releases/1.0.0/any-any/README", metaOf "read me")], "releases/1.0.0/any-any") ∧
    HasPrefix "releases/1.0.0/any-any/README" ("releases/1.0.0/any-any" ++ "/") = true ∧
    (syncChannelRelease failingDownloadClient channelOnlyWorld "g" "c").1
      = some (.external "connection reset") ∧
    (syncChannelRelease failingDownloadClient channelOnlyWorld "g" "c").2.syncs.map
        (fun s => s.targetName)
      = ["releases/1.0.0/any-any/bin/tool"] ∧
    (syncChannelRelease failingDownloadClient channelOnlyWorld "g" "c").2.fs.files
        "/home/u/.trdl/p/releases/1.0.0/any-any/README" = none :=
  ⟨rfl, rfl, by decide, by decide, by decide, by decide⟩

/-- C6 amended, on the sample installation (linux/amd64, release 1.0.0 with
files under `any-any` only): the four directories are the plain ones, the
first three hold no target, the fourth is chosen, and the `syncFile` calls are
on the two targets under it, in order; the call returns nil. -/
theorem syncChannelRelease_platform_fallback_witness :
    releaseTargetPrefixes sampleClient "1.0.0" =
      ["releases/1.0.0/linux-amd64", "releases/1.0.0/linux-any", "releases/1.0.0/any-amd64",
       "releases/1.0.0/any-any"] ∧
    syncChannelRelease.select sampleClient (releaseTargetPrefixes sampleClient "1.0.0")
      = .ok ([("releases/1.0.0/any-any/bin/tool", metaOf "#!tool"),
              ("releases/1.0.0/any-any/README", metaOf "read me")], "releases/1.0.0/any-any") ∧
    (syncChannelRelease sampleClient channelOnlyWorld "g" "c").1 = none ∧
    (syncChannelRelease sampleClient channelOnlyWorld "g" "c").2.syncs =
      channelOnlyWorld.syncs ++
        [ (⟨"releases/1.0.0/any-any/bin/tool", metaOf "#!tool",
              "/home/u/.trdl/p/releases/1.0.0/any-any/bin/tool", 0o755⟩ : SyncCall),
           ⟨"releases/1.0.0/any-any/README", metaOf "read me",
              "/home/u/.trdl/p/releases/1.0.0/any-any/README", 0o655⟩ ] := by
  have hthm := syncChannelRelease_platform_fallback sampleClient channelOnlyWorld "g" "c"
    (sampleRemote.map (fun t : String × String => (t.1, metaOf t.2))) "1.0.0" rfl rfl
  have hnames := hthm.1 (by decide) (by decide) (by decide)
  obtain ⟨hsel, k, t, -, -, -, hall, hsyncs, -, -⟩ := hthm.2.2
    ["releases/1.0.0/linux-amd64", "releases/1.0.0/linux-any", "releases/1.0.0/any-amd64"]
    "releases/1.0.0/any-any" [] (by decide) (by decide)
    ⟨("releases/1.0.0/any-any/README", metaOf "read me"), by decide, by decide⟩
  have hf : List.filter (fun t => HasPrefix t.1 ("releases/1.0.0/any-any" ++ "/"))
      (List.map (fun t : String × String => (t.1, metaOf t.2)) sampleRemote)
      = [("releases/1.0.0/any-any/bin/tool", metaOf "#!tool"),
         ("releases/1.0.0/any-any/README", metaOf "read me")] := by decide
  have hnil : (syncChannelRelease sampleClient channelOnlyWorld "g" "c").1 = none := by decide
  have hk := hall hnil
  rw [hf] at hsel hsyncs hk
  simp only [List.length_cons, List.length_nil] at hk
  have hk1 : k = 1 := by omega
  subst hk1
  refine ⟨hnames.trans (by decide), hsel, hnil, ?_⟩
  rw [hsyncs]
  rfl

end Trdl.Project

/-! # Theorems: command line client -/

namespace Trdl.Cmd

/-- C21: `GetBoolEnvironmentDefaultFalse` returns true if and only if the
variable is set and its value is exactly `1`, `true` or `yes`.  It returns
false when the variable is not set or empty, and for the values `TRUE`, `0`
and ` true` (with a leading blank); the comparison neither folds case nor
trims. -/
theorem GetBoolEnvironmentDefaultFalse_true_iff (env : Environment) (environmentName : String) :
    (GetBoolEnvironmentDefaultFalse env environmentName = true ↔
      env environmentName = some "1" ∨ env environmentName = some "true" ∨
        env environmentName = some "yes") ∧
    (GetBoolEnvironmentDefaultFalse env environmentName = false ↔
      env environmentName ≠ some "1" ∧ env environmentName ≠ some "true" ∧
        env environmentName ≠ some "yes") ∧
    (env environmentName = none → GetBoolEnvironmentDefaultFalse env environmentName = false) ∧
    (env environmentName = some "" → GetBoolEnvironmentDefaultFalse env environmentName = false) ∧
    (env environmentName = some "TRUE" →
      GetBoolEnvironmentDefaultFalse env environmentName = false) ∧
    (env environmentName = some "0" → GetBoolEnvironmentDefaultFalse env environmentName = false) ∧
    (env environmentName = some " true" →
      GetBoolEnvironmentDefaultFalse env environmentName = false) ∧
    (env environmentName = some "true " →
      GetBoolEnvironmentDefaultFalse env environmentName = false) ∧
    (env environmentName = some "Yes" →
      GetBoolEnvironmentDefaultFalse env environmentName = false) ∧
    GetBoolEnvironmentDefaultFalse (sampleEnvironment "yes") "TRDL_NO_SELF_UPDATE" = true ∧
    GetBoolEnvironmentDefaultFalse (sampleEnvironment "TRUE") "TRDL_NO_SELF_UPDATE" = false ∧
    GetBoolEnvironmentDefaultFalse (sampleEnvironment "1") "TRDL_OTHER" = false := by
  have hiff : GetBoolEnvironmentDefaultFalse env environmentName = true ↔
      env environmentName = some "1" ∨ env environmentName = some "true" ∨
        env environmentName = some "yes" := by
    unfold GetBoolEnvironmentDefaultFalse Getenv
    cases h : env environmentName with
    | none => simp only [Option.getD_none]; decide
    | some v =>
      simp only [Option.getD_some, Option.some.injEq]
      split
      · simp
      · simp
      · simp
      · rename_i h1 h2 h3
        simp only [Bool.false_eq_true, false_iff, not_or]
        exact ⟨h1, h2, h3⟩
  have hfalse : ∀ v : Option String, v ≠ some "1" → v ≠ some "true" → v ≠ some "yes" →
      env environmentName = v → GetBoolEnvironmentDefaultFalse env environmentName = false := by
    intro v h1 h2 h3 h
    rw [← Bool.not_eq_true, hiff, h]
    simp only [not_or]
    exact ⟨h1, h2, h3⟩
  refine ⟨hiff, ?_, hfalse none (by decide) (by decide) (by decide),
    hfalse (some "") (by decide) (by decide) (by decide),
    hfalse (some "TRUE") (by decide) (by decide) (by decide),
    hfalse (some "0") (by decide) (by decide) (by decide),
    hfalse (some " true") (by decide) (by decide) (by decide),
    hfalse (some "true ") (by decide) (by decide) (by decide),
    hfalse (some "Yes") (by decide) (by decide) (by decide), by decide, by decide, by decide⟩
  rw [← Bool.not_eq_true, hiff]
  simp only [not_or]

end Trdl.Cmd
